import Mathlib

/-!
# Canary string formatting (`canary/format.hpp`)

A shallow embedding of the format-string engine of `canary/format.hpp`:
the placeholder parser `detail::ArgumentParser`, the compiled template
`detail::ArgumentFormatter` (constructor and `Format`), the helpers
`IntegerExtractor` and `IndexedFormat`, and `Argument<T>::Format`.

Conventions of the embedding.

* A `std::string` is a `List Char`; an iterator into it is a `Nat` offset.
  Dereferencing the end iterator reads the terminating NUL (`charAt`).
* A C++ exception is an `Except.error`; `Exn.outOfFuel` is not an exception,
  it marks a loop that did not finish within the fuel it was given.
* Members that the source leaves uninitialised (`fill`, `align`, `width`,
  `precision`, `flags`, `type` of the parser; `align` of the local
  `ArgParseResult`) take their value from an `Indeterminate` record; the
  statements quantify over it, or name the record `zeroed` at a concrete
  input.
* The header does not compile as written.  Where a line is ill-formed the
  embedding follows the only reading the surrounding code admits, and says so
  in the doc comment of the definition concerned.
-/

namespace Canary

/-- The exceptions that can leave the code: the two declared with
`CANARY_ERROR`, the two thrown by `std::stoi`, and the marker `outOfFuel` for
a loop that was still running when its fuel ran out. -/
inductive Exn where
  | InvalidFormatString
  | ArgumentOutOfBounds
  | std_invalid_argument
  | std_out_of_range
  | outOfFuel
  deriving DecidableEq, Repr

/-- Decidable equality of results, so that closed evaluations can be decided. -/
instance instDecidableEqExcept {ε α : Type} [DecidableEq ε] [DecidableEq α] :
    DecidableEq (Except ε α)
  | .ok a, .ok b => if h : a = b then isTrue (by rw [h]) else isFalse (by intro h2; cases h2; exact h rfl)
  | .error a, .error b => if h : a = b then isTrue (by rw [h]) else isFalse (by intro h2; cases h2; exact h rfl)
  | .ok _, .error _ => isFalse (by intro h; cases h)
  | .error _, .ok _ => isFalse (by intro h; cases h)

namespace detail

/-- The NUL character, returned by `Peek` at the end and read at `end()`. -/
def NUL : Char := Char.ofNat 0

/-- Dereference of the iterator at offset `i` of the string `s`; the end
iterator (and anything behind it) reads NUL. -/
def charAt (s : List Char) (i : Nat) : Char := s.getD i NUL

/-- Flag `SIGN_FLAG = 1 << 1`. -/
def SIGN_FLAG : Nat := 1 <<< 1
/-- Flag `PLUS_FLAG = 1 << 2`. -/
def PLUS_FLAG : Nat := 1 <<< 2
/-- Flag `MINUS_FLAG = 1 << 3`. -/
def MINUS_FLAG : Nat := 1 <<< 3
/-- Flag `HASH_FLAG = 1 << 4`. -/
def HASH_FLAG : Nat := 1 <<< 4

/-- Enumeration `enum class Align`. -/
inductive Align where
  | DEFAULT
  | LEFT
  | RIGHT
  | CENTERED
  | NUMERIC
  deriving DecidableEq, Repr

/-- Record `struct Width`. -/
structure Width where
  width : Int
  id : List Char
  is_reference : Bool
  deriving DecidableEq, Repr

/-- Record `struct Precision`. -/
structure Precision where
  precision : Int
  id : List Char
  is_reference : Bool
  deriving DecidableEq, Repr

/-- Record `struct ArgParseResult`. -/
structure ArgParseResult where
  arg_id : List Char
  fill : Char
  align : Align
  width : Width
  precision : Precision
  flags : Nat
  type : Char
  deriving DecidableEq, Repr

/-- The values of everything the source reads without having initialised it:
the scalar members of a freshly constructed `ArgumentParser`, and the `align`
field of the local `ArgParseResult result` of each of the two `Parse` calls
(which `Parse` never assigns). -/
structure Indeterminate where
  fill : Char
  align : Align
  width : Int
  width_is_reference : Bool
  precision : Int
  precision_is_reference : Bool
  flags : Nat
  type : Char
  result_align : Align
  result_align2 : Align
  deriving DecidableEq, Repr

/-- The value of `INT_MAX` (32-bit `int`). -/
def INT_MAX : Int := 2147483647

/-- The value of `INT_MIN` (32-bit `int`). -/
def INT_MIN : Int := -2147483648

/-- Predicate `isspace` of the C locale. -/
def isSpace (c : Char) : Bool :=
  c == ' ' || (decide (9 ≤ c.toNat) && decide (c.toNat ≤ 13))

/-- Predicate `isdigit`. -/
def isDigitChar (c : Char) : Bool := decide ('0' ≤ c) && decide (c ≤ '9')

/-- The number written by a run of decimal digits. -/
def digitsValue (ds : List Char) : Nat :=
  ds.foldl (fun acc c => 10 * acc + (c.toNat - 48)) 0

/-- Library function `std::stoi(str)` (base 10): skips leading white space,
reads an optional sign and the longest run of digits; throws
`std::invalid_argument` when there is no digit and `std::out_of_range` when
the number does not fit an `int`. -/
def stoi (str : List Char) : Except Exn Int :=
  let s := str.dropWhile isSpace
  let neg := s.head? == some '-'
  let s := if s.head? == some '-' || s.head? == some '+' then s.tail else s
  let ds := s.takeWhile isDigitChar
  if ds.isEmpty then .error .std_invalid_argument
  else
    let v : Int := if neg then -(digitsValue ds : Int) else (digitsValue ds : Int)
    if v < INT_MIN || v > INT_MAX then .error .std_out_of_range else .ok v

/-- Class `ArgumentParser<It>`: the string the iterators point into, the
members `from` and `to` (here `from_` and `to_`), and the members holding the result. -/
structure ArgumentParser where
  str : List Char
  from_ : Nat
  to_ : Nat
  arg_id : List Char
  fill : Char
  align : Align
  width : Width
  precision : Precision
  flags : Nat
  type : Char
  deriving DecidableEq, Repr

namespace ArgumentParser

/-- Constructor `ArgumentParser(It& from, It& to)`: copies the two iterators;
the strings are default-constructed, every other member is indeterminate. -/
def new (str : List Char) (from_ to_ : Nat) (u : Indeterminate) : ArgumentParser :=
  { str := str, from_ := from_, to_ := to_, arg_id := [],
    fill := u.fill, align := u.align,
    width := { width := u.width, id := [], is_reference := u.width_is_reference },
    precision := { precision := u.precision, id := [],
                   is_reference := u.precision_is_reference },
    flags := u.flags, type := u.type }

/-- Method `HasNext`. -/
def HasNext (p : ArgumentParser) : Bool := p.from_ != p.to_

/-- Method `Peek`.  The source reads `it = ++from;` inside a `const` method;
the embedding takes the look-ahead reading (`it` is the iterator after `from`,
and `from` itself is not moved), the only one a `const` method allows. -/
def Peek (p : ArgumentParser) : Char :=
  if p.from_ + 1 != p.to_ then charAt p.str (p.from_ + 1) else NUL

/-- Method `Current`. -/
def Current (p : ArgumentParser) : Char := charAt p.str p.from_

/-- Method `Next`, as a state change (no caller uses the returned character). -/
def Next (p : ArgumentParser) : ArgumentParser :=
  if p.HasNext then { p with from_ := p.from_ + 1 } else p

/-- Method `IsDigit`. -/
def IsDigit (p : ArgumentParser) : Bool :=
  decide ('0' ≤ p.Current) && decide (p.Current ≤ '9')

/-- Method `IsIdentifierStart`. -/
def IsIdentifierStart (p : ArgumentParser) : Bool :=
  (decide ('a' ≤ p.Current) && decide (p.Current ≤ 'z')) ||
  (decide ('A' ≤ p.Current) && decide (p.Current ≤ 'Z')) ||
  p.Current == '_'

/-- Method `IsArgIdEnd`. -/
def IsArgIdEnd (p : ArgumentParser) : Bool :=
  p.Current == ':' || p.Current == '}'

/-- Method `IsIntType`. -/
def IsIntType (p : ArgumentParser) : Bool :=
  let c := p.Current
  c == 'b' || c == 'B' || c == 'd' || c == 'n' || c == 'x' || c == 'X' || c == 'o'

/-- Method `IsType`. -/
def IsType (p : ArgumentParser) : Bool :=
  let c := p.Current
  p.IsIntType ||
    c == 'a' || c == 'A' || c == 'c' || c == 'e' || c == 'E' ||
    c == 'f' || c == 'F' || c == 'g' || c == 'G' || c == 'p' ||
    c == 's'

/-- Fuel handed to each loop of the parser.  A loop of the parser that
terminates does so within `str.length + 1` iterations (it moves the cursor
until it stops, and stops at the latest on the NUL behind the string), so
running out of this fuel means the loop never ends: the cursor is stuck on
`to` and the loop condition still holds. -/
def loopFuel (p : ArgumentParser) : Nat := p.str.length + 2

/-- The loop `while (IsDigit()) { result.append(Current()); Next(); }`. -/
def digitLoop : Nat → ArgumentParser → List Char → Except Exn (List Char × ArgumentParser)
  | 0, _, _ => .error .outOfFuel
  | fuel + 1, p, result =>
    if p.IsDigit then digitLoop fuel p.Next (result ++ [p.Current])
    else .ok (result, p)

/-- The loop `while (!IsArgIdEnd() && (IsDigit() || IsIdentifierStart()))
{ result.append(Current()); Next(); }`. -/
def identLoop : Nat → ArgumentParser → List Char → Except Exn (List Char × ArgumentParser)
  | 0, _, _ => .error .outOfFuel
  | fuel + 1, p, result =>
    if !p.IsArgIdEnd && (p.IsDigit || p.IsIdentifierStart) then
      identLoop fuel p.Next (result ++ [p.Current])
    else .ok (result, p)

/-- Method `ParseArgumentId`: the id read, and the parser behind it. -/
def ParseArgumentId (p : ArgumentParser) : Except Exn (List Char × ArgumentParser) :=
  if p.IsDigit then
    match digitLoop p.loopFuel p [] with
    | .error e => .error e
    | .ok (result, p1) =>
      if !p1.IsArgIdEnd then .error .InvalidFormatString else .ok (result, p1)
  else if p.IsIdentifierStart then
    match identLoop p.loopFuel p.Next [p.Current] with
    | .error e => .error e
    | .ok (result, p1) =>
      if !p1.IsArgIdEnd then .error .InvalidFormatString else .ok (result, p1)
  else .error .InvalidFormatString

/-- The `switch (p)` of the alignment block: the alignment selected by the
character `p`, or the current one when `p` is no alignment symbol. -/
def alignSwitch (p : Char) (alignment : Align) : Align :=
  if p == '<' then Align.LEFT
  else if p == '>' then Align.RIGHT
  else if p == '=' then Align.NUMERIC
  else if p == '^' then Align.CENTERED
  else alignment

/-- The loop `while (p != 0) { switch (p) ...; if (alignment == DEFAULT)
{ if (p == Current()) break; p = Current(); continue; } else { fill =
Current(); if (fill == '}') throw ...; Next(); Next(); break; } }` of
`ParseFormatString`.  The source names the variable `alignment`; it is read
as the member `align`, the only alignment the class declares. -/
def alignLoop : Nat → ArgumentParser → Char → Except Exn ArgumentParser
  | 0, _, _ => .error .outOfFuel
  | fuel + 1, ps, p =>
    if p == NUL then .ok ps
    else
      let ps1 := { ps with align := alignSwitch p ps.align }
      if ps1.align == Align.DEFAULT then
        if p == ps1.Current then .ok ps1
        else alignLoop fuel ps1 ps1.Current
      else
        let ps2 := { ps1 with fill := ps1.Current }
        if ps2.fill == '}' then .error .InvalidFormatString
        else .ok ps2.Next.Next

/-- The alignment block of `ParseFormatString`: `alignment = DEFAULT;
char p = Peek();` followed by the loop. -/
def parseAlign (ps : ArgumentParser) : Except Exn ArgumentParser :=
  alignLoop ps.loopFuel { ps with align := Align.DEFAULT } ps.Peek

/-- The `switch (Current())` on the sign of `ParseFormatString`. -/
def parseSign (ps : ArgumentParser) : ArgumentParser :=
  if ps.Current == '+' then { ps with flags := ps.flags ||| (SIGN_FLAG ||| PLUS_FLAG) }.Next
  else if ps.Current == '-' then { ps with flags := ps.flags ||| MINUS_FLAG }.Next
  else if ps.Current == ' ' then { ps with flags := ps.flags ||| SIGN_FLAG }.Next
  else ps

/-- The check for `#` of `ParseFormatString`.  The source reads
`flags = != HASH_FLAG;`; it is read as `flags |= HASH_FLAG;`, as the sign
switch above it sets its flags. -/
def parseHash (ps : ArgumentParser) : ArgumentParser :=
  if ps.Current == '#' then { ps with flags := ps.flags ||| HASH_FLAG }.Next else ps

/-- The check for `0` of `ParseFormatString`. -/
def parseZero (ps : ArgumentParser) : ArgumentParser :=
  if ps.Current == '0' then { ps with fill := '0', align := Align.NUMERIC }.Next else ps

/-- The width block of `ParseFormatString`. -/
def parseWidth (ps : ArgumentParser) : Except Exn ArgumentParser :=
  if ps.Current == '{' then
    match ParseArgumentId ps.Next with
    | .error e => .error e
    | .ok (id, ps1) =>
      .ok { ps1 with width := { ps1.width with id := id, is_reference := true } }.Next
  else if ps.IsDigit then
    match digitLoop ps.loopFuel ps [] with
    | .error e => .error e
    | .ok (integer, ps1) =>
      match stoi integer with
      | .error e => .error e
      | .ok v => .ok { ps1 with width := { ps1.width with width := v } }
  else .ok ps

/-- The precision block of `ParseFormatString`. -/
def parsePrecision (ps : ArgumentParser) : Except Exn ArgumentParser :=
  if ps.Current == '.' then
    let ps0 := ps.Next
    if ps0.Current == '{' then
      match ParseArgumentId ps0.Next with
      | .error e => .error e
      | .ok (id, ps1) =>
        .ok { ps1 with precision := { ps1.precision with id := id, is_reference := true } }.Next
    else if ps0.IsDigit then
      match digitLoop ps0.loopFuel ps0 [] with
      | .error e => .error e
      | .ok (integer, ps1) =>
        match stoi integer with
        | .error e => .error e
        | .ok v => .ok { ps1 with precision := { ps1.precision with precision := v } }
    else .ok ps0
  else .ok ps

/-- The type block of `ParseFormatString`. -/
def parseType (ps : ArgumentParser) : ArgumentParser :=
  if ps.IsType then { ps with type := ps.Current }.Next else ps

/-- Method `ParseFormatString`.  The closing test of the source reads
`if (current != '}')`; it is read as `Current() != '}'`. -/
def ParseFormatString (ps : ArgumentParser) : Except Exn ArgumentParser :=
  if ps.Current == '}' then .ok ps
  else
    match parseAlign ps with
    | .error e => .error e
    | .ok ps1 =>
      match parseWidth (parseZero (parseHash (parseSign ps1))) with
      | .error e => .error e
      | .ok ps2 =>
        match parsePrecision ps2 with
        | .error e => .error e
        | .ok ps3 =>
          let ps4 := parseType ps3
          if ps4.Current != '}' then .error .InvalidFormatString else .ok ps4

/-- The tail of `Parse`: the copy of the members into the local `result`,
whose `align` is never assigned and keeps its indeterminate value. -/
def result (ps : ArgumentParser) (result_align : Align) : ArgParseResult :=
  { arg_id := ps.arg_id, fill := ps.fill, align := result_align, width := ps.width,
    precision := ps.precision, flags := ps.flags, type := ps.type }

/-- The block `if (!IsArgIdEnd()) { arg_id = ParseArgumentId(); }` of
`Parse`. -/
def parseArgId (ps : ArgumentParser) : Except Exn ArgumentParser :=
  if !ps.IsArgIdEnd then
    match ParseArgumentId ps with
    | .error e => .error e
    | .ok (id, q) => .ok { q with arg_id := id }
  else .ok ps

/-- Method `Parse`: the result, and the parser as the call leaves it.
`result_align` is the indeterminate `align` of the local `result`. -/
def Parse (ps : ArgumentParser) (result_align : Align) :
    Except Exn (ArgParseResult × ArgumentParser) :=
  if ps.Current != '{' then .error .InvalidFormatString
  else
    match parseArgId ps.Next with
    | .error e => .error e
    | .ok ps1 =>
      if ps1.Current == ':' then
        match ParseFormatString ps1.Next with
        | .error e => .error e
        | .ok ps2 => .ok (ps2.result result_align, ps2)
      else .ok (ps1.result result_align, ps1)

end ArgumentParser

/-- A value of the argument pack `Args...`, with what the code asks of its
static type: `integral` for a type with `std::is_integral` (the source writes
`std::is_integer`), `floating` for one with `std::is_floating_point`, `text`
for a string, `pointer` for one with `std::is_pointer`. -/
inductive Arg where
  | integral (value : Int)
  | floating (mantissa : Int) (exponent : Int)
  | text (value : List Char)
  | pointer (address : Nat)
  deriving DecidableEq, Repr

/-- Class `Argument<T>`: the parse result and the referenced value. -/
structure Argument where
  parse : ArgParseResult
  ref : Arg
  deriving DecidableEq, Repr

namespace Argument

/-- Method `IsIntegerType`. -/
def IsIntegerType (arg : Argument) : Bool :=
  match arg.ref with
  | .integral _ => true
  | _ => false

/-- Method `IsFloatType`. -/
def IsFloatType (arg : Argument) : Bool :=
  match arg.ref with
  | .floating _ _ => true
  | _ => false

/-- Method `IsNumber`. -/
def IsNumber (arg : Argument) : Bool := arg.IsIntegerType || arg.IsFloatType

/-- Method `IsPointer`. -/
def IsPointer (arg : Argument) : Bool :=
  match arg.ref with
  | .pointer _ => true
  | _ => false

/-- Method `DefaultAlignment`. -/
def DefaultAlignment (arg : Argument) : Align :=
  if arg.IsNumber then Align.RIGHT else Align.LEFT

/-- Method `Format`: the body is `// TODO: implement` followed by
`return "";`. -/
def Format (_arg : Argument) : List Char := []

end Argument

/-- Conversion of an integral value to `int` (32 bits, two's complement). -/
def toInt (v : Int) : Int := (v + 2147483648) % 4294967296 - 2147483648

/-- Function `IntegerExtractor<Args...>::Value(level, args...)`: the primary
template walks down the pack, the empty specialisation throws
`InvalidFormatStringException`.  The recursive step of the source,
`IntegerExtractor<Args...>(level-1, ...)`, is read as the call of `Value` on
the rest of the pack. -/
def IntegerExtractor.Value : Int → List Arg → Except Exn Int
  | _, [] => .error .InvalidFormatString
  | level, first :: args =>
    if level == 0 then
      match first with
      | .integral v => .ok (toInt v)
      | _ => .error .InvalidFormatString
    else IntegerExtractor.Value (level - 1) args

/-- Record of the members `format`, `consts` and `args` of class
`ArgumentFormatter`. -/
structure ArgumentFormatter where
  format : List Char
  consts : List (List Char)
  args : List ArgParseResult
  deriving DecidableEq, Repr

namespace ArgumentFormatter

/-- Function `std::to_string` on a non-negative `int`. -/
def to_string (n : Nat) : List Char := Nat.toDigits 10 n

/-- The loop `while (e != format.end() && e != '}') { ++e; }` (the second test
is read as `*e != '}'`), run over the characters from `e` on: the offset of
the first `}` at or behind `e`, or the end of the string. -/
def scanClose : List Char → Nat → Nat
  | [], e => e
  | c :: cs, e => if c == '}' then e else scanClose cs (e + 1)

/-- Lines 436 to 438 of the constructor: the ids given to the first parse
result `a`, and the counter `auto_id` behind them. -/
def assignIds (a : ArgParseResult) (auto_id : Nat) : ArgParseResult × Nat :=
  let a1 := { a with arg_id := to_string auto_id }
  let n1 := auto_id + 1
  let (a2, n2) :=
    if a1.width.is_reference && a1.width.id == [] then
      ({ a1 with width := { a1.width with id := to_string n1 } }, n1 + 1)
    else (a1, n1)
  if a2.precision.is_reference && a2.precision.id == [] then
    ({ a2 with precision := { a2.precision with id := to_string n2 } }, n2 + 1)
  else (a2, n2)

/-- The locals and members the constructor loop works on. -/
structure Building where
  current : List Char
  auto_id : Nat
  consts : List (List Char)
  args : List ArgParseResult
  deriving DecidableEq, Repr

/-- The loop `for (auto it = format.begin(); it != format.end(); ++it)` of the
constructor, from the offset `it` on.  `mem it` gives the indeterminate values
of the parser built at offset `it`.  In the placeholder branch the parser is
asked twice: `auto a = parser.Parse();` receives the ids, and
`args.push_back(parser.Parse());` stores the result of a second call on the
same parser object. -/
def loop (format : List Char) (mem : Nat → Indeterminate) :
    Nat → Nat → Building → Except Exn Building
  | 0, _, _ => .error .outOfFuel
  | fuel + 1, it, b =>
    if it == format.length then .ok b
    else if charAt format it == '{' && charAt format (it + 1) != '{' then
      let e := scanClose (format.drop it) it
      let parser := ArgumentParser.new format it e (mem it)
      match parser.Parse (mem it).result_align with
      | .error x => .error x
      | .ok (a, parser1) =>
        match parser1.Parse (mem it).result_align2 with
        | .error x => .error x
        | .ok (a2, _) =>
          loop format mem fuel (e + 1)
            { current := [], auto_id := (assignIds a b.auto_id).2,
              consts := b.consts ++ [b.current], args := b.args ++ [a2] }
    else
      let it1 := if charAt format it == '}' && charAt format (it + 1) == '}' then it + 1 else it
      loop format mem fuel (it1 + 1) { b with current := b.current ++ [charAt format it1] }

/-- Constructor `ArgumentFormatter(std::string format)`.  The loop ends within
`format.length` rounds when it ends at all (the offset grows in every round),
so running out of the fuel `format.length + 1` means it never ends. -/
def new (format : List Char) (mem : Nat → Indeterminate) : Except Exn ArgumentFormatter :=
  match loop format mem (format.length + 1) 0
      { current := [], auto_id := 0, consts := [], args := [] } with
  | .error x => .error x
  | .ok b =>
    .ok { format := format,
          consts := if b.current != [] then b.consts ++ [b.current] else b.consts,
          args := b.args }

/-- Function `IndexedFormat(layer, parse, args...)`: the overload without
arguments throws `ArgumentOutOfBoundsException`. -/
def IndexedFormat : Int → ArgParseResult → List Arg → Except Exn (List Char)
  | _, _, [] => .error .ArgumentOutOfBounds
  | layer, parse, first :: args =>
    if layer != 0 then IndexedFormat (layer - 1) parse args
    else .ok (Argument.Format { parse := parse, ref := first })

/-- Lines 476 to 479 of `Format`.  The source calls
`IntegerExtractor<Args...>::Value(arguments...)` without a level; the level is
read as the referenced id, `std::stoi(a.width.id)`, as line 485 does for
`arg_id`.  `a.width = value` is read as the assignment of the member
`width`. -/
def resolveWidth (a : ArgParseResult) (arguments : List Arg) : Except Exn ArgParseResult :=
  if a.width.is_reference then
    match stoi a.width.id with
    | .error x => .error x
    | .ok level =>
      match IntegerExtractor.Value level arguments with
      | .error x => .error x
      | .ok v => .ok { a with width := { a.width with width := v, is_reference := false } }
  else .ok a

/-- Lines 480 to 483 of `Format`, read as `resolveWidth` is. -/
def resolvePrecision (a : ArgParseResult) (arguments : List Arg) : Except Exn ArgParseResult :=
  if a.precision.is_reference then
    match stoi a.precision.id with
    | .error x => .error x
    | .ok level =>
      match IntegerExtractor.Value level arguments with
      | .error x => .error x
      | .ok v =>
        .ok { a with precision := { a.precision with precision := v, is_reference := false } }
  else .ok a

/-- Lines 475 to 486 of `Format`: the text one placeholder renders to. -/
def formatted (a : ArgParseResult) (arguments : List Arg) : Except Exn (List Char) :=
  match resolveWidth a arguments with
  | .error x => .error x
  | .ok a1 =>
    match resolvePrecision a1 arguments with
    | .error x => .error x
    | .ok a2 =>
      match stoi a2.arg_id with
      | .error x => .error x
      | .ok id => IndexedFormat id a2 arguments

/-- The loop `for (int i=0; i<args.size(); ++i)` of `Format`, from round `i`
on, over the specs not yet rendered. -/
def formatLoop (consts : List (List Char)) (arguments : List Arg) :
    List ArgParseResult → Nat → List Char → Except Exn (List Char)
  | [], _, result => .ok result
  | a :: rest, i, result =>
    match formatted a arguments with
    | .error x => .error x
    | .ok text =>
      let result1 := result ++ text
      let result2 := if i < consts.length - 1 then result1 ++ consts.getD (i + 1) [] else result1
      formatLoop consts arguments rest (i + 1) result2

/-- Method `Format(Args... arguments)`. -/
def Format (f : ArgumentFormatter) (arguments : List Arg) : Except Exn (List Char) :=
  if f.consts.length == 0 then .ok []
  else
    match formatLoop f.consts arguments f.args 0 (f.consts.getD 0 []) with
    | .error x => .error x
    | .ok result => .ok ((f.consts.drop (f.args.length + 1)).foldl (fun r c => r ++ c) result)

/-- The loop of `Format` once more, with the access `consts[i+1]` checked
against the size of the vector: `none` when the index is outside of it (where
`operator[]` has no defined behaviour). -/
def formatLoopChecked (consts : List (List Char)) (arguments : List Arg) :
    List ArgParseResult → Nat → List Char → Option (Except Exn (List Char))
  | [], _, result => some (.ok result)
  | a :: rest, i, result =>
    match formatted a arguments with
    | .error x => some (.error x)
    | .ok text =>
      let result1 := result ++ text
      if i < consts.length - 1 then
        match consts[i + 1]? with
        | none => none
        | some c => formatLoopChecked consts arguments rest (i + 1) (result1 ++ c)
      else formatLoopChecked consts arguments rest (i + 1) result1

/-- The number of rounds of the trailing loop `for (int i=args.size()+1;
i<consts.size(); ++i)` of `Format`. -/
def trailingRounds (f : ArgumentFormatter) : Nat := f.consts.length - (f.args.length + 1)

/-- Method `Format` once more, with the accesses `consts[0]` and `consts[i+1]`
checked against the size of the vector: `none` when an index is outside of
it. -/
def FormatChecked (f : ArgumentFormatter) (arguments : List Arg) :
    Option (Except Exn (List Char)) :=
  if f.consts.length == 0 then some (.ok [])
  else
    match f.consts[0]? with
    | none => none
    | some first =>
      match formatLoopChecked f.consts arguments f.args 0 first with
      | none => none
      | some (.error x) => some (.error x)
      | some (.ok result) =>
        some (.ok ((f.consts.drop (f.args.length + 1)).foldl (fun r c => r ++ c) result))

end ArgumentFormatter

/-- Functor `FormatFunctor::operator()`.  The source reads
`detail::ArgumentFormatter str (str);`: the local hides the member `str` and,
as the line is written, names itself in its own initialiser, so that the
constructor above would not run at all and the call would have no defined
behaviour.  The embedding follows the comment of that line (`// Parse the
string`): the local is the template compiled from the member `str`, which is
then rendered.  A statement about `FormatFunctor` or `Canary.Format` holds
under this reading only; what it says of the construction is stated for
`ArgumentFormatter.new` beside it. -/
def FormatFunctor (str : List Char) (mem : Nat → Indeterminate) (args : List Arg) :
    Except Exn (List Char) :=
  match ArgumentFormatter.new str mem with
  | .error x => .error x
  | .ok f => f.Format args

end detail

/-- Function `Canary::Format(format, args...)`: builds the functor on
`format` and calls it (see `detail.FormatFunctor` for the reading of its
body). -/
def Format (format : List Char) (mem : Nat → detail.Indeterminate) (args : List detail.Arg) :
    Except Exn (List Char) :=
  detail.FormatFunctor format mem args

/-! ## Terminal styles (`canary/ansi.hpp`)

The templates of `Canary::Ansi::detail` compute at compile time; they are
embedded as functions on the template arguments: a `CompileTimeString<S...>`
is the `List Char` of its characters, a `CodeList<Codes...>` the `List Nat` of
its codes.  An output stream is named by a number, and `Streams` holds the
text written to each so far. -/

namespace Ansi

namespace detail

/-- Template `Explode<Rem, Digits...>`: the primary template passes on to
`Explode<Rem / 10, Rem % 10, Digits...>`, the specialisation `Explode<0,
Digits...>` ends with `CompileTimeString<('0' + Digits)...>`. -/
def Explode (Rem : Nat) (Digits : List Nat) : List Char :=
  if h : Rem = 0 then Digits.map fun d => Char.ofNat ('0'.toNat + d)
  else Explode (Rem / 10) (Rem % 10 :: Digits)
termination_by Rem
decreasing_by exact Nat.div_lt_self (Nat.pos_of_ne_zero h) (by decide)

/-- Alias `ToCompileTimeString<v>`, which is `Explode<v>::Type`. -/
def ToCompileTimeString (v : Nat) : List Char := Explode v []

/-- Template `ConcatenateImpl<U<S1...>, V<S2...>, W...>`: the first two
strings are joined and the rest follows; a single string is the result. -/
def ConcatenateImpl : List Char → List (List Char) → List Char
  | S, [] => S
  | S1, S2 :: W => ConcatenateImpl (S1 ++ S2) W

/-- Member `CodeList<Code, Codes...>::Type`: the code, a `;` and the type of
the rest, or the code alone when it is the last one. -/
def CodeListType : Nat → List Nat → List Char
  | Code, [] => ToCompileTimeString Code
  | Code, C :: Codes =>
    ConcatenateImpl (ToCompileTimeString Code) [[';'], CodeListType C Codes]

/-- The types `ToCodeList` accepts: a `CodeList<S...>`, an `EscapeCode<L>` or
an `EscapeSequence<L>`. -/
inductive Codes where
  | CodeList (S : List Nat)
  | EscapeCode (L : Codes)
  | EscapeSequence (L : Codes)
  deriving DecidableEq, Repr

/-- Alias `ToCodeList<T>` (the three specialisations of `ToCodeListImpl`). -/
def ToCodeList : Codes → List Nat
  | .CodeList S => S
  | .EscapeCode L => ToCodeList L
  | .EscapeSequence L => ToCodeList L

/-- Template `MergeCodeListsImpl<L<C1...>, K...>`: a single list is the
result, two lists give `CodeList<C1..., C2...>`, and a longer pack merges its
head with the merged rest. -/
def MergeCodeListsImpl : List Nat → List (List Nat) → List Nat
  | C, [] => C
  | C1, [C2] => C1 ++ C2
  | C1, K :: Ks => C1 ++ MergeCodeListsImpl K Ks

/-- Alias `MergeCodeLists<Ls...>` of a pack with the head `L`. -/
def MergeCodeLists (L : Codes) (Ls : List Codes) : List Nat :=
  MergeCodeListsImpl (ToCodeList L) (Ls.map ToCodeList)

/-- Member `EscapeCode<L>::AnsiCode`, as the text `ConvertCompileTimeString`
gives: `\033[`, the type of the code list and `m`.  `CodeList<>` is declared
only, so that a style without any code has no escape code (it does not
compile). -/
def AnsiCode (L : Codes) : Option (List Char) :=
  match ToCodeList L with
  | [] => none
  | Code :: Codes => some (ConcatenateImpl ['\x1b', '['] [CodeListType Code Codes, ['m']])

/-- Alias `EscapeSequences<Ls...>`, which `Style<Codes...>` names. -/
def EscapeSequences (L : Codes) (Ls : List Codes) : Codes :=
  .EscapeSequence (.CodeList (MergeCodeLists L Ls))

/-- The text written to each output stream so far. -/
def Streams : Type := Nat → List Char

/-- The effect of `out << text` on the streams. -/
def put (streams : Streams) (out : Nat) (text : List Char) : Streams :=
  fun j => if j = out then streams j ++ text else streams j

/-- An object of class `EscapeSequence<L>`: the member `reset` and the stream
the member `out` points to (`none` while the pointer is not initialised). -/
structure EscapeSequence where
  L : Codes
  reset : Bool
  out : Option Nat
  deriving DecidableEq, Repr

namespace EscapeSequence

/-- Constructor `EscapeSequence()`: `reset(false)`, `out` is left alone. -/
def unbound (L : Codes) : EscapeSequence := { L := L, reset := false, out := none }

/-- Constructor `EscapeSequence(T& out)`: `out` points to the stream, `reset`
keeps its initialiser `true`, and `EscapeCode<L> code(out)` writes the escape
code to the stream. -/
def new (L : Codes) (out : Nat) (streams : Streams) : Option (EscapeSequence × Streams) :=
  match AnsiCode L with
  | none => none
  | some Value => some ({ L := L, reset := true, out := some out }, put streams out Value)

/-- Destructor `~EscapeSequence()`: writes `\033[0m` to the stream when
`reset` is set; `none` when it would have to go through a pointer that was
never set. -/
def destroy (seq : EscapeSequence) (streams : Streams) : Option Streams :=
  if seq.reset then
    match seq.out with
    | none => none
    | some out => some (put streams out ['\x1b', '[', '0', 'm'])
  else some streams

/-- Method `CancelReset`. -/
def CancelReset (seq : EscapeSequence) : EscapeSequence := { seq with reset := false }

end EscapeSequence

/-- Function `operator<<(T& out, EscapeSequence<L> sequence)`: builds a second
sequence `code` on the stream, cancels its reset, and returns; `code` and the
parameter `sequence` are destroyed on the way out. -/
def shiftLeft (out : Nat) (sequence : EscapeSequence) (streams : Streams) : Option Streams :=
  match EscapeSequence.new sequence.L out streams with
  | none => none
  | some (code, streams1) =>
    match code.CancelReset.destroy streams1 with
    | none => none
    | some streams2 => sequence.destroy streams2

end detail

/-- Alias `Ansi::EscapeSequence<code>`, which `CANARY_ESCAPE_CODE(name, number)`
gives a name. -/
def EscapeSequence (code : Nat) : detail.Codes := .EscapeSequence (.CodeList [code])

/-- Alias `Style<Codes...>`. -/
def Style (L : detail.Codes) (Ls : List detail.Codes) : detail.Codes :=
  detail.EscapeSequences L Ls

/-- Style `Reset`. -/
def Reset : detail.Codes := EscapeSequence 0

/-- Style `Bold`. -/
def Bold : detail.Codes := EscapeSequence 1

/-- Style `Faint`. -/
def Faint : detail.Codes := EscapeSequence 2

/-- Style `GreenForeground`. -/
def GreenForeground : detail.Codes := EscapeSequence 32

/-- Style `WhiteBackground`. -/
def WhiteBackground : detail.Codes := EscapeSequence 107

end Ansi

/-! ## Vocabulary of the statements -/

namespace detail

/-- The text a run of literal characters leaves in `current`: every `}}`
becomes one `}`, every other character stands for itself. -/
def collapse : List Char → List Char
  | [] => []
  | [c] => [c]
  | c :: d :: rest =>
    if c == '}' && d == '}' then '}' :: collapse rest else c :: collapse (d :: rest)

/-- The argument a reference with the given id points to: the one at the
position `std::stoi(id)`, when the id is a number and the position exists. -/
def referenced (id : List Char) (arguments : List Arg) : Option Arg :=
  match stoi id with
  | .ok k => if 0 ≤ k then arguments[k.toNat]? else none
  | .error _ => none

/-- Whether the argument has an integral type. -/
def Arg.isIntegral : Arg → Bool
  | .integral _ => true
  | _ => false

/-- One choice of the indeterminate values, for statements at a concrete
input: zeroed memory, with the blank as fill. -/
def zeroed : Indeterminate :=
  { fill := ' ', align := Align.DEFAULT, width := 0, width_is_reference := false,
    precision := 0, precision_is_reference := false, flags := 0, type := NUL,
    result_align := Align.DEFAULT, result_align2 := Align.DEFAULT }

/-- The format string `{} {} {}`. -/
def fmtAuto : List Char := "\x7b\x7d \x7b\x7d \x7b\x7d".toList

/-- The format string `{2} {0} {1}`. -/
def fmtExplicit : List Char := "\x7b2\x7d \x7b0\x7d \x7b1\x7d".toList

/-- The format string `{5}`. -/
def fmtFive : List Char := "\x7b5\x7d".toList

/-- The format string `{0:{1}}`. -/
def fmtIndirect : List Char := "\x7b0:\x7b1\x7d\x7d".toList

/-- The format string `{0:{5}}`. -/
def fmtIndirectFive : List Char := "\x7b0:\x7b5\x7d\x7d".toList

/-- The format string `{:99999999999`, an unterminated placeholder whose
width does not fit an `int`. -/
def fmtWide : List Char := "\x7b:99999999999".toList

/-- The format string `{:*>6}`. -/
def fmtPadRight : List Char := "\x7b:*>6\x7d".toList

/-- The format string `{:*<6}`. -/
def fmtPadLeft : List Char := "\x7b:*<6\x7d".toList

/-- The format string `{:*^6}`. -/
def fmtPadCentre : List Char := "\x7b:*^6\x7d".toList

/-- The spec the first `Parse` call reads from `{0:{1}}` in zeroed memory:
argument 0, width taken from argument 1. -/
def specIndirect : ArgParseResult :=
  { arg_id := ['0'], fill := ' ', align := Align.DEFAULT,
    width := { width := 0, id := ['1'], is_reference := true },
    precision := { precision := 0, id := [], is_reference := false },
    flags := 0, type := NUL }

/-- A spec with a precision taken from argument 1 and a literal width. -/
def specIndirectPrecision : ArgParseResult :=
  { arg_id := ['0'], fill := ' ', align := Align.DEFAULT,
    width := { width := 4, id := [], is_reference := false },
    precision := { precision := 0, id := ['1'], is_reference := true },
    flags := 0, type := NUL }

end detail

namespace detail

/-- Two parsers that read the same string with the same iterators. -/
structure sameCursor (p q : ArgumentParser) : Prop where
  str : p.str = q.str
  from_ : p.from_ = q.from_
  to_ : p.to_ = q.to_

/-- Two outcomes that agree: the same exception, or results related by `R`. -/
inductive agree {α : Type} (R : α → α → Prop) : Except Exn α → Except Exn α → Prop
  | ok {a b : α} (h : R a b) : agree R (.ok a) (.ok b)
  | error (e : Exn) : agree R (.error e) (.error e)

end detail

namespace detail

/-- Whether a character is one `IsIdentifierStart` accepts: a letter or `_`. -/
def isIdentStartChar (c : Char) : Bool :=
  (decide ('a' ≤ c) && decide (c ≤ 'z')) || (decide ('A' ≤ c) && decide (c ≤ 'Z')) || c == '_'

/-- Whether a character may stand inside an identifier: a digit, a letter
or `_`. -/
def isIdentChar (c : Char) : Bool := isDigitChar c || isIdentStartChar c

/-- Whether the text behind an argument id starts with `:` or `}`. -/
def terminated (rest : List Char) : Bool :=
  rest.head? == some ':' || rest.head? == some '}'

/-- Whether a character is one of the alignment symbols `<`, `>`, `=`, `^`. -/
def isAlignChar (c : Char) : Bool := c == '<' || c == '>' || c == '=' || c == '^'

/-- The eighteen type characters of the grammar. -/
def typeChars : List Char :=
  ['b', 'B', 'd', 'n', 'x', 'X', 'o', 'a', 'A', 'c', 'e', 'E', 'f', 'F', 'g', 'G', 'p', 's']

/-- The seven integer type characters of the grammar. -/
def intTypeChars : List Char := ['b', 'B', 'd', 'n', 'x', 'X', 'o']

/-- The format string `{:<6}`. -/
def fmtAlignOnly : List Char := "\x7b:<6\x7d".toList

/-- The format string `{:<}`. -/
def fmtAlignBare : List Char := "\x7b:<\x7d".toList

/-- The format string `{:*<06}`. -/
def fmtZeroAfterAlign : List Char := "\x7b:*<06\x7d".toList

/-- The format string `{:06}`. -/
def fmtZero : List Char := "\x7b:06\x7d".toList

/-- The format string `{:}<5}`. -/
def fmtCloseFill : List Char := "\x7b:\x7d<5\x7d".toList

/-- The format string `{:{}}`. -/
def fmtWidthAuto : List Char := "\x7b:\x7b\x7d\x7d".toList

/-- The format string `{:{}.{}}`. -/
def fmtWidthPrecisionAuto : List Char := "\x7b:\x7b\x7d.\x7b\x7d\x7d".toList

/-- The format string `{0a}`. -/
def fmtDigitLetter : List Char := "\x7b0a\x7d".toList

/-- The format string `{a-b}`. -/
def fmtDash : List Char := "\x7ba-b\x7d".toList

/-- The format string `{width_1:}`. -/
def fmtNamed : List Char := "\x7bwidth_1:\x7d".toList

/-- What a `Parse` call on the placeholder at the start of `format` yields,
with the parser's end at `e`: the fill, alignment and width of the returned
spec, and the alignment and cursor of the parser behind the call. -/
def parsed (format : List Char) (e : Nat) (u : Indeterminate) (result_align : Align) :
    Option (Char × Align × Int × Align × Nat) :=
  ((ArgumentParser.new format 0 e u).Parse result_align).toOption.map
    fun r => (r.1.fill, r.1.align, r.1.width.width, r.2.align, r.2.from_)

/-- The format string `{:5dq}`. -/
def fmtTrailing : List Char := "\x7b:5dq\x7d".toList

/-- The format string `{0:d5}`. -/
def fmtTypeDigit : List Char := "\x7b0:d5\x7d".toList

/-- The format string `{0:5d}`. -/
def fmtWidthType : List Char := "\x7b0:5d\x7d".toList

/-- The format string `{:99999999999}`, a placeholder whose width does not
fit an `int`. -/
def fmtWideClosed : List Char := "\x7b:99999999999\x7d".toList

/-- The format string `{:99999999999q}`: a width that does not fit an `int`,
a type-less `q` behind it. -/
def fmtWideTrailing : List Char := "\x7b:99999999999q\x7d".toList

/-- The format string `{:<q}`. -/
def fmtAlignTrailing : List Char := "\x7b:<q\x7d".toList

/-- A parser at work on the string `s` with the end `e`, its cursor not
behind the end. -/
structure within (s : List Char) (e : Nat) (ps : ArgumentParser) : Prop where
  str : ps.str = s
  to_ : ps.to_ = e
  le : ps.from_ ≤ e

/-- An end position as the constructor hands it to the parser: inside the
string on a `}`, or the end of the string. -/
def isEnd (s : List Char) (e : Nat) : Prop :=
  e ≤ s.length ∧ (charAt s e = '}' ∨ e = s.length)

/-- The two exceptions that leave the constructor. -/
def thrown (e : Exn) : Prop := e = .InvalidFormatString ∨ e = .std_out_of_range

end detail

/-! ## Lemmas -/

namespace detail

theorem charAt_append (pre suf : List Char) (k : Nat) :
    charAt (pre ++ suf) (pre.length + k) = charAt suf k := by
  unfold charAt
  rw [List.getD_eq_getElem?_getD, List.getD_eq_getElem?_getD,
    List.getElem?_append_right (Nat.le_add_right _ _)]
  simp

theorem charAt_append_length (pre : List Char) (c : Char) (suf : List Char) :
    charAt (pre ++ c :: suf) pre.length = c := by
  have := charAt_append pre (c :: suf) 0
  simpa [charAt] using this

theorem charAt_append_succ (pre : List Char) (c : Char) (suf : List Char) :
    charAt (pre ++ c :: suf) (pre.length + 1) = charAt suf 0 := by
  have := charAt_append pre (c :: suf) 1
  simpa [charAt] using this

theorem collapse_plain (s : List Char) (h : ∀ c ∈ s, c ≠ '}') : collapse s = s := by
  induction s with
  | nil => rfl
  | cons c r ih =>
    cases r with
    | nil => rfl
    | cons d r2 =>
      have hc : c ≠ '}' := h c (by simp)
      have ih2 := ih (fun x hx => h x (List.mem_cons_of_mem _ hx))
      simp [collapse, hc, ih2]

theorem loop_succ_plain (format : List Char) (mem : Nat → Indeterminate) (fuel it : Nat)
    (b : ArgumentFormatter.Building) (hlen : it ≠ format.length)
    (hopen : ¬ (charAt format it = '{' ∧ charAt format (it + 1) ≠ '{'))
    (hesc : ¬ (charAt format it = '}' ∧ charAt format (it + 1) = '}')) :
    ArgumentFormatter.loop format mem (fuel + 1) it b
      = ArgumentFormatter.loop format mem fuel (it + 1)
          { b with current := b.current ++ [charAt format it] } := by
  have h1 : (charAt format it == '{' && charAt format (it + 1) != '{') = false := by
    by_contra h
    simp only [Bool.not_eq_false, Bool.and_eq_true, beq_iff_eq, bne_iff_ne, ne_eq] at h
    exact hopen h
  have h2 : (charAt format it == '}' && charAt format (it + 1) == '}') = false := by
    by_contra h
    simp only [Bool.not_eq_false, Bool.and_eq_true, beq_iff_eq] at h
    exact hesc h
  rw [ArgumentFormatter.loop]
  simp only [beq_iff_eq, hlen, if_false, h1, h2, Bool.false_eq_true]

theorem loop_succ_escape (format : List Char) (mem : Nat → Indeterminate) (fuel it : Nat)
    (b : ArgumentFormatter.Building) (hlen : it ≠ format.length)
    (h0 : charAt format it = '}') (h1 : charAt format (it + 1) = '}') :
    ArgumentFormatter.loop format mem (fuel + 1) it b
      = ArgumentFormatter.loop format mem fuel (it + 1 + 1)
          { b with current := b.current ++ ['}'] } := by
  rw [ArgumentFormatter.loop]
  simp [hlen, h0, h1]

theorem loop_literal (mem : Nat → Indeterminate) (n : Nat) :
    ∀ (suf pre : List Char) (b : ArgumentFormatter.Building) (fuel : Nat),
      suf.length ≤ n → (∀ c ∈ suf, c ≠ '{') → suf.length < fuel →
      ArgumentFormatter.loop (pre ++ suf) mem fuel pre.length b
        = .ok { b with current := b.current ++ collapse suf } := by
  induction n with
  | zero =>
    intro suf pre b fuel hn _ hf
    have : suf = [] := List.length_eq_zero.mp (Nat.le_zero.mp hn)
    subst this
    cases fuel with
    | zero => simp at hf
    | succ f => simp [ArgumentFormatter.loop, collapse]
  | succ n ih =>
    intro suf pre b fuel hn hno hf
    cases fuel with
    | zero => simp at hf
    | succ f =>
      cases suf with
      | nil => simp [ArgumentFormatter.loop, collapse]
      | cons c r =>
        have hc : c ≠ '{' := hno c (by simp)
        have hlen : pre.length ≠ (pre ++ c :: r).length := by simp
        have hr : ∀ x ∈ r, x ≠ '{' := fun x hx => hno x (List.mem_cons_of_mem _ hx)
        by_cases hesc : c = '}' ∧ charAt r 0 = '}'
        · obtain ⟨hc1, hr0⟩ := hesc
          cases r with
          | nil => simp [charAt, NUL] at hr0
          | cons d r2 =>
            have hd : d = '}' := by simpa [charAt] using hr0
            subst hc1; subst hd
            have hr2 : ∀ x ∈ r2, x ≠ '{' := fun x hx => hr x (List.mem_cons_of_mem _ hx)
            have e1 : pre ++ '}' :: '}' :: r2 = (pre ++ ['}', '}']) ++ r2 := by simp
            have e2 : pre.length + 1 + 1 = (pre ++ ['}', '}']).length := by simp
            have hstep := ih r2 (pre ++ ['}', '}'])
              { b with current := b.current ++ ['}'] } f
              (by simp at hn; omega) hr2 (by simp at hf; omega)
            rw [loop_succ_escape _ _ _ _ _ hlen (charAt_append_length _ _ _)
              (by rw [charAt_append_succ]; simp [charAt]), e1, e2, hstep]
            simp [collapse]
        · have e1 : pre ++ c :: r = (pre ++ [c]) ++ r := by simp
          have e2 : pre.length + 1 = (pre ++ [c]).length := by simp
          have hstep := ih r (pre ++ [c]) { b with current := b.current ++ [c] } f
              (by simp at hn; omega) hr (by simp at hf; omega)
          have hcol : collapse (c :: r) = c :: collapse r := by
            cases r with
            | nil => simp [collapse]
            | cons d r2 =>
              have : ¬ (c = '}' ∧ d = '}') := by
                intro h; exact hesc ⟨h.1, by simp [charAt, h.2]⟩
              simp only [collapse]
              by_cases h1 : c = '}'
              · have h2 : d ≠ '}' := fun h => this ⟨h1, h⟩
                simp [h1, h2]
              · simp [h1]
          rw [loop_succ_plain _ _ _ _ _ hlen
            (by rw [charAt_append_length]; exact fun h => hc h.1)
            (by rw [charAt_append_length, charAt_append_succ]; exact hesc),
            charAt_append_length, e1, e2, hstep]
          simp [hcol]

/-- Compiling a string without `{` stores its collapsed text as the only
literal (none when the string is empty) and no spec. -/
theorem new_literal (format : List Char) (mem : Nat → Indeterminate)
    (h : ∀ c ∈ format, c ≠ '{') :
    ArgumentFormatter.new format mem
      = .ok { format := format,
              consts := if collapse format != [] then [collapse format] else [],
              args := [] } := by
  have hl := loop_literal mem format.length format [] 
    { current := [], auto_id := 0, consts := [], args := [] } (format.length + 1)
    (Nat.le_refl _) h (Nat.lt_succ_self _)
  simp only [List.nil_append, List.length_nil] at hl
  simp [ArgumentFormatter.new, hl]

theorem Format_literal (format : List Char) (mem : Nat → Indeterminate) (args : List Arg)
    (h : ∀ c ∈ format, c ≠ '{') :
    Canary.Format format mem args = .ok (collapse format) := by
  unfold Canary.Format FormatFunctor
  rw [new_literal format mem h]
  by_cases hc : collapse format = []
  · simp [ArgumentFormatter.Format, hc]
  · simp [ArgumentFormatter.Format, hc, ArgumentFormatter.formatLoop]

theorem charAt_of_length_le (s : List Char) (j : Nat) (h : s.length ≤ j) : charAt s j = NUL := by
  unfold charAt
  rw [List.getD_eq_getElem?_getD, List.getElem?_eq_none h]
  rfl

theorem charAt_of_mem (s : List Char) (c : Char) (h : c ∈ s) : ∃ j, charAt s j = c := by
  obtain ⟨j, hj, hc⟩ := List.getElem_of_mem h
  refine ⟨j, ?_⟩
  unfold charAt
  rw [List.getD_eq_getElem?_getD, List.getElem?_eq_getElem hj, hc]
  rfl

namespace ArgumentParser

theorem ParseArgumentId_ok_end (ps : ArgumentParser) (id : List Char) (q : ArgumentParser)
    (h : ParseArgumentId ps = .ok (id, q)) : q.IsArgIdEnd = true := by
  unfold ParseArgumentId at h
  split at h
  · split at h
    · cases h
    · split at h
      · cases h
      · cases h; simp_all
  · split at h
    · split at h
      · cases h
      · split at h
        · cases h
        · cases h; simp_all
    · cases h

theorem ParseFormatString_ok_cursor (ps q : ArgumentParser)
    (h : ParseFormatString ps = .ok q) : q.Current = '}' := by
  unfold ParseFormatString at h
  split at h
  · cases h; simp_all
  · split at h
    · cases h
    · split at h
      · cases h
      · split at h
        · cases h
        · dsimp only at h
          split at h
          · cases h
          · cases h; simp_all

theorem parseArgId_ok_end (ps q : ArgumentParser) (h : parseArgId ps = .ok q) :
    q.IsArgIdEnd = true := by
  unfold parseArgId at h
  split at h
  · split at h
    · cases h
    · rename_i id q1 hq1
      cases h
      have := ParseArgumentId_ok_end _ _ _ hq1
      simpa [IsArgIdEnd, Current] using this
  · cases h; simp_all

/-- Whenever `Parse` returns, the cursor of the parser is on a `}`. -/
theorem Parse_ok_cursor (ps : ArgumentParser) (ra : Align) (r : ArgParseResult)
    (q : ArgumentParser) (h : Parse ps ra = .ok (r, q)) : q.Current = '}' := by
  unfold Parse at h
  split at h
  · cases h
  · split at h
    · cases h
    · rename_i ps1 hps1
      have hend : ps1.IsArgIdEnd = true := parseArgId_ok_end _ _ hps1
      split at h
      · split at h
        · cases h
        · rename_i ps2 hps2
          cases h
          exact ParseFormatString_ok_cursor _ _ hps2
      · rename_i hcolon
        cases h
        simp only [IsArgIdEnd, Bool.or_eq_true, beq_iff_eq] at hend
        rcases hend with h1 | h1
        · exact absurd h1 (by simpa using hcolon)
        · exact h1

/-- A `Parse` call that starts with the cursor on a `}` throws
`InvalidFormatStringException`. -/
theorem Parse_at_close (ps : ArgumentParser) (ra : Align) (h : ps.Current = '}') :
    Parse ps ra = .error .InvalidFormatString := by
  unfold Parse
  simp [h]

end ArgumentParser

theorem loop_ok_no_open (format : List Char) (mem : Nat → Indeterminate) :
    ∀ (fuel it : Nat) (b b1 : ArgumentFormatter.Building),
      ArgumentFormatter.loop format mem fuel it b = .ok b1 →
      ∀ j, it ≤ j → charAt format j ≠ '{' := by
  intro fuel
  induction fuel with
  | zero => intro it b b1 h; simp [ArgumentFormatter.loop] at h
  | succ f ih =>
    intro it b b1 h j hj
    rw [ArgumentFormatter.loop] at h
    split at h
    · rename_i hlen
      have hlen2 : it = format.length := by simpa using hlen
      rw [charAt_of_length_le format j (by omega)]
      decide
    · split at h
      · dsimp only at h
        split at h
        · cases h
        · rename_i a parser1 hp1
          rw [ArgumentParser.Parse_at_close _ _ (ArgumentParser.Parse_ok_cursor _ _ _ _ hp1)] at h
          cases h
      · rename_i hcond
        have ih2 := ih _ _ _ h
        simp only [Bool.and_eq_true, beq_iff_eq, bne_iff_ne, ne_eq, not_and, not_not] at hcond
        by_cases hesc : charAt format it = '}' ∧ charAt format (it + 1) = '}'
        · have e : (charAt format it == '}' && charAt format (it + 1) == '}') = true := by
            simp [hesc.1, hesc.2]
          simp only [e, if_true] at ih2
          rcases Nat.lt_or_ge j (it + 1 + 1) with hlt | hge
          · have : j = it ∨ j = it + 1 := by omega
            rcases this with rfl | rfl
            · rw [hesc.1]; decide
            · rw [hesc.2]; decide
          · exact ih2 j hge
        · have e : (charAt format it == '}' && charAt format (it + 1) == '}') = false := by
            by_contra hh
            simp only [Bool.not_eq_false, Bool.and_eq_true, beq_iff_eq] at hh
            exact hesc hh
          simp only [e, Bool.false_eq_true, if_false] at ih2
          rcases Nat.lt_or_ge j (it + 1) with hlt | hge
          · have : j = it := by omega
            subst this
            intro hopen
            exact ih2 (j + 1) (Nat.le_refl _) (hcond hopen)
          · exact ih2 j hge

/-- A format string that compiles holds no `{`. -/
theorem new_ok_no_open (format : List Char) (mem : Nat → Indeterminate) (f : ArgumentFormatter)
    (h : ArgumentFormatter.new format mem = .ok f) : ∀ c ∈ format, c ≠ '{' := by
  unfold ArgumentFormatter.new at h
  split at h
  · cases h
  · rename_i b hb
    intro c hc hopen
    obtain ⟨j, hj⟩ := charAt_of_mem format c hc
    exact loop_ok_no_open format mem _ _ _ _ hb j (Nat.zero_le _) (hj.trans hopen)

theorem IntegerExtractor_Value_succ (k : Nat) (first : Arg) (rest : List Arg) :
    IntegerExtractor.Value ((k + 1 : Nat) : Int) (first :: rest)
      = IntegerExtractor.Value (k : Int) rest := by
  have h1 : (((k + 1 : Nat) : Int) == 0) = false := by
    simp only [beq_eq_false_iff_ne, ne_eq]; omega
  have h2 : ((k + 1 : Nat) : Int) - 1 = (k : Int) := by omega
  simp only [IntegerExtractor.Value, h1, Bool.false_eq_true, if_false, h2]

theorem IntegerExtractor_Value_integral (arguments : List Arg) :
    ∀ (k : Nat) (n : Int), arguments[k]? = some (.integral n) →
      IntegerExtractor.Value (k : Int) arguments = .ok (toInt n) := by
  induction arguments with
  | nil => intro k n h; simp at h
  | cons first rest ih =>
    intro k n h
    cases k with
    | zero =>
      simp only [List.getElem?_cons_zero, Option.some.injEq] at h
      subst h
      simp [IntegerExtractor.Value]
    | succ k =>
      rw [IntegerExtractor_Value_succ]
      exact ih k n (by simpa using h)

theorem IntegerExtractor_Value_other (arguments : List Arg) :
    ∀ (k : Nat) (v : Arg), arguments[k]? = some v → v.isIntegral = false →
      IntegerExtractor.Value (k : Int) arguments = .error .InvalidFormatString := by
  induction arguments with
  | nil => intro k v h; simp at h
  | cons first rest ih =>
    intro k v h hv
    cases k with
    | zero =>
      simp only [List.getElem?_cons_zero, Option.some.injEq] at h
      subst h
      cases first <;> simp_all [IntegerExtractor.Value, Arg.isIntegral]
    | succ k =>
      rw [IntegerExtractor_Value_succ]
      exact ih k v (by simpa using h) hv

theorem IntegerExtractor_Value_missing (arguments : List Arg) :
    ∀ (k : Nat), arguments.length ≤ k →
      IntegerExtractor.Value (k : Int) arguments = .error .InvalidFormatString := by
  induction arguments with
  | nil => intro k _; simp [IntegerExtractor.Value]
  | cons first rest ih =>
    intro k h
    cases k with
    | zero => simp at h
    | succ k =>
      rw [IntegerExtractor_Value_succ]
      exact ih k (by simpa using h)

theorem referenced_some (id : List Char) (arguments : List Arg) (v : Arg)
    (h : referenced id arguments = some v) :
    ∃ k : Nat, stoi id = .ok (k : Int) ∧ arguments[k]? = some v := by
  unfold referenced at h
  split at h
  · rename_i k hk
    split at h
    · rename_i hk0
      refine ⟨k.toNat, ?_, h⟩
      rw [hk, Int.toNat_of_nonneg hk0]
    · cases h
  · cases h

namespace ArgumentFormatter

theorem resolveWidth_integral (a : ArgParseResult) (arguments : List Arg) (n : Int)
    (href : a.width.is_reference = true)
    (h : referenced a.width.id arguments = some (.integral n)) :
    resolveWidth a arguments
      = .ok { a with width := { a.width with width := toInt n, is_reference := false } } := by
  obtain ⟨k, hk, hv⟩ := referenced_some _ _ _ h
  simp [resolveWidth, href, hk, IntegerExtractor_Value_integral arguments k n hv]

theorem resolveWidth_other (a : ArgParseResult) (arguments : List Arg) (v : Arg)
    (href : a.width.is_reference = true)
    (h : referenced a.width.id arguments = some v) (hv : v.isIntegral = false) :
    resolveWidth a arguments = .error .InvalidFormatString := by
  obtain ⟨k, hk, hv2⟩ := referenced_some _ _ _ h
  simp [resolveWidth, href, hk, IntegerExtractor_Value_other arguments k v hv2 hv]

theorem resolvePrecision_integral (a : ArgParseResult) (arguments : List Arg) (n : Int)
    (href : a.precision.is_reference = true)
    (h : referenced a.precision.id arguments = some (.integral n)) :
    resolvePrecision a arguments
      = .ok { a with precision :=
                { a.precision with precision := toInt n, is_reference := false } } := by
  obtain ⟨k, hk, hv⟩ := referenced_some _ _ _ h
  simp [resolvePrecision, href, hk, IntegerExtractor_Value_integral arguments k n hv]

theorem resolvePrecision_other (a : ArgParseResult) (arguments : List Arg) (v : Arg)
    (href : a.precision.is_reference = true)
    (h : referenced a.precision.id arguments = some v) (hv : v.isIntegral = false) :
    resolvePrecision a arguments = .error .InvalidFormatString := by
  obtain ⟨k, hk, hv2⟩ := referenced_some _ _ _ h
  simp [resolvePrecision, href, hk, IntegerExtractor_Value_other arguments k v hv2 hv]

theorem resolveWidth_precision (a a1 : ArgParseResult) (arguments : List Arg)
    (h : resolveWidth a arguments = .ok a1) : a1.precision = a.precision := by
  unfold resolveWidth at h
  split at h
  · split at h
    · cases h
    · split at h
      · cases h
      · cases h; rfl
  · cases h; rfl

end ArgumentFormatter

theorem agree_cases {α : Type} {R : α → α → Prop} {x y : Except Exn α} (h : agree R x y) :
    (∃ e, x = .error e ∧ y = .error e) ∨ (∃ a b, x = .ok a ∧ y = .ok b ∧ R a b) := by
  cases h with
  | ok h => right; exact ⟨_, _, rfl, rfl, h⟩
  | error e => left; exact ⟨e, rfl, rfl⟩

namespace ArgumentParser

theorem sameCursor_Current {p q : ArgumentParser} (h : sameCursor p q) :
    p.Current = q.Current := by
  simp [Current, h.str, h.from_]

theorem sameCursor_Peek {p q : ArgumentParser} (h : sameCursor p q) : p.Peek = q.Peek := by
  simp [Peek, h.str, h.from_, h.to_]

theorem sameCursor_Next {p q : ArgumentParser} (h : sameCursor p q) :
    sameCursor p.Next q.Next := by
  have h1 := h.str
  have h2 := h.from_
  have h3 := h.to_
  unfold Next HasNext
  by_cases hc : (q.from_ != q.to_) = true
  · rw [if_pos (by rw [h2, h3]; exact hc), if_pos hc]
    exact ⟨h1, by simp [h2], h3⟩
  · rw [if_neg (by rw [h2, h3]; exact hc), if_neg hc]
    exact h

theorem sameCursor_IsDigit {p q : ArgumentParser} (h : sameCursor p q) :
    p.IsDigit = q.IsDigit := by
  simp [IsDigit, sameCursor_Current h]

theorem sameCursor_IsIdentifierStart {p q : ArgumentParser} (h : sameCursor p q) :
    p.IsIdentifierStart = q.IsIdentifierStart := by
  simp [IsIdentifierStart, sameCursor_Current h]

theorem sameCursor_IsArgIdEnd {p q : ArgumentParser} (h : sameCursor p q) :
    p.IsArgIdEnd = q.IsArgIdEnd := by
  simp [IsArgIdEnd, sameCursor_Current h]

theorem sameCursor_IsType {p q : ArgumentParser} (h : sameCursor p q) :
    p.IsType = q.IsType := by
  simp [IsType, IsIntType, sameCursor_Current h]

theorem sameCursor_loopFuel {p q : ArgumentParser} (h : sameCursor p q) :
    p.loopFuel = q.loopFuel := by
  simp [loopFuel, h.str]

theorem digitLoop_agree : ∀ (fuel : Nat) (p q : ArgumentParser) (acc : List Char),
    sameCursor p q →
    agree (fun x y => x.1 = y.1 ∧ sameCursor x.2 y.2)
      (digitLoop fuel p acc) (digitLoop fuel q acc) := by
  intro fuel
  induction fuel with
  | zero => intro p q acc _; exact agree.error _
  | succ f ih =>
    intro p q acc h
    rw [digitLoop, digitLoop, sameCursor_IsDigit h, sameCursor_Current h]
    by_cases hc : q.IsDigit = true
    · rw [if_pos hc, if_pos hc]; exact ih _ _ _ (sameCursor_Next h)
    · rw [if_neg hc, if_neg hc]; exact agree.ok ⟨rfl, h⟩

theorem identLoop_agree : ∀ (fuel : Nat) (p q : ArgumentParser) (acc : List Char),
    sameCursor p q →
    agree (fun x y => x.1 = y.1 ∧ sameCursor x.2 y.2)
      (identLoop fuel p acc) (identLoop fuel q acc) := by
  intro fuel
  induction fuel with
  | zero => intro p q acc _; exact agree.error _
  | succ f ih =>
    intro p q acc h
    rw [identLoop, identLoop, sameCursor_IsDigit h, sameCursor_Current h,
      sameCursor_IsArgIdEnd h, sameCursor_IsIdentifierStart h]
    by_cases hc : (!q.IsArgIdEnd && (q.IsDigit || q.IsIdentifierStart)) = true
    · rw [if_pos hc, if_pos hc]; exact ih _ _ _ (sameCursor_Next h)
    · rw [if_neg hc, if_neg hc]; exact agree.ok ⟨rfl, h⟩

theorem idCheck_agree (x y : List Char × ArgumentParser)
    (h : x.1 = y.1 ∧ sameCursor x.2 y.2) :
    agree (fun x y => x.1 = y.1 ∧ sameCursor x.2 y.2)
      (if (!x.2.IsArgIdEnd) = true then .error .InvalidFormatString else .ok (x.1, x.2))
      (if (!y.2.IsArgIdEnd) = true then .error .InvalidFormatString else .ok (y.1, y.2)) := by
  rw [sameCursor_IsArgIdEnd h.2]
  by_cases hc : (!y.2.IsArgIdEnd) = true
  · rw [if_pos hc, if_pos hc]; exact agree.error _
  · rw [if_neg hc, if_neg hc]; exact agree.ok h

theorem ParseArgumentId_agree (p q : ArgumentParser) (h : sameCursor p q) :
    agree (fun x y => x.1 = y.1 ∧ sameCursor x.2 y.2)
      (ParseArgumentId p) (ParseArgumentId q) := by
  unfold ParseArgumentId
  rw [sameCursor_IsDigit h, sameCursor_IsIdentifierStart h, sameCursor_loopFuel h,
    sameCursor_Current h]
  by_cases h1 : q.IsDigit = true
  · rw [if_pos h1, if_pos h1]
    rcases agree_cases (digitLoop_agree q.loopFuel p q [] h) with
      ⟨e, hx, hy⟩ | ⟨a, b, hx, hy, hab⟩
    · rw [hx, hy]; exact agree.error _
    · rw [hx, hy]; exact idCheck_agree a b hab
  · rw [if_neg h1, if_neg h1]
    by_cases h2 : q.IsIdentifierStart = true
    · rw [if_pos h2, if_pos h2]
      rcases agree_cases (identLoop_agree q.loopFuel p.Next q.Next [q.Current]
          (sameCursor_Next h)) with ⟨e, hx, hy⟩ | ⟨a, b, hx, hy, hab⟩
      · rw [hx, hy]; exact agree.error _
      · rw [hx, hy]; exact idCheck_agree a b hab
    · rw [if_neg h2, if_neg h2]; exact agree.error _

theorem alignLoop_agree : ∀ (fuel : Nat) (p q : ArgumentParser) (c : Char),
    sameCursor p q → p.align = q.align →
    agree sameCursor (alignLoop fuel p c) (alignLoop fuel q c) := by
  intro fuel
  induction fuel with
  | zero => intro p q c _ _; exact agree.error _
  | succ f ih =>
    intro p q c h ha
    have key : ∀ P Q : ArgumentParser, sameCursor P Q → P.align = Q.align →
        agree sameCursor
          (if P.align == Align.DEFAULT then
            if c == P.Current then .ok P else alignLoop f P P.Current
          else if P.Current == '}' then .error .InvalidFormatString
          else .ok { P with fill := P.Current }.Next.Next)
          (if Q.align == Align.DEFAULT then
            if c == Q.Current then .ok Q else alignLoop f Q Q.Current
          else if Q.Current == '}' then .error .InvalidFormatString
          else .ok { Q with fill := Q.Current }.Next.Next) := by
      intro P Q hPQ hal
      rw [sameCursor_Current hPQ, hal]
      by_cases hd : (Q.align == Align.DEFAULT) = true
      · rw [if_pos hd, if_pos hd]
        by_cases hcc : (c == Q.Current) = true
        · rw [if_pos hcc, if_pos hcc]; exact agree.ok hPQ
        · rw [if_neg hcc, if_neg hcc]; exact ih _ _ _ hPQ hal
      · rw [if_neg hd, if_neg hd]
        by_cases hfill : (Q.Current == '}') = true
        · rw [if_pos hfill, if_pos hfill]; exact agree.error _
        · rw [if_neg hfill, if_neg hfill]
          refine agree.ok (sameCursor_Next (sameCursor_Next ?_))
          exact ⟨hPQ.str, hPQ.from_, hPQ.to_⟩
    rw [alignLoop, alignLoop]
    by_cases hnul : (c == NUL) = true
    · rw [if_pos hnul, if_pos hnul]; exact agree.ok h
    · rw [if_neg hnul, if_neg hnul]
      exact key { p with align := alignSwitch c p.align }
        { q with align := alignSwitch c q.align } ⟨h.str, h.from_, h.to_⟩ (by simp [ha])

theorem parseAlign_agree (p q : ArgumentParser) (h : sameCursor p q) :
    agree sameCursor (parseAlign p) (parseAlign q) := by
  unfold parseAlign
  rw [sameCursor_loopFuel h, sameCursor_Peek h]
  exact alignLoop_agree _ _ _ _ ⟨h.str, h.from_, h.to_⟩ rfl

theorem parseSign_sameCursor (p q : ArgumentParser) (h : sameCursor p q) :
    sameCursor (parseSign p) (parseSign q) := by
  unfold parseSign
  rw [sameCursor_Current h]
  have hn : ∀ f g : Nat, sameCursor { p with flags := f }.Next { q with flags := g }.Next :=
    fun f g => sameCursor_Next ⟨h.str, h.from_, h.to_⟩
  by_cases h1 : (q.Current == '+') = true
  · rw [if_pos h1, if_pos h1]; exact hn _ _
  · rw [if_neg h1, if_neg h1]
    by_cases h2 : (q.Current == '-') = true
    · rw [if_pos h2, if_pos h2]; exact hn _ _
    · rw [if_neg h2, if_neg h2]
      by_cases h3 : (q.Current == ' ') = true
      · rw [if_pos h3, if_pos h3]; exact hn _ _
      · rw [if_neg h3, if_neg h3]; exact h

theorem parseHash_sameCursor (p q : ArgumentParser) (h : sameCursor p q) :
    sameCursor (parseHash p) (parseHash q) := by
  unfold parseHash
  rw [sameCursor_Current h]
  by_cases h1 : (q.Current == '#') = true
  · rw [if_pos h1, if_pos h1]
    exact sameCursor_Next (p := { p with flags := _ }) (q := { q with flags := _ })
      ⟨h.str, h.from_, h.to_⟩
  · rw [if_neg h1, if_neg h1]; exact h

theorem parseZero_sameCursor (p q : ArgumentParser) (h : sameCursor p q) :
    sameCursor (parseZero p) (parseZero q) := by
  unfold parseZero
  rw [sameCursor_Current h]
  by_cases h1 : (q.Current == '0') = true
  · rw [if_pos h1, if_pos h1]
    exact sameCursor_Next (p := { p with fill := _, align := _ })
      (q := { q with fill := _, align := _ }) ⟨h.str, h.from_, h.to_⟩
  · rw [if_neg h1, if_neg h1]; exact h

theorem parseType_sameCursor (p q : ArgumentParser) (h : sameCursor p q) :
    sameCursor (parseType p) (parseType q) := by
  unfold parseType
  rw [sameCursor_IsType h, sameCursor_Current h]
  by_cases h1 : q.IsType = true
  · rw [if_pos h1, if_pos h1]
    exact sameCursor_Next (p := { p with type := _ }) (q := { q with type := _ })
      ⟨h.str, h.from_, h.to_⟩
  · rw [if_neg h1, if_neg h1]; exact h

theorem widthStep_agree (x y : List Char × ArgumentParser)
    (h : x.1 = y.1 ∧ sameCursor x.2 y.2) :
    agree sameCursor
      (match stoi x.1 with
        | .error e => .error e
        | .ok v => .ok { x.2 with width := { x.2.width with width := v } })
      (match stoi y.1 with
        | .error e => .error e
        | .ok v => .ok { y.2 with width := { y.2.width with width := v } }) := by
  rw [h.1]
  cases stoi y.1 with
  | error e => exact agree.error _
  | ok v => exact agree.ok ⟨h.2.str, h.2.from_, h.2.to_⟩

theorem precisionStep_agree (x y : List Char × ArgumentParser)
    (h : x.1 = y.1 ∧ sameCursor x.2 y.2) :
    agree sameCursor
      (match stoi x.1 with
        | .error e => .error e
        | .ok v => .ok { x.2 with precision := { x.2.precision with precision := v } })
      (match stoi y.1 with
        | .error e => .error e
        | .ok v => .ok { y.2 with precision := { y.2.precision with precision := v } }) := by
  rw [h.1]
  cases stoi y.1 with
  | error e => exact agree.error _
  | ok v => exact agree.ok ⟨h.2.str, h.2.from_, h.2.to_⟩

theorem parseWidth_agree (p q : ArgumentParser) (h : sameCursor p q) :
    agree sameCursor (parseWidth p) (parseWidth q) := by
  unfold parseWidth
  rw [sameCursor_Current h, sameCursor_IsDigit h, sameCursor_loopFuel h]
  by_cases h1 : (q.Current == '{') = true
  · rw [if_pos h1, if_pos h1]
    rcases agree_cases (ParseArgumentId_agree _ _ (sameCursor_Next h)) with
      ⟨e, hx, hy⟩ | ⟨a, b, hx, hy, hab⟩
    · rw [hx, hy]; exact agree.error _
    · rw [hx, hy]
      refine agree.ok (sameCursor_Next ?_)
      exact ⟨hab.2.str, hab.2.from_, hab.2.to_⟩
  · rw [if_neg h1, if_neg h1]
    by_cases h2 : q.IsDigit = true
    · rw [if_pos h2, if_pos h2]
      rcases agree_cases (digitLoop_agree q.loopFuel p q [] h) with
        ⟨e, hx, hy⟩ | ⟨a, b, hx, hy, hab⟩
      · rw [hx, hy]; exact agree.error _
      · rw [hx, hy]; exact widthStep_agree a b hab
    · rw [if_neg h2, if_neg h2]
      exact agree.ok h

theorem parsePrecision_agree (p q : ArgumentParser) (h : sameCursor p q) :
    agree sameCursor (parsePrecision p) (parsePrecision q) := by
  unfold parsePrecision
  have hn := sameCursor_Next h
  rw [sameCursor_Current h]
  by_cases h0 : (q.Current == '.') = true
  · rw [if_pos h0, if_pos h0]
    dsimp only
    rw [sameCursor_Current hn, sameCursor_IsDigit hn, sameCursor_loopFuel hn]
    by_cases h1 : (q.Next.Current == '{') = true
    · rw [if_pos h1, if_pos h1]
      rcases agree_cases (ParseArgumentId_agree _ _ (sameCursor_Next hn)) with
        ⟨e, hx, hy⟩ | ⟨a, b, hx, hy, hab⟩
      · rw [hx, hy]; exact agree.error _
      · rw [hx, hy]
        refine agree.ok (sameCursor_Next ?_)
        exact ⟨hab.2.str, hab.2.from_, hab.2.to_⟩
    · rw [if_neg h1, if_neg h1]
      by_cases h2 : q.Next.IsDigit = true
      · rw [if_pos h2, if_pos h2]
        rcases agree_cases (digitLoop_agree q.Next.loopFuel p.Next q.Next [] hn) with
          ⟨e, hx, hy⟩ | ⟨a, b, hx, hy, hab⟩
        · rw [hx, hy]; exact agree.error _
        · rw [hx, hy]; exact precisionStep_agree a b hab
      · rw [if_neg h2, if_neg h2]
        exact agree.ok hn
  · rw [if_neg h0, if_neg h0]
    exact agree.ok h

theorem closeCheck_agree (x y : ArgumentParser) (h : sameCursor x y) :
    agree sameCursor
      (if (x.parseType.Current != '}') = true then .error .InvalidFormatString
        else .ok x.parseType)
      (if (y.parseType.Current != '}') = true then .error .InvalidFormatString
        else .ok y.parseType) := by
  have h4 := parseType_sameCursor x y h
  rw [sameCursor_Current h4]
  by_cases h5 : (y.parseType.Current != '}') = true
  · rw [if_pos h5, if_pos h5]; exact agree.error _
  · rw [if_neg h5, if_neg h5]; exact agree.ok h4

theorem ParseFormatString_agree (p q : ArgumentParser) (h : sameCursor p q) :
    agree sameCursor (ParseFormatString p) (ParseFormatString q) := by
  unfold ParseFormatString
  rw [sameCursor_Current h]
  by_cases h0 : (q.Current == '}') = true
  · rw [if_pos h0, if_pos h0]; exact agree.ok h
  · rw [if_neg h0, if_neg h0]
    rcases agree_cases (parseAlign_agree p q h) with ⟨e, hx, hy⟩ | ⟨a, b, hx, hy, hab⟩
    · rw [hx, hy]; exact agree.error _
    · rw [hx, hy]
      dsimp only
      have h1 : sameCursor a.parseSign.parseHash.parseZero b.parseSign.parseHash.parseZero :=
        parseZero_sameCursor a.parseSign.parseHash b.parseSign.parseHash
          (parseHash_sameCursor a.parseSign b.parseSign (parseSign_sameCursor a b hab))
      rcases agree_cases (parseWidth_agree a.parseSign.parseHash.parseZero
          b.parseSign.parseHash.parseZero h1) with ⟨e, hx, hy⟩ | ⟨a2, b2, hx, hy, hab2⟩
      · rw [hx, hy]; exact agree.error _
      · rw [hx, hy]
        dsimp only
        rcases agree_cases (parsePrecision_agree a2 b2 hab2) with
          ⟨e, hx, hy⟩ | ⟨a3, b3, hx, hy, hab3⟩
        · rw [hx, hy]; exact agree.error _
        · rw [hx, hy]; exact closeCheck_agree a3 b3 hab3

theorem parseArgId_agree (p q : ArgumentParser) (h : sameCursor p q) :
    agree sameCursor (parseArgId p) (parseArgId q) := by
  unfold parseArgId
  rw [sameCursor_IsArgIdEnd h]
  by_cases h1 : (!q.IsArgIdEnd) = true
  · rw [if_pos h1, if_pos h1]
    rcases agree_cases (ParseArgumentId_agree _ _ h) with ⟨e, hx, hy⟩ | ⟨a, b, hx, hy, hab⟩
    · rw [hx, hy]; exact agree.error _
    · rw [hx, hy]
      exact agree.ok ⟨hab.2.str, hab.2.from_, hab.2.to_⟩
  · rw [if_neg h1, if_neg h1]; exact agree.ok h

/-- The outcome of `Parse` (which exception, or where the cursor stops) does
not depend on the values the parser's members held before. -/
theorem Parse_agree (p q : ArgumentParser) (ra rb : Align) (h : sameCursor p q) :
    agree (fun x y => sameCursor x.2 y.2) (Parse p ra) (Parse q rb) := by
  unfold Parse
  rw [sameCursor_Current h]
  by_cases h0 : (q.Current != '{') = true
  · rw [if_pos h0, if_pos h0]; exact agree.error _
  · rw [if_neg h0, if_neg h0]
    rcases agree_cases (parseArgId_agree _ _ (sameCursor_Next h)) with
      ⟨e, hx, hy⟩ | ⟨a, b, hx, hy, hab⟩
    · rw [hx, hy]; exact agree.error _
    · rw [hx, hy]
      dsimp only
      rw [sameCursor_Current hab]
      by_cases h2 : (b.Current == ':') = true
      · rw [if_pos h2, if_pos h2]
        rcases agree_cases (ParseFormatString_agree _ _ (sameCursor_Next hab)) with
          ⟨e, hx, hy⟩ | ⟨a2, b2, hx, hy, hab2⟩
        · rw [hx, hy]; exact agree.error _
        · rw [hx, hy]; exact agree.ok hab2
      · rw [if_neg h2, if_neg h2]; exact agree.ok hab

end ArgumentParser

/-- The exception the constructor loop throws does not depend on the
indeterminate values. -/
theorem loop_error_mem (format : List Char) (mem mem2 : Nat → Indeterminate) :
    ∀ (fuel it : Nat) (b : ArgumentFormatter.Building) (e : Exn),
      ArgumentFormatter.loop format mem fuel it b = .error e →
      ArgumentFormatter.loop format mem2 fuel it b = .error e := by
  intro fuel
  induction fuel with
  | zero => intro it b e h; simpa [ArgumentFormatter.loop] using h
  | succ f ih =>
    intro it b e h
    rw [ArgumentFormatter.loop] at h
    rw [ArgumentFormatter.loop]
    by_cases h0 : (it == format.length) = true
    · rw [if_pos h0] at h; cases h
    · rw [if_neg h0] at h ⊢
      by_cases h1 : (charAt format it == '{' && charAt format (it + 1) != '{') = true
      · rw [if_pos h1] at h ⊢
        dsimp only at h ⊢
        have hs : sameCursor
            (ArgumentParser.new format it
              (ArgumentFormatter.scanClose (List.drop it format) it) (mem it))
            (ArgumentParser.new format it
              (ArgumentFormatter.scanClose (List.drop it format) it) (mem2 it)) :=
          ⟨rfl, rfl, rfl⟩
        rcases agree_cases (ArgumentParser.Parse_agree _ _ (mem it).result_align
            (mem2 it).result_align hs) with ⟨e1, hx, hy⟩ | ⟨a, c, hx, hy, hac⟩
        · rw [hx] at h
          rw [hy]
          exact h
        · rw [hx] at h
          rw [hy]
          obtain ⟨a1, a2⟩ := a
          obtain ⟨c1, c2⟩ := c
          dsimp only at h ⊢
          rw [ArgumentParser.Parse_at_close _ _
            (ArgumentParser.Parse_ok_cursor _ _ _ _ hx)] at h
          rw [ArgumentParser.Parse_at_close _ _
            (ArgumentParser.Parse_ok_cursor _ _ _ _ hy)]
          exact h
      · rw [if_neg h1] at h ⊢
        exact ih _ _ _ h

/-- The exception the constructor throws does not depend on the indeterminate
values. -/
theorem new_error_mem (format : List Char) (mem mem2 : Nat → Indeterminate) (e : Exn)
    (h : ArgumentFormatter.new format mem = .error e) :
    ArgumentFormatter.new format mem2 = .error e := by
  unfold ArgumentFormatter.new at h ⊢
  split at h
  · rename_i x hx
    cases h
    rw [loop_error_mem format mem mem2 _ _ _ _ hx]
  · cases h

/-- An exception thrown by the constructor is the outcome of `Canary::Format`,
for every choice of the indeterminate values. -/
theorem Format_error_mem (format : List Char) (mem mem2 : Nat → Indeterminate) (e : Exn)
    (arguments : List Arg) (h : ArgumentFormatter.new format mem = .error e) :
    Canary.Format format mem2 arguments = .error e := by
  unfold Canary.Format FormatFunctor
  rw [new_error_mem format mem mem2 e h]

theorem loop_counts (format : List Char) (mem : Nat → Indeterminate) :
    ∀ (fuel it : Nat) (b b1 : ArgumentFormatter.Building),
      ArgumentFormatter.loop format mem fuel it b = .ok b1 →
      b.consts.length = b.args.length → b1.consts.length = b1.args.length := by
  intro fuel
  induction fuel with
  | zero => intro it b b1 h; simp [ArgumentFormatter.loop] at h
  | succ f ih =>
    intro it b b1 h hb
    rw [ArgumentFormatter.loop] at h
    split at h
    · cases h; exact hb
    · split at h
      · dsimp only at h
        split at h
        · cases h
        · split at h
          · cases h
          · exact ih _ _ _ h (by simp [hb])
      · exact ih _ _ _ h hb

theorem Format_first_error (f : ArgumentFormatter) (a : ArgParseResult)
    (rest : List ArgParseResult) (arguments : List Arg) (e : Exn)
    (hc : f.consts ≠ []) (ha : f.args = a :: rest)
    (h : ArgumentFormatter.formatted a arguments = .error e) :
    f.Format arguments = .error e := by
  have hl : (f.consts.length == 0) = false := by
    cases hcs : f.consts with
    | nil => exact absurd hcs hc
    | cons c r => simp
  simp [ArgumentFormatter.Format, hl, ha, ArgumentFormatter.formatLoop, h]

end detail

namespace detail

namespace ArgumentParser

/-- The spec `Parse` returns carries the indeterminate `align` of its local
`result`, and the other members of the parser. -/
theorem Parse_result (ps : ArgumentParser) (ra : Align) (r : ArgParseResult)
    (q : ArgumentParser) (h : Parse ps ra = .ok (r, q)) : r = q.result ra := by
  unfold Parse at h
  split at h
  · cases h
  · split at h
    · cases h
    · split at h
      · split at h
        · cases h
        · cases h; rfl
      · cases h; rfl

theorem Parse_error_any (s : List Char) (a b : Nat) (u u2 : Indeterminate) (ra rb : Align)
    (e : Exn) (h : Parse (new s a b u) ra = .error e) :
    Parse (new s a b u2) rb = .error e := by
  rcases agree_cases (Parse_agree (new s a b u) (new s a b u2) ra rb ⟨rfl, rfl, rfl⟩) with
    ⟨e1, hx, hy⟩ | ⟨x, y, hx, hy, hxy⟩
  · rw [hx] at h; cases h; exact hy
  · rw [hx] at h; cases h

theorem Parse_ok_any (s : List Char) (a b : Nat) (u u2 : Indeterminate) (ra rb : Align)
    (r : ArgParseResult) (q : ArgumentParser) (h : Parse (new s a b u) ra = .ok (r, q)) :
    ∃ r2 q2, Parse (new s a b u2) rb = .ok (r2, q2) ∧ q2.from_ = q.from_ := by
  rcases agree_cases (Parse_agree (new s a b u) (new s a b u2) ra rb ⟨rfl, rfl, rfl⟩) with
    ⟨e1, hx, hy⟩ | ⟨x, y, hx, hy, hxy⟩
  · rw [hx] at h; cases h
  · rw [hx] at h; cases h
    exact ⟨y.1, y.2, hy, hxy.from_.symm⟩

/-- The alignment loop never throws while the cursor is not on a `}`: the test
`fill == '}'` of line 193 cannot succeed behind the early return of line 165. -/
theorem alignLoop_no_throw : ∀ (fuel : Nat) (ps : ArgumentParser) (p : Char),
    ps.Current ≠ '}' → alignLoop fuel ps p ≠ .error .InvalidFormatString := by
  intro fuel
  induction fuel with
  | zero => intro ps p _ h; simp [alignLoop] at h
  | succ f ih =>
    intro ps p hc
    rw [alignLoop]
    by_cases h0 : (p == NUL) = true
    · rw [if_pos h0]; intro h; cases h
    · rw [if_neg h0]
      dsimp only
      split
      · split
        · intro h; cases h
        · exact ih _ _ hc
      · have hc2 : (ps.Current == '}') = false := by simpa using hc
        have : ({ ps with align := alignSwitch p ps.align } : ArgumentParser).Current
            = ps.Current := rfl
        rw [this, hc2]
        intro h
        simp at h

/-- Fill and alignment: when the character behind the cursor is an alignment
symbol (and the parser's end is not reached before it), the alignment block
takes the character under the cursor as fill, the next one as alignment, and
moves the cursor by two. -/
theorem parseAlign_fill (ps : ArgumentParser) (h1 : ps.from_ ≠ ps.to_)
    (h2 : ps.from_ + 1 ≠ ps.to_) (ha : isAlignChar (charAt ps.str (ps.from_ + 1)) = true)
    (hc : ps.Current ≠ '}') :
    parseAlign ps = .ok { ps with align := alignSwitch (charAt ps.str (ps.from_ + 1)) Align.DEFAULT,
                                  fill := ps.Current, from_ := ps.from_ + 2 } := by
  have hpeek : ps.Peek = charAt ps.str (ps.from_ + 1) := by
    simp [Peek, h2]
  generalize hp : charAt ps.str (ps.from_ + 1) = p at ha hpeek
  have hnul : (p == NUL) = false := by
    simp only [isAlignChar, Bool.or_eq_true, beq_iff_eq] at ha
    rcases ha with ((rfl | rfl) | rfl) | rfl <;> decide
  have hal : (alignSwitch p Align.DEFAULT == Align.DEFAULT) = false := by
    simp only [isAlignChar, Bool.or_eq_true, beq_iff_eq] at ha
    rcases ha with ((rfl | rfl) | rfl) | rfl <;> decide
  have hc2 : (ps.Current == '}') = false := by simpa using hc
  unfold parseAlign loopFuel
  rw [hpeek, alignLoop, hnul]
  simp only [Bool.false_eq_true, if_false]
  rw [hal]
  simp only [Bool.false_eq_true, if_false]
  have hcur : ({ ps with align := Align.DEFAULT } : ArgumentParser).Current = ps.Current := rfl
  simp only [Current] at hc2 hcur ⊢
  simp only [hc2, Bool.false_eq_true, if_false]
  simp [Next, HasNext, h1, h2]

end ArgumentParser

namespace ArgumentParser

/-- Alignment without fill: when the cursor is on an alignment symbol and the
character behind it is another character that is no alignment symbol, the
alignment block takes the alignment symbol itself as fill and moves the cursor
by two, over the character behind the symbol. -/
theorem parseAlign_alone (ps : ArgumentParser) (h1 : ps.from_ ≠ ps.to_)
    (h2 : ps.from_ + 1 ≠ ps.to_) (hn : isAlignChar (charAt ps.str (ps.from_ + 1)) = false)
    (hnul : charAt ps.str (ps.from_ + 1) ≠ NUL)
    (ha : isAlignChar ps.Current = true) :
    parseAlign ps = .ok { ps with align := alignSwitch ps.Current Align.DEFAULT,
                                  fill := ps.Current, from_ := ps.from_ + 2 } := by
  have hpeek : ps.Peek = charAt ps.str (ps.from_ + 1) := by
    simp [Peek, h2]
  have hcurdef : ps.Current = charAt ps.str ps.from_ := rfl
  generalize hp : charAt ps.str (ps.from_ + 1) = p at hn hpeek hnul
  generalize hcur : charAt ps.str ps.from_ = c at hcurdef
  rw [hcurdef] at ha
  have hpc : (p == c) = false := by
    simp only [beq_eq_false_iff_ne, ne_eq]
    intro h; rw [h] at hn; rw [hn] at ha; cases ha
  have hp0 : alignSwitch p Align.DEFAULT = Align.DEFAULT := by
    simp only [isAlignChar, Bool.or_eq_false_iff, beq_eq_false_iff_ne, ne_eq] at hn
    simp [alignSwitch, hn.1.1.1, hn.1.1.2, hn.1.2, hn.2]
  have hcn : (c == NUL) = false := by
    simp only [isAlignChar, Bool.or_eq_true, beq_iff_eq] at ha
    rcases ha with ((rfl | rfl) | rfl) | rfl <;> decide
  have hc1 : (alignSwitch c Align.DEFAULT == Align.DEFAULT) = false := by
    simp only [isAlignChar, Bool.or_eq_true, beq_iff_eq] at ha
    rcases ha with ((rfl | rfl) | rfl) | rfl <;> decide
  have hc2 : (c == '}') = false := by
    simp only [isAlignChar, Bool.or_eq_true, beq_iff_eq] at ha
    rcases ha with ((rfl | rfl) | rfl) | rfl <;> decide
  have hpn : (p == NUL) = false := by simpa using hnul
  unfold parseAlign loopFuel
  rw [hpeek, alignLoop, hpn]
  simp only [Bool.false_eq_true, if_false, hp0, beq_self_eq_true, if_true, Current, hcur, hpc]
  rw [alignLoop, hcn]
  simp only [Bool.false_eq_true, if_false, hc1, Current, hcur, hc2]
  simp [Next, HasNext, h1, h2, hcurdef]

/-- When the character behind the cursor is the parser's end, `Peek` returns
0 and the alignment block recognises nothing, whatever is under the cursor. -/
theorem parseAlign_at_end (ps : ArgumentParser) (h : ps.from_ + 1 = ps.to_) :
    parseAlign ps = .ok { ps with align := Align.DEFAULT } := by
  unfold parseAlign loopFuel
  have hpeek : ps.Peek = NUL := by simp [Peek, h]
  rw [hpeek, alignLoop]
  simp

theorem Next_style (ps : ArgumentParser) :
    ps.Next.fill = ps.fill ∧ ps.Next.align = ps.align := by
  unfold Next
  split <;> exact ⟨rfl, rfl⟩

theorem digitLoop_style : ∀ (fuel : Nat) (ps : ArgumentParser) (acc x : List Char)
    (q : ArgumentParser), digitLoop fuel ps acc = .ok (x, q) →
    q.fill = ps.fill ∧ q.align = ps.align := by
  intro fuel
  induction fuel with
  | zero => intro ps acc x q h; simp [digitLoop] at h
  | succ f ih =>
    intro ps acc x q h
    rw [digitLoop] at h
    split at h
    · have := ih _ _ _ _ h
      rw [(Next_style ps).1, (Next_style ps).2] at this
      exact this
    · cases h; exact ⟨rfl, rfl⟩

theorem identLoop_style : ∀ (fuel : Nat) (ps : ArgumentParser) (acc x : List Char)
    (q : ArgumentParser), identLoop fuel ps acc = .ok (x, q) →
    q.fill = ps.fill ∧ q.align = ps.align := by
  intro fuel
  induction fuel with
  | zero => intro ps acc x q h; simp [identLoop] at h
  | succ f ih =>
    intro ps acc x q h
    rw [identLoop] at h
    split at h
    · have := ih _ _ _ _ h
      rw [(Next_style ps).1, (Next_style ps).2] at this
      exact this
    · cases h; exact ⟨rfl, rfl⟩

theorem ParseArgumentId_style (ps : ArgumentParser) (x : List Char) (q : ArgumentParser)
    (h : ParseArgumentId ps = .ok (x, q)) : q.fill = ps.fill ∧ q.align = ps.align := by
  unfold ParseArgumentId at h
  split at h
  · split at h
    · cases h
    · rename_i r p1 hl
      split at h
      · cases h
      · cases h; exact digitLoop_style _ _ _ _ _ hl
  · split at h
    · split at h
      · cases h
      · rename_i r p1 hl
        split at h
        · cases h
        · cases h
          have := identLoop_style _ _ _ _ _ hl
          rw [(Next_style ps).1, (Next_style ps).2] at this
          exact this
    · cases h

theorem parseWidth_style (ps q : ArgumentParser) (h : parseWidth ps = .ok q) :
    q.fill = ps.fill ∧ q.align = ps.align := by
  unfold parseWidth at h
  split at h
  · split at h
    · cases h
    · rename_i id p1 hl
      cases h
      have h1 := ParseArgumentId_style _ _ _ hl
      rw [(Next_style ps).1, (Next_style ps).2] at h1
      have h2 := Next_style { p1 with width := { p1.width with id := id, is_reference := true } }
      exact ⟨h2.1.trans h1.1, h2.2.trans h1.2⟩
  · split at h
    · split at h
      · cases h
      · rename_i integer p1 hl
        split at h
        · cases h
        · cases h
          exact digitLoop_style _ _ _ integer p1 hl
    · cases h; exact ⟨rfl, rfl⟩

theorem parsePrecision_style (ps q : ArgumentParser) (h : parsePrecision ps = .ok q) :
    q.fill = ps.fill ∧ q.align = ps.align := by
  unfold parsePrecision at h
  split at h
  · dsimp only at h
    split at h
    · split at h
      · cases h
      · rename_i id p1 hl
        cases h
        have h1 := ParseArgumentId_style _ _ _ hl
        rw [(Next_style ps.Next).1, (Next_style ps.Next).2, (Next_style ps).1,
          (Next_style ps).2] at h1
        have h2 := Next_style
          { p1 with precision := { p1.precision with id := id, is_reference := true } }
        exact ⟨h2.1.trans h1.1, h2.2.trans h1.2⟩
    · split at h
      · split at h
        · cases h
        · rename_i integer p1 hl
          split at h
          · cases h
          · cases h
            have := digitLoop_style _ _ _ integer p1 hl
            rw [(Next_style ps).1, (Next_style ps).2] at this
            exact this
      · cases h; exact Next_style ps
  · cases h; exact ⟨rfl, rfl⟩

theorem parseType_style (ps : ArgumentParser) :
    ps.parseType.fill = ps.fill ∧ ps.parseType.align = ps.align := by
  unfold parseType
  split
  · exact Next_style { ps with type := ps.Current }
  · exact ⟨rfl, rfl⟩

theorem parseSign_style (ps : ArgumentParser) :
    ps.parseSign.fill = ps.fill ∧ ps.parseSign.align = ps.align := by
  unfold parseSign
  split
  · exact Next_style { ps with flags := _ }
  · split
    · exact Next_style { ps with flags := _ }
    · split
      · exact Next_style { ps with flags := _ }
      · exact ⟨rfl, rfl⟩

theorem parseHash_style (ps : ArgumentParser) :
    ps.parseHash.fill = ps.fill ∧ ps.parseHash.align = ps.align := by
  unfold parseHash
  split
  · exact Next_style { ps with flags := _ }
  · exact ⟨rfl, rfl⟩

/-- The fill and alignment `ParseFormatString` leaves in the parser are those
of the zero flag when there is one, and those of the alignment block when
there is none. -/
theorem ParseFormatString_style (ps ps1 q : ArgumentParser)
    (h0 : ps.Current ≠ '}') (ha : parseAlign ps = .ok ps1)
    (hq : ParseFormatString ps = .ok q) :
    if ps1.parseSign.parseHash.Current = '0' then q.fill = '0' ∧ q.align = Align.NUMERIC
    else q.fill = ps1.fill ∧ q.align = ps1.align := by
  unfold ParseFormatString at hq
  have h0b : (ps.Current == '}') = false := by simpa using h0
  rw [if_neg (by simp [h0b]), ha] at hq
  dsimp only at hq
  split at hq
  · cases hq
  · rename_i p2 hw
    split at hq
    · cases hq
    · rename_i p3 hp
      split at hq
      · cases hq
      · cases hq
        have s1 := parseType_style p3
        have s2 := parsePrecision_style _ _ hp
        have s3 := parseWidth_style _ _ hw
        have hfill : p3.parseType.fill = ps1.parseSign.parseHash.parseZero.fill :=
          s1.1.trans (s2.1.trans s3.1)
        have halign : p3.parseType.align = ps1.parseSign.parseHash.parseZero.align :=
          s1.2.trans (s2.2.trans s3.2)
        rw [hfill, halign]
        unfold parseZero
        by_cases hz : ps1.parseSign.parseHash.Current = '0'
        · rw [if_pos hz, if_pos (by simp [hz])]
          exact Next_style { ps1.parseSign.parseHash with fill := '0', align := Align.NUMERIC }
        · rw [if_neg hz, if_neg (by simp [hz])]
          have a1 := parseHash_style ps1.parseSign
          have a2 := parseSign_style ps1
          exact ⟨a1.1.trans a2.1, a1.2.trans a2.2⟩

end ArgumentParser

theorem charAt_eq_head_drop (s : List Char) (i : Nat) :
    charAt s i = ((s.drop i).head?).getD NUL := by
  unfold charAt
  rw [List.getD_eq_getElem?_getD, List.head?_drop]

theorem drop_succ_of_drop_cons (s : List Char) (i : Nat) (c : Char) (r : List Char)
    (h : s.drop i = c :: r) : s.drop (i + 1) = r := by
  rw [← List.tail_drop, h]
  rfl

theorem length_le_of_drop (s : List Char) (i : Nat) (run rest : List Char)
    (h : s.drop i = run ++ rest) : run.length ≤ s.length := by
  have := congrArg List.length h
  simp at this
  omega

namespace ArgumentParser

theorem Current_of_drop (ps : ArgumentParser) (text : List Char)
    (h : ps.str.drop ps.from_ = text) : ps.Current = (text.head?).getD NUL := by
  unfold Current
  rw [charAt_eq_head_drop, h]

theorem IsDigit_eq (ps : ArgumentParser) : ps.IsDigit = isDigitChar ps.Current := rfl

theorem IsIdentifierStart_eq (ps : ArgumentParser) :
    ps.IsIdentifierStart = isIdentStartChar ps.Current := rfl

/-- The digit loop reads a maximal run of digits that ends at or before the
parser's end, and stops on the character behind it. -/
theorem digitLoop_run : ∀ (run : List Char) (ps : ArgumentParser) (rest acc : List Char)
    (fuel : Nat), ps.str.drop ps.from_ = run ++ rest → (∀ c ∈ run, isDigitChar c = true) →
    (∀ c, rest.head? = some c → isDigitChar c = false) →
    ps.from_ + run.length ≤ ps.to_ → run.length < fuel →
    digitLoop fuel ps acc = .ok (acc ++ run, { ps with from_ := ps.from_ + run.length }) := by
  intro run
  induction run with
  | nil =>
    intro ps rest acc fuel hread _ hrest _ hfuel
    cases fuel with
    | zero => simp at hfuel
    | succ f =>
      have hcur := Current_of_drop ps _ hread
      have hd : ps.IsDigit = false := by
        rw [IsDigit_eq, hcur]
        simp only [List.nil_append]
        cases hh : rest.head? with
        | none => decide
        | some c => exact hrest c hh
      rw [digitLoop, hd]
      simp
  | cons c r ih =>
    intro ps rest acc fuel hread hrun hrest hfit hfuel
    cases fuel with
    | zero => simp at hfuel
    | succ f =>
      have hcur : ps.Current = c := by
        rw [Current_of_drop ps _ hread]; rfl
      have hd : ps.IsDigit = true := by
        rw [IsDigit_eq, hcur]; exact hrun c (by simp)
      have hne : ps.from_ ≠ ps.to_ := by
        simp only [List.length_cons] at hfit; omega
      have hnext : ps.Next = { ps with from_ := ps.from_ + 1 } := by
        simp [Next, HasNext, hne]
      rw [digitLoop, hd, hnext, hcur]
      simp only [if_true]
      have hread2 : ({ ps with from_ := ps.from_ + 1 } : ArgumentParser).str.drop
          ({ ps with from_ := ps.from_ + 1 } : ArgumentParser).from_ = r ++ rest :=
        drop_succ_of_drop_cons ps.str ps.from_ c (r ++ rest) hread
      rw [ih { ps with from_ := ps.from_ + 1 } rest (acc ++ [c]) f hread2
        (fun x hx => hrun x (List.mem_cons_of_mem _ hx)) hrest
        (by simp only [List.length_cons] at hfit ⊢; omega)
        (by simp only [List.length_cons] at hfuel; omega)]
      simp only [List.append_assoc, List.singleton_append, List.length_cons]
      have : ps.from_ + 1 + r.length = ps.from_ + (r.length + 1) := by omega
      rw [this]

/-- The identifier loop reads a maximal run of identifier characters that ends
at or before the parser's end, and stops on the character behind it. -/
theorem identLoop_run : ∀ (run : List Char) (ps : ArgumentParser) (rest acc : List Char)
    (fuel : Nat), ps.str.drop ps.from_ = run ++ rest → (∀ c ∈ run, isIdentChar c = true) →
    (∀ c, rest.head? = some c → isIdentChar c = false) →
    ps.from_ + run.length ≤ ps.to_ → run.length < fuel →
    identLoop fuel ps acc = .ok (acc ++ run, { ps with from_ := ps.from_ + run.length }) := by
  intro run
  induction run with
  | nil =>
    intro ps rest acc fuel hread _ hrest _ hfuel
    cases fuel with
    | zero => simp at hfuel
    | succ f =>
      have hcur := Current_of_drop ps _ hread
      have hd : (ps.IsDigit || ps.IsIdentifierStart) = false := by
        rw [IsDigit_eq, IsIdentifierStart_eq, hcur]
        simp only [List.nil_append]
        cases hh : rest.head? with
        | none => decide
        | some c => exact hrest c hh
      rw [identLoop, hd]
      simp
  | cons c r ih =>
    intro ps rest acc fuel hread hrun hrest hfit hfuel
    cases fuel with
    | zero => simp at hfuel
    | succ f =>
      have hcur : ps.Current = c := by
        rw [Current_of_drop ps _ hread]; rfl
      have hc : isIdentChar c = true := hrun c (by simp)
      have hd : (ps.IsDigit || ps.IsIdentifierStart) = true := by
        rw [IsDigit_eq, IsIdentifierStart_eq, hcur]; exact hc
      have hend : ps.IsArgIdEnd = false := by
        unfold IsArgIdEnd
        rw [hcur]
        simp only [Bool.or_eq_false_iff, beq_eq_false_iff_ne, ne_eq]
        constructor
        · intro h; rw [h] at hc; revert hc; decide
        · intro h; rw [h] at hc; revert hc; decide
      have hne : ps.from_ ≠ ps.to_ := by
        simp only [List.length_cons] at hfit; omega
      have hnext : ps.Next = { ps with from_ := ps.from_ + 1 } := by
        simp [Next, HasNext, hne]
      rw [identLoop, hd, hend, hnext, hcur]
      simp only [Bool.not_false, Bool.and_self, if_true]
      have hread2 : ({ ps with from_ := ps.from_ + 1 } : ArgumentParser).str.drop
          ({ ps with from_ := ps.from_ + 1 } : ArgumentParser).from_ = r ++ rest :=
        drop_succ_of_drop_cons ps.str ps.from_ c (r ++ rest) hread
      rw [ih { ps with from_ := ps.from_ + 1 } rest (acc ++ [c]) f hread2
        (fun x hx => hrun x (List.mem_cons_of_mem _ hx)) hrest
        (by simp only [List.length_cons] at hfit ⊢; omega)
        (by simp only [List.length_cons] at hfuel; omega)]
      simp only [List.append_assoc, List.singleton_append, List.length_cons]
      have : ps.from_ + 1 + r.length = ps.from_ + (r.length + 1) := by omega
      rw [this]

theorem IsArgIdEnd_of_drop (ps : ArgumentParser) (rest : List Char)
    (h : ps.str.drop ps.from_ = rest) : ps.IsArgIdEnd = terminated rest := by
  unfold IsArgIdEnd terminated
  rw [Current_of_drop ps rest h]
  cases hh : rest.head? with
  | none => decide
  | some c => simp

end ArgumentParser

end detail

namespace Ansi

namespace detail

theorem Explode_zero (Digits : List Nat) :
    Explode 0 Digits = Digits.map fun d => Char.ofNat ('0'.toNat + d) := by
  rw [Explode]; simp

theorem Explode_pos (Rem : Nat) (Digits : List Nat) (h : Rem ≠ 0) :
    Explode Rem Digits = Explode (Rem / 10) (Rem % 10 :: Digits) := by
  rw [Explode]; simp [h]

theorem digit_char : ∀ d, d < 10 → Char.ofNat ('0'.toNat + d) = Nat.digitChar d := by
  decide

theorem Explode_eq_toDigitsCore : ∀ (fuel v : Nat) (Digits : List Nat),
    v ≠ 0 → v < fuel →
    Explode v Digits
      = Nat.toDigitsCore 10 fuel v (Digits.map fun d => Char.ofNat ('0'.toNat + d)) := by
  intro fuel
  induction fuel with
  | zero => intro v _ _ h; simp at h
  | succ f ih =>
    intro v Digits hv hf
    rw [Explode_pos v Digits hv, Nat.toDigitsCore]
    have hd : Char.ofNat (48 + v % 10) = Nat.digitChar (v % 10) :=
      digit_char _ (Nat.mod_lt _ (by decide))
    by_cases h0 : v / 10 = 0
    · rw [h0, Explode_zero]
      simp [hd]
    · have hlt : v / 10 < f := by
        have := Nat.div_lt_self (Nat.pos_of_ne_zero hv) (by decide : 1 < 10)
        omega
      rw [ih (v / 10) _ h0 hlt]
      simp [h0, hd]

/-- A code that is not 0 is written in decimal, most significant digit first. -/
theorem ToCompileTimeString_pos (v : Nat) (h : v ≠ 0) :
    ToCompileTimeString v = Nat.toDigits 10 v := by
  unfold ToCompileTimeString Nat.toDigits
  rw [Explode_eq_toDigitsCore (v + 1) v [] h (Nat.lt_succ_self v)]
  rfl

/-- The code 0 is written without any digit. -/
theorem ToCompileTimeString_zero : ToCompileTimeString 0 = [] := by
  unfold ToCompileTimeString
  rw [Explode_zero]; rfl

theorem ConcatenateImpl_eq : ∀ (W : List (List Char)) (S : List Char),
    ConcatenateImpl S W = S ++ W.flatten := by
  intro W
  induction W with
  | nil => intro S; simp [ConcatenateImpl]
  | cons S2 W ih => intro S; simp [ConcatenateImpl, ih]

theorem CodeListType_eq : ∀ (Codes : List Nat) (Code : Nat),
    CodeListType Code Codes
      = List.intercalate [';'] ((Code :: Codes).map ToCompileTimeString) := by
  intro Codes
  induction Codes with
  | nil => intro Code; simp [CodeListType, List.intercalate]
  | cons C Codes ih =>
    intro Code
    rw [CodeListType, ConcatenateImpl_eq, ih C]
    simp [List.intercalate, List.intersperse]

theorem MergeCodeListsImpl_eq : ∀ (Ks : List (List Nat)) (C : List Nat),
    MergeCodeListsImpl C Ks = C ++ Ks.flatten := by
  intro Ks
  induction Ks with
  | nil => intro C; simp [MergeCodeListsImpl]
  | cons K Ks ih =>
    intro C
    cases Ks with
    | nil => simp [MergeCodeListsImpl]
    | cons K2 Ks2 =>
      have : MergeCodeListsImpl C (K :: K2 :: Ks2) = C ++ MergeCodeListsImpl K (K2 :: Ks2) := by
        simp [MergeCodeListsImpl]
      rw [this, ih K]
      simp

theorem MergeCodeLists_eq (L : Codes) (Ls : List Codes) :
    MergeCodeLists L Ls = ((L :: Ls).map ToCodeList).flatten := by
  unfold MergeCodeLists
  rw [MergeCodeListsImpl_eq]
  simp

theorem AnsiCode_eq (L : Codes) (Code : Nat) (Cs : List Nat) (h : ToCodeList L = Code :: Cs) :
    AnsiCode L = some (['\x1b', '['] ++
      List.intercalate [';'] ((Code :: Cs).map ToCompileTimeString) ++ ['m']) := by
  unfold AnsiCode
  rw [h]
  simp only [ConcatenateImpl_eq, CodeListType_eq]
  simp

end detail

end Ansi

namespace detail

namespace ArgumentParser

theorem digitLoop_length : ∀ (fuel : Nat) (ps : ArgumentParser) (acc x : List Char)
    (q : ArgumentParser), digitLoop fuel ps acc = .ok (x, q) → acc.length ≤ x.length := by
  intro fuel
  induction fuel with
  | zero => intro ps acc x q h; simp [digitLoop] at h
  | succ f ih =>
    intro ps acc x q h
    rw [digitLoop] at h
    split at h
    · have := ih _ _ _ _ h
      simp only [List.length_append, List.length_singleton] at this
      omega
    · cases h; exact Nat.le_refl _

theorem identLoop_length : ∀ (fuel : Nat) (ps : ArgumentParser) (acc x : List Char)
    (q : ArgumentParser), identLoop fuel ps acc = .ok (x, q) → acc.length ≤ x.length := by
  intro fuel
  induction fuel with
  | zero => intro ps acc x q h; simp [identLoop] at h
  | succ f ih =>
    intro ps acc x q h
    rw [identLoop] at h
    split at h
    · have := ih _ _ _ _ h
      simp only [List.length_append, List.length_singleton] at this
      omega
    · cases h; exact Nat.le_refl _

/-- An id that `ParseArgumentId` returns has at least one character. -/
theorem ParseArgumentId_nonempty (ps : ArgumentParser) (id : List Char) (q : ArgumentParser)
    (h : ParseArgumentId ps = .ok (id, q)) : id ≠ [] := by
  unfold ParseArgumentId loopFuel at h
  split at h
  · rename_i hd
    rw [digitLoop, if_pos hd] at h
    split at h
    · cases h
    · rename_i r p1 hl
      split at h
      · cases h
      · cases h
        have := digitLoop_length _ _ _ _ _ hl
        intro he
        rw [he] at this
        simp at this
  · split at h
    · split at h
      · cases h
      · rename_i r p1 hl
        split at h
        · cases h
        · cases h
          have := identLoop_length _ _ _ _ _ hl
          intro he
          rw [he] at this
          simp at this
    · cases h

end ArgumentParser

end detail

/-! ### Termination of the construction -/

namespace detail

theorem isDigitChar_toNat (c : Char) (h : isDigitChar c = true) :
    48 ≤ c.toNat ∧ c.toNat ≤ 57 := by
  simp only [isDigitChar, Bool.and_eq_true, decide_eq_true_eq] at h
  obtain ⟨h1, h2⟩ := h
  have a : ('0' : Char).toNat ≤ c.toNat := h1
  have b : c.toNat ≤ ('9' : Char).toNat := h2
  exact ⟨a, b⟩

theorem isEnd_char (s : List Char) (e : Nat) (h : isEnd s e) :
    isDigitChar (charAt s e) = false ∧ isIdentStartChar (charAt s e) = false ∧
      (charAt s e = '}' ∨ charAt s e = NUL) := by
  rcases h.2 with h1 | h1
  · rw [h1]; exact ⟨by decide, by decide, Or.inl rfl⟩
  · rw [charAt_of_length_le s e (by omega)]; exact ⟨by decide, by decide, Or.inr rfl⟩

theorem charAt_drop (s : List Char) (i k : Nat) : charAt (s.drop i) k = charAt s (i + k) := by
  simp [charAt, List.getD_eq_getElem?_getD]

theorem scanClose_end : ∀ (l : List Char) (e0 : Nat),
    e0 ≤ ArgumentFormatter.scanClose l e0 ∧ ArgumentFormatter.scanClose l e0 ≤ e0 + l.length ∧
      (charAt l (ArgumentFormatter.scanClose l e0 - e0) = '}' ∨
        ArgumentFormatter.scanClose l e0 = e0 + l.length) := by
  intro l
  induction l with
  | nil => intro e0; simp [ArgumentFormatter.scanClose]
  | cons c cs ih =>
    intro e0
    rw [ArgumentFormatter.scanClose]
    by_cases hc : (c == '}') = true
    · rw [if_pos hc]
      refine ⟨Nat.le_refl _, by simp, Or.inl ?_⟩
      simp only [Nat.sub_self, charAt, List.getD_cons_zero]
      simpa using hc
    · rw [if_neg hc]
      obtain ⟨h1, h2, h3⟩ := ih (e0 + 1)
      refine ⟨by omega, by simp only [List.length_cons]; omega, ?_⟩
      rcases h3 with h3 | h3
      · left
        have : ArgumentFormatter.scanClose cs (e0 + 1) - e0
            = (ArgumentFormatter.scanClose cs (e0 + 1) - (e0 + 1)) + 1 := by omega
        rw [this]
        simpa [charAt] using h3
      · right
        simp only [List.length_cons]; omega

theorem scanClose_isEnd (format : List Char) (it : Nat) (h : it ≤ format.length) :
    it ≤ ArgumentFormatter.scanClose (format.drop it) it ∧
      isEnd format (ArgumentFormatter.scanClose (format.drop it) it) := by
  obtain ⟨h1, h2, h3⟩ := scanClose_end (format.drop it) it
  have hl : (format.drop it).length = format.length - it := by simp
  refine ⟨h1, by omega, ?_⟩
  rcases h3 with h3 | h3
  · left
    rw [charAt_drop] at h3
    have : it + (ArgumentFormatter.scanClose (format.drop it) it - it)
        = ArgumentFormatter.scanClose (format.drop it) it := by omega
    rw [this] at h3
    exact h3
  · right; omega

namespace ArgumentParser

theorem within_Next (s : List Char) (e : Nat) (ps : ArgumentParser) (h : within s e ps) :
    within s e ps.Next := by
  unfold Next HasNext
  by_cases hn : (ps.from_ != ps.to_) = true
  · rw [if_pos hn]
    have : ps.from_ ≠ ps.to_ := by simpa using hn
    have h2 := h.to_
    have h3 := h.le
    exact ⟨h.str, h.to_, by show ps.from_ + 1 ≤ e; omega⟩
  · rw [if_neg hn]; exact h

theorem within_Current (s : List Char) (e : Nat) (ps : ArgumentParser) (h : within s e ps)
    (he : ps.from_ = e) : ps.Current = charAt s e := by
  unfold Current
  rw [h.str, he]

theorem within_Next_of (s : List Char) (e : Nat) (ps : ArgumentParser) (h : within s e ps)
    (hne : ps.Current ≠ charAt s e) :
    ps.Next = { ps with from_ := ps.from_ + 1 } ∧ ps.from_ + 1 ≤ e := by
  have hfe : ps.from_ ≠ e := fun he => hne (within_Current s e ps h he)
  have hle := h.le
  have hto := h.to_
  refine ⟨?_, by omega⟩
  unfold Next HasNext
  have : (ps.from_ != ps.to_) = true := by simp; omega
  rw [if_pos this]

theorem digitLoop_total (s : List Char) (e : Nat) (hend : isEnd s e) :
    ∀ (fuel : Nat) (ps : ArgumentParser) (acc : List Char), within s e ps →
      e - ps.from_ < fuel →
      ∃ run q, digitLoop fuel ps acc = .ok (acc ++ run, q) ∧ within s e q ∧
        (∀ c ∈ run, isDigitChar c = true) ∧ (ps.IsDigit = true → run ≠ []) := by
  intro fuel
  induction fuel with
  | zero => intro ps acc _ hf; omega
  | succ f ih =>
    intro ps acc hw hf
    rw [digitLoop]
    by_cases hd : ps.IsDigit = true
    · rw [if_pos hd]
      have hne : ps.Current ≠ charAt s e := by
        intro hc
        rw [IsDigit_eq, hc, (isEnd_char s e hend).1] at hd
        cases hd
      obtain ⟨hn, hle⟩ := within_Next_of s e ps hw hne
      have hw2 := within_Next s e ps hw
      obtain ⟨run, q, h1, h2, h3, _⟩ := ih ps.Next (acc ++ [ps.Current]) hw2
        (by rw [hn]; show e - (ps.from_ + 1) < f; omega)
      refine ⟨ps.Current :: run, q, ?_, h2, ?_, fun _ => by simp⟩
      · rw [h1]; simp
      · intro c hc
        rcases List.mem_cons.mp hc with rfl | hc
        · rw [← IsDigit_eq]; exact hd
        · exact h3 c hc
    · rw [if_neg hd]
      exact ⟨[], ps, by simp, hw, by simp, fun h => absurd h hd⟩

theorem identLoop_total (s : List Char) (e : Nat) (hend : isEnd s e) :
    ∀ (fuel : Nat) (ps : ArgumentParser) (acc : List Char), within s e ps →
      e - ps.from_ < fuel →
      ∃ x q, identLoop fuel ps acc = .ok (x, q) ∧ within s e q := by
  intro fuel
  induction fuel with
  | zero => intro ps acc _ hf; omega
  | succ f ih =>
    intro ps acc hw hf
    rw [identLoop]
    by_cases hd : (!ps.IsArgIdEnd && (ps.IsDigit || ps.IsIdentifierStart)) = true
    · rw [if_pos hd]
      have hne : ps.Current ≠ charAt s e := by
        intro hc
        rw [IsDigit_eq, IsIdentifierStart_eq, hc, (isEnd_char s e hend).1,
          (isEnd_char s e hend).2.1] at hd
        simp at hd
      obtain ⟨hn, hle⟩ := within_Next_of s e ps hw hne
      have hw2 := within_Next s e ps hw
      exact ih ps.Next (acc ++ [ps.Current]) hw2
        (by rw [hn]; show e - (ps.from_ + 1) < f; omega)
    · rw [if_neg hd]
      exact ⟨acc, ps, rfl, hw⟩

theorem loopFuel_within (s : List Char) (e : Nat) (hend : isEnd s e) (ps : ArgumentParser)
    (hw : within s e ps) : e - ps.from_ < ps.loopFuel := by
  unfold loopFuel
  rw [hw.str]
  have := hend.1
  omega

theorem ParseArgumentId_total (s : List Char) (e : Nat) (hend : isEnd s e)
    (ps : ArgumentParser) (hw : within s e ps) :
    ParseArgumentId ps = .error .InvalidFormatString ∨
      ∃ x q, ParseArgumentId ps = .ok (x, q) ∧ within s e q := by
  unfold ParseArgumentId
  by_cases hd : ps.IsDigit = true
  · rw [if_pos hd]
    obtain ⟨run, q, h1, h2, _, _⟩ := digitLoop_total s e hend ps.loopFuel ps [] hw
      (loopFuel_within s e hend ps hw)
    rw [h1]
    dsimp only
    by_cases hq : (!q.IsArgIdEnd) = true
    · rw [if_pos hq]; exact Or.inl rfl
    · rw [if_neg hq]; exact Or.inr ⟨_, _, rfl, h2⟩
  · rw [if_neg hd]
    by_cases hi : ps.IsIdentifierStart = true
    · rw [if_pos hi]
      have hw2 := within_Next s e ps hw
      have hf : e - ps.Next.from_ < ps.loopFuel := by
        have hfu : ps.Next.loopFuel = ps.loopFuel := by
          unfold loopFuel; rw [hw2.str, hw.str]
        rw [← hfu]
        exact loopFuel_within s e hend ps.Next hw2
      obtain ⟨x, q, h1, h2⟩ := identLoop_total s e hend ps.loopFuel ps.Next [ps.Current] hw2 hf
      rw [h1]
      dsimp only
      by_cases hq : (!q.IsArgIdEnd) = true
      · rw [if_pos hq]; exact Or.inl rfl
      · rw [if_neg hq]; exact Or.inr ⟨_, _, rfl, h2⟩
    · rw [if_neg hi]; exact Or.inl rfl

end ArgumentParser
end detail

namespace detail

theorem stoi_digits (x : List Char) (hne : x ≠ []) (hd : ∀ c ∈ x, isDigitChar c = true) :
    (∃ v, stoi x = .ok v) ∨ stoi x = .error .std_out_of_range := by
  cases x with
  | nil => exact absurd rfl hne
  | cons c r =>
    have hc := isDigitChar_toNat c (hd c (by simp))
    have hsp : isSpace c = false := by
      unfold isSpace
      have h1 : (c == ' ') = false := by
        apply beq_false_of_ne
        intro h; rw [h] at hc; revert hc; decide
      rw [h1]
      simp only [Bool.false_or, Bool.and_eq_false_imp, decide_eq_true_eq, decide_eq_false_iff_not]
      omega
    have hm : (c == '-') = false := by
      apply beq_false_of_ne
      intro h; rw [h] at hc; revert hc; decide
    have hp : (c == '+') = false := by
      apply beq_false_of_ne
      intro h; rw [h] at hc; revert hc; decide
    have htw : List.takeWhile isDigitChar (c :: r) = c :: r := by
      rw [List.takeWhile_eq_self_iff]; exact hd
    unfold stoi
    simp only [List.dropWhile_cons, hsp, Bool.false_eq_true, if_false, List.head?_cons,
      Option.some_beq_some, hm, hp, Bool.or_self, htw, List.isEmpty_cons]
    split
    · exact Or.inr rfl
    · exact Or.inl ⟨_, rfl⟩

namespace ArgumentParser

theorem alignLoop_two (s : List Char) (e : Nat) :
    ∀ (n : Nat) (ps : ArgumentParser) (p : Char), within s e ps →
      alignLoop (n + 2) ps p = .error .InvalidFormatString ∨
        ∃ q, alignLoop (n + 2) ps p = .ok q ∧ within s e q := by
  intro n ps p hw
  have step : ∀ (ps2 : ArgumentParser), within s e ps2 →
      (if (({ ps2 with fill := ps2.Current } : ArgumentParser).fill == '}') = true
        then (Except.error Exn.InvalidFormatString : Except Exn ArgumentParser)
        else .ok ({ ps2 with fill := ps2.Current } : ArgumentParser).Next.Next)
        = .error .InvalidFormatString ∨
      ∃ q, (if (({ ps2 with fill := ps2.Current } : ArgumentParser).fill == '}') = true
        then (Except.error Exn.InvalidFormatString : Except Exn ArgumentParser)
        else .ok ({ ps2 with fill := ps2.Current } : ArgumentParser).Next.Next) = .ok q ∧
        within s e q := by
    intro ps2 hw2
    split
    · exact Or.inl rfl
    · exact Or.inr ⟨_, rfl, within_Next s e _ (within_Next s e _ ⟨hw2.str, hw2.to_, hw2.le⟩)⟩
  rw [alignLoop]
  by_cases h0 : (p == NUL) = true
  · rw [if_pos h0]; exact Or.inr ⟨_, rfl, hw⟩
  · rw [if_neg h0]
    dsimp only
    split
    · rename_i hdef
      split
      · exact Or.inr ⟨_, rfl, ⟨hw.str, hw.to_, hw.le⟩⟩
      · rw [alignLoop]
        split
        · exact Or.inr ⟨_, rfl, ⟨hw.str, hw.to_, hw.le⟩⟩
        · dsimp only
          split
          · split
            · exact Or.inr ⟨_, rfl, ⟨hw.str, hw.to_, hw.le⟩⟩
            · rename_i hne
              exact False.elim (by simp [Current] at hne)
          · exact step _ ⟨hw.str, hw.to_, hw.le⟩
    · exact step _ ⟨hw.str, hw.to_, hw.le⟩

theorem parseAlign_total (s : List Char) (e : Nat) (ps : ArgumentParser) (hw : within s e ps) :
    parseAlign ps = .error .InvalidFormatString ∨
      ∃ q, parseAlign ps = .ok q ∧ within s e q := by
  unfold parseAlign loopFuel
  exact alignLoop_two s e _ _ _ ⟨hw.str, hw.to_, hw.le⟩

theorem within_parseSign (s : List Char) (e : Nat) (ps : ArgumentParser) (hw : within s e ps) :
    within s e ps.parseSign := by
  unfold parseSign
  split
  · exact within_Next s e _ ⟨hw.str, hw.to_, hw.le⟩
  · split
    · exact within_Next s e _ ⟨hw.str, hw.to_, hw.le⟩
    · split
      · exact within_Next s e _ ⟨hw.str, hw.to_, hw.le⟩
      · exact hw

theorem within_parseHash (s : List Char) (e : Nat) (ps : ArgumentParser) (hw : within s e ps) :
    within s e ps.parseHash := by
  unfold parseHash
  split
  · exact within_Next s e _ ⟨hw.str, hw.to_, hw.le⟩
  · exact hw

theorem within_parseZero (s : List Char) (e : Nat) (ps : ArgumentParser) (hw : within s e ps) :
    within s e ps.parseZero := by
  unfold parseZero
  split
  · exact within_Next s e _ ⟨hw.str, hw.to_, hw.le⟩
  · exact hw

theorem within_parseType (s : List Char) (e : Nat) (ps : ArgumentParser) (hw : within s e ps) :
    within s e ps.parseType := by
  unfold parseType
  split
  · exact within_Next s e _ ⟨hw.str, hw.to_, hw.le⟩
  · exact hw

theorem parseWidth_total (s : List Char) (e : Nat) (hend : isEnd s e) (ps : ArgumentParser)
    (hw : within s e ps) :
    (∃ x, parseWidth ps = .error x ∧ thrown x) ∨ ∃ q, parseWidth ps = .ok q ∧ within s e q := by
  unfold parseWidth
  split
  · rcases ParseArgumentId_total s e hend ps.Next (within_Next s e ps hw) with h | ⟨x, q, h, hq⟩
    · rw [h]; exact Or.inl ⟨_, rfl, Or.inl rfl⟩
    · rw [h]
      exact Or.inr ⟨_, rfl, within_Next s e _ ⟨hq.str, hq.to_, hq.le⟩⟩
  · by_cases hd : ps.IsDigit = true
    · rw [if_pos hd]
      obtain ⟨run, q, h1, h2, h3, h4⟩ := digitLoop_total s e hend ps.loopFuel ps [] hw
        (loopFuel_within s e hend ps hw)
      rw [h1]
      dsimp only
      rw [List.nil_append]
      rcases stoi_digits run (h4 hd) h3 with ⟨v, hv⟩ | hv
      · rw [hv]; exact Or.inr ⟨_, rfl, ⟨h2.str, h2.to_, h2.le⟩⟩
      · rw [hv]; exact Or.inl ⟨_, rfl, Or.inr rfl⟩
    · rw [if_neg hd]; exact Or.inr ⟨_, rfl, hw⟩

theorem parsePrecision_total (s : List Char) (e : Nat) (hend : isEnd s e) (ps : ArgumentParser)
    (hw : within s e ps) :
    (∃ x, parsePrecision ps = .error x ∧ thrown x) ∨
      ∃ q, parsePrecision ps = .ok q ∧ within s e q := by
  unfold parsePrecision
  split
  · dsimp only
    have hw0 := within_Next s e ps hw
    split
    · rcases ParseArgumentId_total s e hend ps.Next.Next (within_Next s e _ hw0)
        with h | ⟨x, q, h, hq⟩
      · rw [h]; exact Or.inl ⟨_, rfl, Or.inl rfl⟩
      · rw [h]
        exact Or.inr ⟨_, rfl, within_Next s e _ ⟨hq.str, hq.to_, hq.le⟩⟩
    · by_cases hd : ps.Next.IsDigit = true
      · rw [if_pos hd]
        obtain ⟨run, q, h1, h2, h3, h4⟩ := digitLoop_total s e hend ps.Next.loopFuel ps.Next []
          hw0 (loopFuel_within s e hend ps.Next hw0)
        rw [h1]
        dsimp only
        rw [List.nil_append]
        rcases stoi_digits run (h4 hd) h3 with ⟨v, hv⟩ | hv
        · rw [hv]; exact Or.inr ⟨_, rfl, ⟨h2.str, h2.to_, h2.le⟩⟩
        · rw [hv]; exact Or.inl ⟨_, rfl, Or.inr rfl⟩
      · rw [if_neg hd]; exact Or.inr ⟨_, rfl, hw0⟩
  · exact Or.inr ⟨_, rfl, hw⟩

theorem ParseFormatString_total (s : List Char) (e : Nat) (hend : isEnd s e)
    (ps : ArgumentParser) (hw : within s e ps) :
    (∃ x, ParseFormatString ps = .error x ∧ thrown x) ∨
      ∃ q, ParseFormatString ps = .ok q ∧ within s e q := by
  unfold ParseFormatString
  split
  · exact Or.inr ⟨_, rfl, hw⟩
  · rcases parseAlign_total s e ps hw with h | ⟨ps1, h, h1⟩
    · rw [h]; exact Or.inl ⟨_, rfl, Or.inl rfl⟩
    · rw [h]
      dsimp only
      have hw1 := within_parseZero s e _ (within_parseHash s e _ (within_parseSign s e _ h1))
      rcases parseWidth_total s e hend _ hw1 with ⟨x, hx, ht⟩ | ⟨ps2, hx, h2⟩
      · rw [hx]; exact Or.inl ⟨_, rfl, ht⟩
      · rw [hx]
        dsimp only
        rcases parsePrecision_total s e hend _ h2 with ⟨x, hy, ht⟩ | ⟨ps3, hy, h3⟩
        · rw [hy]; exact Or.inl ⟨_, rfl, ht⟩
        · rw [hy]
          dsimp only
          split
          · exact Or.inl ⟨_, rfl, Or.inl rfl⟩
          · exact Or.inr ⟨_, rfl, within_parseType s e _ h3⟩

theorem parseArgId_total (s : List Char) (e : Nat) (hend : isEnd s e)
    (ps : ArgumentParser) (hw : within s e ps) :
    parseArgId ps = .error .InvalidFormatString ∨
      ∃ q, parseArgId ps = .ok q ∧ within s e q := by
  unfold parseArgId
  split
  · rcases ParseArgumentId_total s e hend ps hw with h | ⟨x, q, h, hq⟩
    · rw [h]; exact Or.inl rfl
    · rw [h]; exact Or.inr ⟨_, rfl, ⟨hq.str, hq.to_, hq.le⟩⟩
  · exact Or.inr ⟨_, rfl, hw⟩

theorem Parse_total (s : List Char) (e : Nat) (hend : isEnd s e)
    (ps : ArgumentParser) (ra : Align) (hw : within s e ps) :
    (∃ x, Parse ps ra = .error x ∧ thrown x) ∨
      ∃ r q, Parse ps ra = .ok (r, q) ∧ within s e q := by
  unfold Parse
  split
  · exact Or.inl ⟨_, rfl, Or.inl rfl⟩
  · rcases parseArgId_total s e hend ps.Next (within_Next s e ps hw) with h | ⟨ps1, h, h1⟩
    · rw [h]; exact Or.inl ⟨_, rfl, Or.inl rfl⟩
    · rw [h]
      dsimp only
      split
      · rcases ParseFormatString_total s e hend ps1.Next (within_Next s e ps1 h1)
          with ⟨x, hx, ht⟩ | ⟨ps2, hx, h2⟩
        · rw [hx]; exact Or.inl ⟨_, rfl, ht⟩
        · rw [hx]; exact Or.inr ⟨_, _, rfl, h2⟩
      · exact Or.inr ⟨_, _, rfl, h1⟩

end ArgumentParser

theorem loop_total (format : List Char) (mem : Nat → Indeterminate) :
    ∀ (fuel it : Nat) (b : ArgumentFormatter.Building), it ≤ format.length →
      format.length - it < fuel →
      (∃ x, ArgumentFormatter.loop format mem fuel it b = .error x ∧ thrown x) ∨
        ∃ b1, ArgumentFormatter.loop format mem fuel it b = .ok b1 := by
  intro fuel
  induction fuel with
  | zero => intro it b _ hf; omega
  | succ f ih =>
    intro it b hle hf
    rw [ArgumentFormatter.loop]
    split
    · exact Or.inr ⟨_, rfl⟩
    · rename_i hlen
      have hlen2 : it ≠ format.length := by simpa using hlen
      split
      · dsimp only
        obtain ⟨h1, h2⟩ := scanClose_isEnd format it hle
        rcases ArgumentParser.Parse_total format _ h2
          (ArgumentParser.new format it (ArgumentFormatter.scanClose (format.drop it) it) (mem it))
          (mem it).result_align ⟨rfl, rfl, h1⟩ with ⟨x, hx, ht⟩ | ⟨a, q, hx, _⟩
        · rw [hx]; exact Or.inl ⟨_, rfl, ht⟩
        · rw [hx]
          dsimp only
          rw [ArgumentParser.Parse_at_close _ _ (ArgumentParser.Parse_ok_cursor _ _ _ _ hx)]
          exact Or.inl ⟨_, rfl, Or.inl rfl⟩
      · by_cases hesc : (charAt format it == '}' && charAt format (it + 1) == '}') = true
        · rw [if_pos hesc]
          have h1 : charAt format (it + 1) = '}' := by
            simp only [Bool.and_eq_true, beq_iff_eq] at hesc; exact hesc.2
          have h2 : it + 1 < format.length := by
            by_contra hge
            rw [charAt_of_length_le format (it + 1) (by omega)] at h1
            revert h1; decide
          exact ih _ _ (by omega) (by omega)
        · rw [if_neg hesc]
          exact ih _ _ (by omega) (by omega)

theorem new_total (format : List Char) (mem : Nat → Indeterminate) :
    (∃ x, ArgumentFormatter.new format mem = .error x ∧ thrown x) ∨
      ∃ f, ArgumentFormatter.new format mem = .ok f := by
  unfold ArgumentFormatter.new
  rcases loop_total format mem (format.length + 1) 0
    { current := [], auto_id := 0, consts := [], args := [] } (Nat.zero_le _) (by omega)
    with ⟨x, hx, ht⟩ | ⟨b1, hb⟩
  · rw [hx]; exact Or.inl ⟨_, rfl, ht⟩
  · rw [hb]; exact Or.inr ⟨_, rfl⟩

end detail

namespace detail
namespace ArgumentParser

theorem alignLoop_fuel (n : Nat) (ps : ArgumentParser) (p : Char) :
    alignLoop (n + 2) ps p ≠ .error .outOfFuel := by
  rw [alignLoop]
  by_cases h0 : (p == NUL) = true
  · rw [if_pos h0]; intro h; cases h
  · rw [if_neg h0]
    dsimp only
    split
    · split
      · intro h; cases h
      · rw [alignLoop]
        split
        · intro h; cases h
        · dsimp only
          split
          · split
            · intro h; cases h
            · rename_i hne
              exact False.elim (by simp [Current] at hne)
          · split
            · intro h; cases h
            · intro h; cases h
    · split
      · intro h; cases h
      · intro h; cases h

theorem Next_advances (s : List Char) (e : Nat) (hend : isEnd s e) (ps : ArgumentParser)
    (hw : within s e ps) (h : isIdentChar ps.Current = true) :
    ps.Next.from_ = ps.from_ + 1 := by
  have hne : ps.Current ≠ charAt s e := by
    intro hc
    rw [hc] at h
    unfold isIdentChar at h
    rw [(isEnd_char s e hend).1, (isEnd_char s e hend).2.1] at h
    cases h
  rw [(within_Next_of s e ps hw hne).1]

end ArgumentParser

namespace ArgumentFormatter

theorem formatLoopChecked_eq (consts : List (List Char)) (arguments : List Arg) :
    ∀ (args : List ArgParseResult) (i : Nat) (result : List Char),
      formatLoopChecked consts arguments args i result
        = some (formatLoop consts arguments args i result) := by
  intro args
  induction args with
  | nil => intro i result; rfl
  | cons a rest ih =>
    intro i result
    rw [formatLoopChecked, formatLoop]
    split
    · rfl
    · dsimp only
      by_cases hi : i < consts.length - 1
      · rw [if_pos hi, if_pos hi]
        have hlt : i + 1 < consts.length := by omega
        rw [List.getElem?_eq_getElem hlt]
        dsimp only
        rw [ih]
        simp [List.getD_eq_getElem?_getD, List.getElem?_eq_getElem hlt]
      · rw [if_neg hi, if_neg hi]
        exact ih _ _

theorem FormatChecked_eq (f : ArgumentFormatter) (arguments : List Arg) :
    f.FormatChecked arguments = some (f.Format arguments) := by
  unfold FormatChecked Format
  split
  · rfl
  · rename_i h0
    have hlt : 0 < f.consts.length := by
      have : f.consts.length ≠ 0 := by simpa using h0
      omega
    rw [List.getElem?_eq_getElem hlt]
    dsimp only
    rw [formatLoopChecked_eq]
    have hget : f.consts.getD 0 [] = f.consts[0] := by
      simp [List.getD_eq_getElem?_getD, List.getElem?_eq_getElem hlt]
    rw [hget]
    generalize formatLoop f.consts arguments f.args 0 f.consts[0] = r
    cases r <;> rfl

end ArgumentFormatter
end detail

namespace Ansi
namespace detail

theorem Explode_append : ∀ (fuel v : Nat) (Digits : List Nat), v < fuel →
    Explode v Digits = Explode v [] ++ Digits.map fun d => Char.ofNat ('0'.toNat + d) := by
  intro fuel
  induction fuel with
  | zero => intro v _ h; omega
  | succ f ih =>
    intro v Digits hv
    by_cases h0 : v = 0
    · subst h0
      rw [Explode_zero, Explode_zero]; simp
    · have hlt : v / 10 < f := by
        have := Nat.div_lt_self (Nat.pos_of_ne_zero h0) (by decide : 1 < 10)
        omega
      rw [Explode_pos v Digits h0, Explode_pos v [] h0, ih (v / 10) (v % 10 :: Digits) hlt,
        ih (v / 10) [v % 10] hlt]
      simp

theorem ToCompileTimeString_step (v : Nat) (h : v ≠ 0) :
    ToCompileTimeString v
      = ToCompileTimeString (v / 10) ++ [Char.ofNat ('0'.toNat + v % 10)] := by
  unfold ToCompileTimeString
  rw [Explode_pos v [] h, Explode_append (v / 10 + 1) (v / 10) [v % 10] (by omega)]
  simp

theorem digitsValue_append (ds : List Char) (c : Char) :
    Canary.detail.digitsValue (ds ++ [c])
      = 10 * Canary.detail.digitsValue ds + (c.toNat - 48) := by
  simp [Canary.detail.digitsValue]

theorem ofNat_digit_toNat (d : Nat) (h : d < 10) : (Char.ofNat ('0'.toNat + d)).toNat = 48 + d := by
  interval_cases d <;> rfl

theorem ofNat_digit_isDigit (d : Nat) (h : d < 10) :
    Canary.detail.isDigitChar (Char.ofNat ('0'.toNat + d)) = true := by
  interval_cases d <;> rfl

theorem ToCompileTimeString_decimal : ∀ (fuel v : Nat), v < fuel →
    Canary.detail.digitsValue (ToCompileTimeString v) = v ∧
      (∀ c ∈ ToCompileTimeString v, Canary.detail.isDigitChar c = true) ∧
      (v ≠ 0 → ∃ c r, ToCompileTimeString v = c :: r ∧ c ≠ '0') := by
  intro fuel
  induction fuel with
  | zero => intro v h; omega
  | succ f ih =>
    intro v hv
    by_cases h0 : v = 0
    · subst h0
      rw [ToCompileTimeString_zero]
      exact ⟨rfl, by simp, fun h => absurd rfl h⟩
    · have hlt : v / 10 < f := by
        have := Nat.div_lt_self (Nat.pos_of_ne_zero h0) (by decide : 1 < 10)
        omega
      obtain ⟨h1, h2, h3⟩ := ih (v / 10) hlt
      have hm : v % 10 < 10 := Nat.mod_lt _ (by decide)
      rw [ToCompileTimeString_step v h0]
      refine ⟨?_, ?_, fun _ => ?_⟩
      · rw [digitsValue_append, h1, ofNat_digit_toNat _ hm]
        omega
      · intro c hc
        rcases List.mem_append.mp hc with hc | hc
        · exact h2 c hc
        · rw [List.mem_singleton.mp hc]; exact ofNat_digit_isDigit _ hm
      · by_cases hq : v / 10 = 0
        · rw [hq, ToCompileTimeString_zero]
          refine ⟨_, [], rfl, ?_⟩
          have hv10 : v < 10 := by omega
          have hmod : v % 10 = v := Nat.mod_eq_of_lt hv10
          rw [hmod]
          intro hc
          have := congrArg Char.toNat hc
          rw [ofNat_digit_toNat _ hv10] at this
          have h48 : ('0' : Char).toNat = 48 := rfl
          omega
        · obtain ⟨c, r, hcr, hc⟩ := h3 hq
          exact ⟨c, r ++ [Char.ofNat ('0'.toNat + v % 10)], by rw [hcr]; rfl, hc⟩

end detail
end Ansi

namespace detail
namespace ArgumentParser

theorem alignSwitch_other (c : Char) (a : Align) (h : isAlignChar c = false) :
    alignSwitch c a = a := by
  simp only [isAlignChar, Bool.or_eq_false_iff] at h
  obtain ⟨⟨⟨h1, h2⟩, h3⟩, h4⟩ := h
  unfold alignSwitch
  rw [h1, h2, h3, h4]
  rfl

/-- No alignment: when neither the character under the cursor nor the one
`Peek` gives is an alignment symbol, the alignment block leaves the cursor and
the fill alone. -/
theorem parseAlign_none (ps : ArgumentParser) (hc : isAlignChar ps.Current = false)
    (hp : isAlignChar ps.Peek = false) :
    parseAlign ps = .ok { ps with align := Align.DEFAULT } := by
  unfold parseAlign loopFuel
  rw [alignLoop]
  by_cases h0 : (ps.Peek == NUL) = true
  · rw [if_pos h0]
  · rw [if_neg h0]
    dsimp only
    rw [alignSwitch_other _ _ hp]
    rw [if_pos (by rfl)]
    have hcur : ({ ps with align := Align.DEFAULT } : ArgumentParser).Current = ps.Current := rfl
    rw [hcur]
    by_cases h1 : (ps.Peek == ps.Current) = true
    · rw [if_pos h1]
    · rw [if_neg h1, alignLoop]
      by_cases h2 : (ps.Current == NUL) = true
      · rw [if_pos h2]
      · rw [if_neg h2]
        dsimp only
        rw [alignSwitch_other _ _ hc]
        rw [if_pos (by rfl), hcur]
        simp

/-- A character that is neither a sign nor `#` is left under the cursor by
the sign and `#` blocks. -/
theorem parseSign_parseHash_other (ps : ArgumentParser)
    (h : ps.Current ∉ ['+', '-', ' ', '#']) : ps.parseSign.parseHash = ps := by
  simp only [List.mem_cons, List.mem_singleton, not_or, List.not_mem_nil, or_false] at h
  obtain ⟨h1, h2, h3, h4⟩ := h
  have e1 : ps.parseSign = ps := by
    unfold parseSign
    rw [if_neg (by simpa using h1), if_neg (by simpa using h2), if_neg (by simpa using h3)]
  rw [e1]
  unfold parseHash
  rw [if_neg (by simpa using h4)]

end ArgumentParser
end detail

/-! ## The claims -/

/-- Claim C1: a format string without `{` and `}` compiles to itself as its
only literal (to nothing when it is empty) and renders to exactly itself,
whatever arguments are supplied. -/
theorem Format_without_braces (format : List Char) (mem : Nat → detail.Indeterminate)
    (arguments : List detail.Arg) (h : ∀ c ∈ format, c ≠ '{' ∧ c ≠ '}') :
    (∃ f, detail.ArgumentFormatter.new format mem = .ok f ∧
        f.Format arguments = .ok format) ∧
      Canary.Format format mem arguments = .ok format := by
  have h1 : ∀ c ∈ format, c ≠ '{' := fun c hc => (h c hc).1
  have h2 : detail.collapse format = format :=
    detail.collapse_plain format (fun c hc => (h c hc).2)
  have h3 := detail.Format_literal format mem arguments h1
  rw [h2] at h3
  refine ⟨?_, h3⟩
  have h4 := detail.new_literal format mem h1
  refine ⟨_, h4, ?_⟩
  unfold Canary.Format detail.FormatFunctor at h3
  rw [h4] at h3
  exact h3

/-- Witness of C1: `hello world` with two arguments renders to `hello world`. -/
theorem Format_without_braces_witness :
    (∀ c ∈ "hello world".toList, c ≠ '{' ∧ c ≠ '}') ∧
      Canary.Format "hello world".toList (fun _ => detail.zeroed)
        [detail.Arg.integral 1, detail.Arg.text "x".toList] = .ok "hello world".toList :=
  ⟨by decide, (Format_without_braces "hello world".toList (fun _ => detail.zeroed)
    [detail.Arg.integral 1, detail.Arg.text "x".toList] (by decide)).2⟩

/-- Claim C2, at its failing input: compiling `{} {} {}` does not store three
specs, it throws `InvalidFormatStringException` (the second `Parse` call on the
same parser finds the cursor on `}`), so that rendering it with `(1, 2, 3)`
throws too; and no format string that holds a placeholder `{}` compiles. -/
theorem auto_index_placeholders_rejected (mem : Nat → detail.Indeterminate) :
    detail.ArgumentFormatter.new detail.fmtAuto mem = .error .InvalidFormatString ∧
      Canary.Format detail.fmtAuto mem
        [detail.Arg.integral 1, detail.Arg.integral 2, detail.Arg.integral 3]
        = .error .InvalidFormatString ∧
      ∀ (text rest : List Char) (f : detail.ArgumentFormatter),
        detail.ArgumentFormatter.new (text ++ '{' :: '}' :: rest) mem ≠ .ok f :=
  ⟨detail.new_error_mem _ (fun _ => detail.zeroed) mem _ (by decide),
   detail.Format_error_mem _ (fun _ => detail.zeroed) mem _ _ (by decide),
   fun text rest f h => detail.new_ok_no_open _ mem f h '{' (by simp) rfl⟩

/-- Claim C3, at its failing input: compiling `{2} {0} {1}` throws
`InvalidFormatStringException`; the first `Parse` call does read the id `2`
of the first placeholder, but line 436 replaces it by the counter value `0`
and advances the counter to 1, as it does for every spec whatever its id. -/
theorem explicit_index_overwritten (mem : Nat → detail.Indeterminate) :
    detail.ArgumentFormatter.new detail.fmtExplicit mem = .error .InvalidFormatString ∧
      (((detail.ArgumentParser.new detail.fmtExplicit 0 2 detail.zeroed).Parse
          detail.Align.DEFAULT).toOption.map
          fun r => (r.1.arg_id, (detail.ArgumentFormatter.assignIds r.1 0).1.arg_id,
            (detail.ArgumentFormatter.assignIds r.1 0).2)) = some (['2'], ['0'], 1) ∧
      ∀ (a : detail.ArgParseResult) (auto_id : Nat),
        (detail.ArgumentFormatter.assignIds a auto_id).1.arg_id
            = detail.ArgumentFormatter.to_string auto_id ∧
          auto_id < (detail.ArgumentFormatter.assignIds a auto_id).2 := by
  refine ⟨detail.new_error_mem _ (fun _ => detail.zeroed) mem _ (by decide), by decide, ?_⟩
  intro a auto_id
  unfold detail.ArgumentFormatter.assignIds
  dsimp only
  split <;> split <;> simp <;> omega

/-- Claim C4, at its failing input: compiling `{{` throws
`InvalidFormatStringException` (the first `{` is kept as text, the second one
opens a placeholder), and no format string `a ++ "{{" ++ b` compiles. -/
theorem escaped_open_brace_rejected (mem : Nat → detail.Indeterminate) :
    detail.ArgumentFormatter.new ['{', '{'] mem = .error .InvalidFormatString ∧
      ∀ (a b : List Char) (f : detail.ArgumentFormatter),
        detail.ArgumentFormatter.new (a ++ '{' :: '{' :: b) mem ≠ .ok f :=
  ⟨detail.new_error_mem _ (fun _ => detail.zeroed) mem _ (by decide),
   fun a b f h => detail.new_ok_no_open _ mem f h '{' (by simp) rfl⟩

/-- Claim C5, at its failing input: compiling the unterminated `{:99999999999`
throws `std::out_of_range` (from `std::stoi` on the width), not
`InvalidFormatStringException`; the claim's own witness `{` does throw
`InvalidFormatStringException`, and no format string `a ++ "{" ++ b`
compiles. -/
theorem unterminated_placeholder_wide_width (mem : Nat → detail.Indeterminate) :
    detail.ArgumentFormatter.new detail.fmtWide mem = .error .std_out_of_range ∧
      detail.ArgumentFormatter.new ['{'] mem = .error .InvalidFormatString ∧
      ∀ (a b : List Char) (f : detail.ArgumentFormatter),
        detail.ArgumentFormatter.new (a ++ '{' :: b) mem ≠ .ok f :=
  ⟨detail.new_error_mem _ (fun _ => detail.zeroed) mem _ (by decide),
   detail.new_error_mem _ (fun _ => detail.zeroed) mem _ (by decide),
   fun a b f h => detail.new_ok_no_open _ mem f h '{' (by simp) rfl⟩

/-- Claim C6, at its failing input: `Format("{5}", 1, 2)` throws
`InvalidFormatStringException` while the format string is compiled, not
`ArgumentOutOfBoundsException`; `IndexedFormat` itself, which is never
reached, hands the argument at the position `layer` to `Argument::Format` and
throws `ArgumentOutOfBoundsException` for every layer at or behind the end of
the argument list. -/
theorem out_of_bounds_unreachable (mem : Nat → detail.Indeterminate) :
    detail.ArgumentFormatter.new detail.fmtFive mem = .error .InvalidFormatString ∧
      Canary.Format detail.fmtFive mem [detail.Arg.integral 1, detail.Arg.integral 2]
        = .error .InvalidFormatString ∧
      (∀ (parse : detail.ArgParseResult) (before : List detail.Arg) (arg : detail.Arg)
          (behind : List detail.Arg),
        detail.ArgumentFormatter.IndexedFormat (before.length : Int) parse
          (before ++ arg :: behind) = .ok (detail.Argument.Format ⟨parse, arg⟩)) ∧
      ∀ (parse : detail.ArgParseResult) (arguments : List detail.Arg) (k : Nat),
        detail.ArgumentFormatter.IndexedFormat ((arguments.length + k : Nat) : Int) parse
          arguments = .error .ArgumentOutOfBounds := by
  refine ⟨detail.new_error_mem _ (fun _ => detail.zeroed) mem _ (by decide),
    detail.Format_error_mem _ (fun _ => detail.zeroed) mem _ _ (by decide), ?_, ?_⟩
  · intro parse before arg behind
    induction before with
    | nil => simp [detail.ArgumentFormatter.IndexedFormat]
    | cons first rest ih =>
      have h1 : ((((first :: rest).length : Nat) : Int) != 0) = true := by
        simp only [List.length_cons, bne_iff_ne, ne_eq]; omega
      have h2 : ((((first :: rest).length : Nat) : Int) - 1) = ((rest.length : Nat) : Int) := by
        simp only [List.length_cons]; omega
      rw [List.cons_append, detail.ArgumentFormatter.IndexedFormat]
      simp only [h1, if_true, h2]
      exact ih
  intro parse arguments
  induction arguments with
  | nil => intro k; simp [detail.ArgumentFormatter.IndexedFormat]
  | cons first rest ih =>
    intro k
    have h1 : ((((first :: rest).length + k : Nat) : Int) != 0) = true := by
      simp only [List.length_cons, bne_iff_ne, ne_eq]; omega
    have h2 : ((((first :: rest).length + k : Nat) : Int) - 1) = ((rest.length + k : Nat) : Int) := by
      simp only [List.length_cons]; omega
    rw [detail.ArgumentFormatter.IndexedFormat]
    simp only [h1, if_true, h2]
    exact ih k

/-- Claim C7, at its failing input: compiling `{0:{1}}` throws
`InvalidFormatStringException` (the first `Parse` call reads the reference to
argument 1, the second call on the same parser throws), so that
`Format("{0:{1}}", "x", 5)` substitutes no width and clears no `is_reference`,
and the exception of `Format("{0:{1}}", "x", "y")` is the one of the
construction, thrown whatever the arguments are.  No template that compiles
holds a spec, so that the resolution of lines 474 to 483 runs for none.
`IntegerExtractor::Value` by itself gives the value of an integral argument at
the level asked for and throws `InvalidFormatStringException` for an argument
of another type. -/
theorem reference_check_never_reached (mem : Nat → detail.Indeterminate) :
    detail.ArgumentFormatter.new detail.fmtIndirect mem = .error .InvalidFormatString ∧
      (∀ arguments : List detail.Arg,
        Canary.Format detail.fmtIndirect mem arguments = .error .InvalidFormatString) ∧
      (((detail.ArgumentParser.new detail.fmtIndirect 0 5 detail.zeroed).Parse
        detail.Align.DEFAULT).toOption.map Prod.fst) = some detail.specIndirect ∧
      (∀ (format : List Char) (f : detail.ArgumentFormatter),
        detail.ArgumentFormatter.new format mem = .ok f → f.args = []) ∧
      (∀ (arguments : List detail.Arg) (k : Nat) (n : Int),
        arguments[k]? = some (detail.Arg.integral n) →
        detail.IntegerExtractor.Value (k : Int) arguments = .ok (detail.toInt n)) ∧
      (∀ (arguments : List detail.Arg) (k : Nat) (v : detail.Arg),
        arguments[k]? = some v → v.isIntegral = false →
        detail.IntegerExtractor.Value (k : Int) arguments = .error .InvalidFormatString) := by
  refine ⟨detail.new_error_mem _ (fun _ => detail.zeroed) mem _ (by decide),
    fun arguments => detail.Format_error_mem _ (fun _ => detail.zeroed) mem _ arguments
      (by decide),
    by decide, ?_, ?_, ?_⟩
  · intro format f h
    have hno := detail.new_ok_no_open format mem f h
    rw [detail.new_literal format mem hno] at h
    cases h
    rfl
  · intro arguments k n h
    exact detail.IntegerExtractor_Value_integral arguments k n h
  · intro arguments k v h hv
    exact detail.IntegerExtractor_Value_other arguments k v h hv

/-- Claim C8, at its failing input: resolving the width reference of
`{0:{5}}` against two arguments throws `InvalidFormatStringException`, not
`ArgumentOutOfBoundsException`, as `IntegerExtractor::Value` does for every
level at or behind the end of the argument list; `Format("{0:{5}}", 1, 2)`
throws `InvalidFormatStringException` already while the string is compiled. -/
theorem reference_out_of_range_is_invalid_format (mem : Nat → detail.Indeterminate) :
    detail.ArgumentFormatter.new detail.fmtIndirectFive mem = .error .InvalidFormatString ∧
      detail.ArgumentFormatter.resolveWidth
        { detail.specIndirect with width := { width := 0, id := ['5'], is_reference := true } }
        [detail.Arg.integral 1, detail.Arg.integral 2] = .error .InvalidFormatString ∧
      (∀ (arguments : List detail.Arg) (k : Nat),
        detail.IntegerExtractor.Value ((arguments.length + k : Nat) : Int) arguments
          = .error .InvalidFormatString) ∧
      Canary.Format detail.fmtIndirectFive mem
        [detail.Arg.integral 1, detail.Arg.integral 2] = .error .InvalidFormatString :=
  ⟨detail.new_error_mem _ (fun _ => detail.zeroed) mem _ (by decide),
   by decide,
   fun arguments k => detail.IntegerExtractor_Value_missing arguments _ (Nat.le_add_right _ _),
   detail.Format_error_mem _ (fun _ => detail.zeroed) mem _ _ (by decide)⟩

/-- Counterexample to C9: the empty format string compiles, to no literal and
no spec, so that the number of literals is not the number of specs plus one. -/
theorem empty_format_has_no_literal :
    ∃ f, detail.ArgumentFormatter.new [] (fun _ => detail.zeroed) = .ok f ∧
      f.consts.length ≠ f.args.length + 1 :=
  ⟨{ format := [], consts := [], args := [] }, by decide, by decide⟩

/-- Claim C9, amended: a format string that compiles has as many literals as
specs when the trailing literal `current` is empty at the end of the loop, and
one more when it is not; the empty format string has no literal and no spec,
and a non-empty format string without `{` has one literal and no spec. -/
theorem consts_count (format : List Char) (mem : Nat → detail.Indeterminate)
    (f : detail.ArgumentFormatter) (h : detail.ArgumentFormatter.new format mem = .ok f) :
    (∃ b, detail.ArgumentFormatter.loop format mem (format.length + 1) 0
            { current := [], auto_id := 0, consts := [], args := [] } = .ok b ∧
          f.consts.length = f.args.length + (if b.current = [] then 0 else 1)) ∧
      (format = [] → f.consts = [] ∧ f.args = []) ∧
      (format ≠ [] → (∀ c ∈ format, c ≠ '{') →
        f.consts.length = 1 ∧ f.args = []) := by
  refine ⟨?_, ?_, ?_⟩
  · unfold detail.ArgumentFormatter.new at h
    split at h
    · cases h
    · rename_i b hb
      refine ⟨b, hb, ?_⟩
      have hc := detail.loop_counts format mem _ _ _ _ hb rfl
      cases h
      by_cases hcur : b.current = []
      · simp [hcur, hc]
      · simp [hcur, hc]
  · intro he
    subst he
    have := detail.new_literal [] mem (by simp)
    rw [this] at h
    cases h
    simp [detail.collapse]
  · intro hne hno
    have := detail.new_literal format mem hno
    rw [this] at h
    cases h
    have hcol : detail.collapse format ≠ [] := by
      cases format with
      | nil => exact absurd rfl hne
      | cons c r =>
        cases r with
        | nil => simp [detail.collapse]
        | cons d r2 =>
          simp only [detail.collapse]
          split <;> simp
    simp [hcol]

/-- Witness of C9 amended: `abc` compiles to one literal and no spec. -/
theorem consts_count_witness :
    detail.ArgumentFormatter.new ['a', 'b', 'c'] (fun _ => detail.zeroed)
        = .ok { format := ['a', 'b', 'c'], consts := [['a', 'b', 'c']], args := [] } ∧
      ([['a', 'b', 'c']] : List (List Char)).length = 1 :=
  ⟨by decide,
   ((consts_count ['a', 'b', 'c'] (fun _ => detail.zeroed)
      { format := ['a', 'b', 'c'], consts := [['a', 'b', 'c']], args := [] }
      (by decide)).2.2 (by decide) (by decide)).1⟩

/-- Claim C10, at its failing inputs: formatting 42 with `{:*>6}`, `{:*<6}` or
`{:*^6}` throws `InvalidFormatStringException` while the string is compiled,
and `Argument::Format`, whose body is still to be written, renders every
argument under every spec to the empty string, never to a padded one. -/
theorem padding_not_rendered (mem : Nat → detail.Indeterminate) :
    detail.ArgumentFormatter.new detail.fmtPadRight mem = .error .InvalidFormatString ∧
      detail.ArgumentFormatter.new detail.fmtPadLeft mem = .error .InvalidFormatString ∧
      detail.ArgumentFormatter.new detail.fmtPadCentre mem = .error .InvalidFormatString ∧
      Canary.Format detail.fmtPadRight mem [detail.Arg.integral 42]
        = .error .InvalidFormatString ∧
      Canary.Format detail.fmtPadLeft mem [detail.Arg.integral 42]
        = .error .InvalidFormatString ∧
      Canary.Format detail.fmtPadCentre mem [detail.Arg.integral 42]
        = .error .InvalidFormatString ∧
      ∀ (parse : detail.ArgParseResult) (ref : detail.Arg),
        detail.Argument.Format { parse := parse, ref := ref } = [] :=
  ⟨detail.new_error_mem _ (fun _ => detail.zeroed) mem _ (by decide),
   detail.new_error_mem _ (fun _ => detail.zeroed) mem _ (by decide),
   detail.new_error_mem _ (fun _ => detail.zeroed) mem _ (by decide),
   detail.Format_error_mem _ (fun _ => detail.zeroed) mem _ _ (by decide),
   detail.Format_error_mem _ (fun _ => detail.zeroed) mem _ _ (by decide),
   detail.Format_error_mem _ (fun _ => detail.zeroed) mem _ _ (by decide),
   fun _ _ => rfl⟩

/-- Claim C11, at its failing input: `Format("{0:{1}}", "x", 5)` throws
`InvalidFormatStringException` while the string is compiled.  The parser's end
is the first `}` (offset 5 of 7), where the first `Parse` call stops, so that
the loop, were it to go on behind it, would take the outer `}` into the
literal text; and `Argument::Format` renders every argument to the empty
string, so that nothing is padded to the width. -/
theorem indirect_width_not_rendered (mem : Nat → detail.Indeterminate) :
    detail.ArgumentFormatter.new detail.fmtIndirect mem = .error .InvalidFormatString ∧
      Canary.Format detail.fmtIndirect mem [detail.Arg.text ['x'], detail.Arg.integral 5]
        = .error .InvalidFormatString ∧
      detail.fmtIndirect.length = 7 ∧
      detail.ArgumentFormatter.scanClose (detail.fmtIndirect.drop 0) 0 = 5 ∧
      detail.parsed detail.fmtIndirect 5 detail.zeroed detail.Align.DEFAULT
        = some (' ', detail.Align.DEFAULT, 0, detail.Align.DEFAULT, 5) ∧
      (∀ b : detail.ArgumentFormatter.Building,
        detail.ArgumentFormatter.loop detail.fmtIndirect mem 2 (5 + 1) b
          = .ok { b with current := b.current ++ ['}'] }) ∧
      ∀ parse : detail.ArgParseResult,
        detail.Argument.Format { parse := parse, ref := detail.Arg.text ['x'] } = [] := by
  refine ⟨detail.new_error_mem _ (fun _ => detail.zeroed) mem _ (by decide),
    detail.Format_error_mem _ (fun _ => detail.zeroed) mem _ _ (by decide),
    by decide, by decide, by decide, ?_, fun _ => rfl⟩
  intro b
  exact detail.loop_literal mem 1 ['}'] ['{', '0', ':', '{', '1', '}'] b 2
    (by decide) (by decide) (by decide)

/-- Claim C12, at its failing input: `Parse` on `{:*>6}` returns a spec with
fill `*` and width 6 whose `align` is not Right but the indeterminate value of
the local `result` (here `DEFAULT`); only the parser's own member is Right.
`Parse` never assigns `result.align`, for any input.  The alignment block
itself does what the claim says: the character under the cursor becomes the
fill, the next one selects the alignment, and the cursor moves by two. -/
theorem fill_align_not_returned :
    detail.parsed detail.fmtPadRight 5 detail.zeroed detail.Align.DEFAULT
        = some ('*', detail.Align.DEFAULT, 6, detail.Align.RIGHT, 5) ∧
      (∀ (ps : detail.ArgumentParser) (result_align : detail.Align)
          (r : detail.ArgParseResult) (q : detail.ArgumentParser),
        ps.Parse result_align = .ok (r, q) → r.align = result_align ∧ r.fill = q.fill) ∧
      ∀ ps : detail.ArgumentParser, ps.from_ ≠ ps.to_ → ps.from_ + 1 ≠ ps.to_ →
        detail.isAlignChar (detail.charAt ps.str (ps.from_ + 1)) = true →
        ps.Current ≠ '}' →
        ps.parseAlign = .ok
          { ps with align := detail.ArgumentParser.alignSwitch
                      (detail.charAt ps.str (ps.from_ + 1)) detail.Align.DEFAULT,
                    fill := ps.Current, from_ := ps.from_ + 2 } := by
  refine ⟨by decide, ?_, fun ps h1 h2 ha hc =>
    detail.ArgumentParser.parseAlign_fill ps h1 h2 ha hc⟩
  intro ps ra r q h
  rw [detail.ArgumentParser.Parse_result ps ra r q h]
  exact ⟨rfl, rfl⟩

/-- Claim C13, at its failing inputs: `Parse` on `{:<6}` returns the fill `<`
(the alignment symbol itself) and leaves the width as it was (0 in zeroed
memory), since the cursor moves by two, over the `6`; `Parse` on `{:<}`
throws `InvalidFormatStringException`, since `Peek` returns 0 in front of the
parser's end and the alignment block then recognises nothing. -/
theorem align_without_fill_consumes_two (u : detail.Indeterminate)
    (result_align : detail.Align) :
    detail.parsed detail.fmtAlignOnly 4 detail.zeroed detail.Align.DEFAULT
        = some ('<', detail.Align.DEFAULT, 0, detail.Align.LEFT, 4) ∧
      (detail.ArgumentParser.new detail.fmtAlignBare 0 3 u).Parse result_align
        = .error .InvalidFormatString ∧
      (∀ ps : detail.ArgumentParser, ps.from_ ≠ ps.to_ → ps.from_ + 1 ≠ ps.to_ →
        detail.isAlignChar (detail.charAt ps.str (ps.from_ + 1)) = false →
        detail.charAt ps.str (ps.from_ + 1) ≠ detail.NUL →
        detail.isAlignChar ps.Current = true →
        ps.parseAlign = .ok
          { ps with align := detail.ArgumentParser.alignSwitch ps.Current detail.Align.DEFAULT,
                    fill := ps.Current, from_ := ps.from_ + 2 }) ∧
      ∀ ps : detail.ArgumentParser, ps.from_ + 1 = ps.to_ →
        ps.parseAlign = .ok { ps with align := detail.Align.DEFAULT } :=
  ⟨by decide,
   detail.ArgumentParser.Parse_error_any _ 0 3 detail.zeroed u detail.Align.DEFAULT
     result_align _ (by decide),
   fun ps h1 h2 hn hnul ha => detail.ArgumentParser.parseAlign_alone ps h1 h2 hn hnul ha,
   fun ps h => detail.ArgumentParser.parseAlign_at_end ps h⟩

/-- Counterexample to C14: parsing `{:*<06}` gives the fill `0`, not `*`, and
the alignment NUMERIC in the parser, not LEFT; the width is 6. -/
theorem zero_flag_overrides_explicit_alignment :
    ∃ r q, (detail.ArgumentParser.new detail.fmtZeroAfterAlign 0 6 detail.zeroed).Parse
        detail.Align.DEFAULT = .ok (r, q) ∧
      r.fill ≠ '*' ∧ q.align ≠ detail.Align.LEFT ∧ r.width.width = 6 :=
  ⟨{ arg_id := [], fill := '0', align := detail.Align.DEFAULT,
     width := { width := 6, id := [], is_reference := false },
     precision := { precision := 0, id := [], is_reference := false },
     flags := 0, type := detail.NUL },
   { str := detail.fmtZeroAfterAlign, from_ := 6, to_ := 6, arg_id := [], fill := '0',
     align := detail.Align.NUMERIC,
     width := { width := 6, id := [], is_reference := false },
     precision := { precision := 0, id := [], is_reference := false },
     flags := 0, type := detail.NUL },
   by decide, by decide, by decide, by decide⟩

/-- Claim C14, amended: when `ParseFormatString` succeeds, a `0` behind a fill
and an alignment symbol leaves the fill `0` and the alignment NUMERIC in the
parser, as a `0` at the start of a format spec without alignment does; a fill
and an alignment symbol with no sign, `#` or `0` behind them stay as they were
parsed.  In general the fill and the alignment are `0` and NUMERIC when the
character behind the alignment block, the sign and the `#` is a `0`, and those
the alignment block left when it is not. -/
theorem zero_flag_sets_fill_and_alignment (ps q : detail.ArgumentParser)
    (h0 : ps.Current ≠ '}') (hq : ps.ParseFormatString = .ok q) :
    (ps.from_ ≠ ps.to_ → ps.from_ + 1 ≠ ps.to_ →
        detail.isAlignChar (detail.charAt ps.str (ps.from_ + 1)) = true →
        detail.charAt ps.str (ps.from_ + 2) = '0' →
        q.fill = '0' ∧ q.align = detail.Align.NUMERIC) ∧
      (detail.isAlignChar ps.Current = false → detail.isAlignChar ps.Peek = false →
        ps.Current = '0' → q.fill = '0' ∧ q.align = detail.Align.NUMERIC) ∧
      (ps.from_ ≠ ps.to_ → ps.from_ + 1 ≠ ps.to_ →
        detail.isAlignChar (detail.charAt ps.str (ps.from_ + 1)) = true →
        detail.charAt ps.str (ps.from_ + 2) ∉ ['+', '-', ' ', '#', '0'] →
        q.fill = ps.Current ∧
          q.align = detail.ArgumentParser.alignSwitch (detail.charAt ps.str (ps.from_ + 1))
            detail.Align.DEFAULT) ∧
      (∀ ps1, ps.parseAlign = .ok ps1 →
        (ps1.parseSign.parseHash.Current = '0' →
          q.fill = '0' ∧ q.align = detail.Align.NUMERIC) ∧
        (ps1.parseSign.parseHash.Current ≠ '0' →
          q.fill = ps1.fill ∧ q.align = ps1.align)) := by
  have hgen : ∀ ps1, ps.parseAlign = .ok ps1 →
      (ps1.parseSign.parseHash.Current = '0' →
        q.fill = '0' ∧ q.align = detail.Align.NUMERIC) ∧
      (ps1.parseSign.parseHash.Current ≠ '0' →
        q.fill = ps1.fill ∧ q.align = ps1.align) := by
    intro ps1 ha
    have h := detail.ArgumentParser.ParseFormatString_style ps ps1 q h0 ha hq
    constructor
    · intro hz; rw [if_pos hz] at h; exact h
    · intro hz; rw [if_neg hz] at h; exact h
  refine ⟨?_, ?_, ?_, hgen⟩
  · intro h1 h2 ha hz
    have hp := detail.ArgumentParser.parseAlign_fill ps h1 h2 ha h0
    refine (hgen _ hp).1 ?_
    rw [detail.ArgumentParser.parseSign_parseHash_other]
    · exact hz
    · show detail.charAt ps.str (ps.from_ + 2) ∉ ['+', '-', ' ', '#']
      rw [hz]; decide
  · intro hc hp hz
    have hpa := detail.ArgumentParser.parseAlign_none ps hc hp
    refine (hgen _ hpa).1 ?_
    rw [detail.ArgumentParser.parseSign_parseHash_other]
    · exact hz
    · show ps.Current ∉ ['+', '-', ' ', '#']
      rw [hz]; decide
  · intro h1 h2 ha hz
    have hp := detail.ArgumentParser.parseAlign_fill ps h1 h2 ha h0
    have hz1 : detail.charAt ps.str (ps.from_ + 2) ∉ ['+', '-', ' ', '#'] := by
      intro hm
      apply hz
      simp only [List.mem_cons, List.mem_singleton, List.not_mem_nil, or_false] at hm ⊢
      rcases hm with h | h | h | h <;> simp [h]
    have hz2 : detail.charAt ps.str (ps.from_ + 2) ≠ '0' := by
      intro hm
      apply hz
      simp [hm]
    refine (hgen _ hp).2 ?_
    rw [detail.ArgumentParser.parseSign_parseHash_other]
    · exact hz2
    · exact hz1

/-- Witness of C14 amended: the format spec of `{:*<06}` ends with the fill
`0` and the alignment NUMERIC, as that of `{:06}` does; the format spec of
`{:*<6}` ends with the fill `*` and the alignment LEFT; and all three are
parsed without an exception. -/
theorem zero_flag_sets_fill_and_alignment_witness :
    (∀ q, (detail.ArgumentParser.new detail.fmtZeroAfterAlign 2 6 detail.zeroed).ParseFormatString
          = .ok q → q.fill = '0' ∧ q.align = detail.Align.NUMERIC) ∧
      (∀ q, (detail.ArgumentParser.new detail.fmtZero 2 5 detail.zeroed).ParseFormatString
          = .ok q → q.fill = '0' ∧ q.align = detail.Align.NUMERIC) ∧
      (∀ q, (detail.ArgumentParser.new detail.fmtPadLeft 2 5 detail.zeroed).ParseFormatString
          = .ok q → q.fill = '*' ∧ q.align = detail.Align.LEFT) ∧
      ((detail.ArgumentParser.new detail.fmtZeroAfterAlign 2 6 detail.zeroed).ParseFormatString).toOption.isSome
        = true ∧
      ((detail.ArgumentParser.new detail.fmtZero 2 5 detail.zeroed).ParseFormatString).toOption.isSome
        = true ∧
      ((detail.ArgumentParser.new detail.fmtPadLeft 2 5 detail.zeroed).ParseFormatString).toOption.isSome
        = true :=
  ⟨fun q hq => (zero_flag_sets_fill_and_alignment
      (detail.ArgumentParser.new detail.fmtZeroAfterAlign 2 6 detail.zeroed) q
      (by decide) hq).1 (by decide) (by decide) (by decide) (by decide),
   fun q hq => (zero_flag_sets_fill_and_alignment
      (detail.ArgumentParser.new detail.fmtZero 2 5 detail.zeroed) q
      (by decide) hq).2.1 (by decide) (by decide) (by decide),
   fun q hq => (zero_flag_sets_fill_and_alignment
      (detail.ArgumentParser.new detail.fmtPadLeft 2 5 detail.zeroed) q
      (by decide) hq).2.2.1 (by decide) (by decide) (by decide) (by decide),
   by decide, by decide, by decide⟩

/-- Claim C15, at its failing input: the first `Parse` call on `{:}<5}` does
not throw, it returns with the cursor on the `}` at offset 2 (the parser's
end), an empty format spec; `<5}` is left to become literal text.
`ParseFormatString` returns as soon as the cursor is on a `}`, and behind that
test the alignment block never throws, so that the test `fill == '}'` is dead.
The constructor still throws `InvalidFormatStringException`, but through its
second `Parse` call, as for `{}`. -/
theorem close_brace_fill_accepted (mem : Nat → detail.Indeterminate)
    (u : detail.Indeterminate) (result_align : detail.Align) :
    (∃ r q, (detail.ArgumentParser.new detail.fmtCloseFill 0 2 u).Parse result_align
        = .ok (r, q) ∧ q.from_ = 2) ∧
      detail.ArgumentFormatter.scanClose (detail.fmtCloseFill.drop 0) 0 = 2 ∧
      (∀ ps : detail.ArgumentParser,
        (ps.Current = '}' → ps.ParseFormatString = .ok ps) ∧
        (ps.Current ≠ '}' → ps.parseAlign ≠ .error .InvalidFormatString)) ∧
      (∀ b : detail.ArgumentFormatter.Building,
        detail.ArgumentFormatter.loop detail.fmtCloseFill mem 4 (2 + 1) b
          = .ok { b with current := b.current ++ ['<', '5', '}'] }) ∧
      detail.ArgumentFormatter.new detail.fmtCloseFill mem = .error .InvalidFormatString ∧
      detail.ArgumentFormatter.new detail.fmtAuto mem = .error .InvalidFormatString := by
  refine ⟨?_, by decide, ?_, ?_,
    detail.new_error_mem _ (fun _ => detail.zeroed) mem _ (by decide),
    detail.new_error_mem _ (fun _ => detail.zeroed) mem _ (by decide)⟩
  · have h : (detail.ArgumentParser.new detail.fmtCloseFill 0 2 detail.zeroed).Parse
        detail.Align.DEFAULT
        = .ok ((detail.ArgumentParser.new detail.fmtCloseFill 2 2 detail.zeroed).result
            detail.Align.DEFAULT,
          detail.ArgumentParser.new detail.fmtCloseFill 2 2 detail.zeroed) := by decide
    obtain ⟨r2, q2, h2, hq⟩ := detail.ArgumentParser.Parse_ok_any _ 0 2 detail.zeroed u
      detail.Align.DEFAULT result_align _ _ h
    exact ⟨r2, q2, h2, hq⟩
  · intro ps
    constructor
    · intro hc
      unfold detail.ArgumentParser.ParseFormatString
      simp [hc]
    · intro hc
      exact detail.ArgumentParser.alignLoop_no_throw _ _ _ hc
  · intro b
    exact detail.loop_literal mem 3 ['<', '5', '}'] ['{', ':', '}'] b 4
      (by decide) (by decide) (by decide)

/-- Claim C16: with a parser that reads `run ++ rest` from its cursor on and
whose end is not inside `run`, `ParseArgumentId` returns a maximal run of
digits, or a maximal run of letters, digits and `_` that starts with a letter
or `_`, when `rest` starts with `:` or `}`, leaving the cursor on that
character, and throws `InvalidFormatStringException` when it does not; it
throws on every other first character; and an id it returns is never empty
and leaves the cursor on `:` or `}`. -/
theorem ParseArgumentId_accepts (ps : detail.ArgumentParser) (run rest : List Char)
    (hread : ps.str.drop ps.from_ = run ++ rest) (hfit : ps.from_ + run.length ≤ ps.to_) :
    (run ≠ [] → (∀ c ∈ run, detail.isDigitChar c = true) →
        (∀ c, rest.head? = some c → detail.isDigitChar c = false) →
        ps.ParseArgumentId =
          if detail.terminated rest then
            .ok (run, { ps with from_ := ps.from_ + run.length })
          else .error .InvalidFormatString) ∧
      (∀ c0 more, run = c0 :: more → detail.isIdentStartChar c0 = true →
        (∀ c ∈ more, detail.isIdentChar c = true) →
        (∀ c, rest.head? = some c → detail.isIdentChar c = false) →
        ps.ParseArgumentId =
          if detail.terminated rest then
            .ok (run, { ps with from_ := ps.from_ + run.length })
          else .error .InvalidFormatString) ∧
      (detail.isDigitChar ps.Current = false → detail.isIdentStartChar ps.Current = false →
        ps.ParseArgumentId = .error .InvalidFormatString) ∧
      (∀ id q, ps.ParseArgumentId = .ok (id, q) →
        id ≠ [] ∧ (q.Current = ':' ∨ q.Current = '}')) := by
  have hfuel : run.length < ps.loopFuel := by
    have := detail.length_le_of_drop ps.str ps.from_ run rest hread
    unfold detail.ArgumentParser.loopFuel
    omega
  refine ⟨?_, ?_, ?_, ?_⟩
  · intro hne hrun hrest
    have hfirst : ps.IsDigit = true := by
      cases run with
      | nil => exact absurd rfl hne
      | cons c r =>
        rw [detail.ArgumentParser.IsDigit_eq, detail.ArgumentParser.Current_of_drop ps _ hread]
        exact hrun c (by simp)
    have hloop := detail.ArgumentParser.digitLoop_run run ps rest [] ps.loopFuel hread hrun
      hrest hfit hfuel
    have hend : ({ ps with from_ := ps.from_ + run.length } : detail.ArgumentParser).IsArgIdEnd
        = detail.terminated rest := by
      apply detail.ArgumentParser.IsArgIdEnd_of_drop
      show ps.str.drop (ps.from_ + run.length) = rest
      rw [← List.drop_drop, hread, List.drop_left]
    unfold detail.ArgumentParser.ParseArgumentId
    rw [if_pos hfirst, hloop]
    simp only [List.nil_append, hend]
    cases detail.terminated rest <;> simp
  · intro c0 more hrun0 hc0 hmore hrest
    subst hrun0
    have hcur : ps.Current = c0 := by
      rw [detail.ArgumentParser.Current_of_drop ps _ hread]; rfl
    have hnd : ps.IsDigit = false := by
      rw [detail.ArgumentParser.IsDigit_eq, hcur]
      revert hc0
      simp only [detail.isIdentStartChar, detail.isDigitChar, Bool.or_eq_true,
        Bool.and_eq_true, decide_eq_true_eq, beq_iff_eq, Bool.and_eq_false_iff,
        decide_eq_false_iff_not, not_le]
      intro h
      have key : ∀ a b : Char, a ≤ b ↔ a.toNat ≤ b.toNat := fun a b => Iff.rfl
      have keyl : ∀ a b : Char, a < b ↔ a.toNat < b.toNat := fun a b => Iff.rfl
      simp only [key, keyl] at h ⊢
      have e1 : ('a' : Char).toNat = 97 := rfl
      have e2 : ('A' : Char).toNat = 65 := rfl
      have e3 : ('9' : Char).toNat = 57 := rfl
      have e4 : ('_' : Char).toNat = 95 := rfl
      rw [e3]
      rw [e1, e2] at h
      rcases h with (h | h) | h
      · right; omega
      · right; omega
      · right; rw [h, e4]; omega
    have hst : ps.IsIdentifierStart = true := by
      rw [detail.ArgumentParser.IsIdentifierStart_eq, hcur]; exact hc0
    have hne : ps.from_ ≠ ps.to_ := by
      simp only [List.length_cons] at hfit; omega
    have hnext : ps.Next = { ps with from_ := ps.from_ + 1 } := by
      simp [detail.ArgumentParser.Next, detail.ArgumentParser.HasNext, hne]
    have hread2 : ({ ps with from_ := ps.from_ + 1 } : detail.ArgumentParser).str.drop
        ({ ps with from_ := ps.from_ + 1 } : detail.ArgumentParser).from_ = more ++ rest :=
      detail.drop_succ_of_drop_cons ps.str ps.from_ c0 (more ++ rest) hread
    have hloop := detail.ArgumentParser.identLoop_run more { ps with from_ := ps.from_ + 1 }
      rest [c0] ps.loopFuel hread2 hmore hrest
      (by simp only [List.length_cons] at hfit ⊢; omega)
      (by simp only [List.length_cons] at hfuel; omega)
    have hend : ({ ps with from_ := ps.from_ + (c0 :: more).length } :
        detail.ArgumentParser).IsArgIdEnd = detail.terminated rest := by
      apply detail.ArgumentParser.IsArgIdEnd_of_drop
      show ps.str.drop (ps.from_ + (c0 :: more).length) = rest
      rw [← List.drop_drop, hread, List.drop_left]
    have hpos : ps.from_ + 1 + more.length = ps.from_ + (c0 :: more).length := by
      simp only [List.length_cons]; omega
    unfold detail.ArgumentParser.ParseArgumentId
    rw [if_neg (by simp [hnd]), if_pos hst, hnext, hcur]
    dsimp only at hloop
    rw [hloop]
    simp only [List.singleton_append, hpos, hend]
    cases detail.terminated rest <;> simp
  · intro hd hs
    unfold detail.ArgumentParser.ParseArgumentId
    rw [detail.ArgumentParser.IsDigit_eq, detail.ArgumentParser.IsIdentifierStart_eq, hd, hs]
    simp
  · intro id q h
    refine ⟨?_, ?_⟩
    · exact detail.ArgumentParser.ParseArgumentId_nonempty ps id q h
    · have := detail.ArgumentParser.ParseArgumentId_ok_end ps id q h
      simpa [detail.ArgumentParser.IsArgIdEnd] using this

/-- Witness of C16: behind the `{` of `{width_1:}` the id `width_1` is read
and the cursor stops on the `:` at offset 8; behind the `{` of `{0a}` and of
`{a-b}` the call throws. -/
theorem ParseArgumentId_accepts_witness :
    (detail.ArgumentParser.new detail.fmtNamed 1 9 detail.zeroed).ParseArgumentId
        = .ok (['w', 'i', 'd', 't', 'h', '_', '1'],
            detail.ArgumentParser.new detail.fmtNamed 8 9 detail.zeroed) ∧
      (detail.ArgumentParser.new detail.fmtDigitLetter 1 3 detail.zeroed).ParseArgumentId
        = .error .InvalidFormatString ∧
      (detail.ArgumentParser.new detail.fmtDash 1 4 detail.zeroed).ParseArgumentId
        = .error .InvalidFormatString ∧
      (detail.ArgumentParser.new detail.fmtFive 1 2 detail.zeroed).ParseArgumentId
        = .ok (['5'], detail.ArgumentParser.new detail.fmtFive 2 2 detail.zeroed) :=
  ⟨(ParseArgumentId_accepts (detail.ArgumentParser.new detail.fmtNamed 1 9 detail.zeroed)
      ['w', 'i', 'd', 't', 'h', '_', '1'] [':', '}'] (by decide) (by decide)).2.1
      'w' ['i', 'd', 't', 'h', '_', '1'] rfl (by decide) (by decide) (by decide),
   (ParseArgumentId_accepts (detail.ArgumentParser.new detail.fmtDigitLetter 1 3 detail.zeroed)
      ['0'] ['a', '}'] (by decide) (by decide)).1 (by decide) (by decide) (by decide),
   (ParseArgumentId_accepts (detail.ArgumentParser.new detail.fmtDash 1 4 detail.zeroed)
      ['a'] ['-', 'b', '}'] (by decide) (by decide)).2.1
      'a' [] rfl (by decide) (by decide) (by decide),
   (ParseArgumentId_accepts (detail.ArgumentParser.new detail.fmtFive 1 2 detail.zeroed)
      ['5'] ['}'] (by decide) (by decide)).1 (by decide) (by decide) (by decide)⟩

/-- Claim C17: `IsType` holds exactly when the character under the cursor is
one of the eighteen type characters of the grammar, `IsIntType` exactly when
it is one of the seven integer ones, each character `IsIntType` accepts is
accepted by `IsType`, and the type block of `ParseFormatString` takes exactly
these characters. -/
theorem type_characters (ps : detail.ArgumentParser) :
    (ps.IsType = true ↔ ps.Current ∈ detail.typeChars) ∧
      (ps.IsIntType = true ↔ ps.Current ∈ detail.intTypeChars) ∧
      (ps.IsIntType = true → ps.IsType = true) ∧
      detail.typeChars.length = 18 ∧ detail.typeChars.Nodup ∧
      detail.intTypeChars.length = 7 ∧ detail.intTypeChars.Nodup ∧
      ps.parseType = (if ps.Current ∈ detail.typeChars then
          { ps with type := ps.Current }.Next else ps) := by
  have h1 : ps.IsType = true ↔ ps.Current ∈ detail.typeChars := by
    simp only [detail.ArgumentParser.IsType, detail.ArgumentParser.IsIntType, detail.typeChars,
      Bool.or_eq_true, beq_iff_eq, List.mem_cons, List.mem_singleton, List.not_mem_nil,
      or_false, or_assoc]
  have h2 : ps.IsIntType = true ↔ ps.Current ∈ detail.intTypeChars := by
    simp only [detail.ArgumentParser.IsIntType, detail.intTypeChars,
      Bool.or_eq_true, beq_iff_eq, List.mem_cons, List.mem_singleton, List.not_mem_nil,
      or_false, or_assoc]
  refine ⟨h1, h2, ?_, by decide, by decide, by decide, by decide, ?_⟩
  · intro h
    simp only [detail.ArgumentParser.IsType, h, Bool.true_or]
  · unfold detail.ArgumentParser.parseType
    by_cases h : ps.IsType = true
    · rw [if_pos h, if_pos (h1.mp h)]
    · rw [if_neg h, if_neg (fun hm => h (h1.mpr hm))]

/-- Claim C18, at its failing inputs: the first `Parse` call on `{:{}}` and on
`{:{}.{}}` throws `InvalidFormatStringException`, as the width block does
whenever a `}` follows the `{` (it calls `ParseArgumentId`, which throws on a
`}`), so that both strings fail to compile; the constructor's lines 436 to 438
would give a spec with empty reference ids the ids 0, 1 and 2. -/
theorem omitted_reference_id_rejected (mem : Nat → detail.Indeterminate)
    (u : detail.Indeterminate) (result_align : detail.Align) :
    (detail.ArgumentParser.new detail.fmtWidthAuto 0 3 u).Parse result_align
        = .error .InvalidFormatString ∧
      (detail.ArgumentParser.new detail.fmtWidthPrecisionAuto 0 3 u).Parse result_align
        = .error .InvalidFormatString ∧
      detail.ArgumentFormatter.new detail.fmtWidthAuto mem = .error .InvalidFormatString ∧
      detail.ArgumentFormatter.new detail.fmtWidthPrecisionAuto mem
        = .error .InvalidFormatString ∧
      (∀ ps : detail.ArgumentParser, ps.Current = '{' → ps.Next.Current = '}' →
        ps.parseWidth = .error .InvalidFormatString) ∧
      detail.ArgumentFormatter.assignIds
          { arg_id := [], fill := ' ', align := detail.Align.DEFAULT,
            width := { width := 0, id := [], is_reference := true },
            precision := { precision := 0, id := [], is_reference := true },
            flags := 0, type := detail.NUL } 0
        = ({ arg_id := ['0'], fill := ' ', align := detail.Align.DEFAULT,
             width := { width := 0, id := ['1'], is_reference := true },
             precision := { precision := 0, id := ['2'], is_reference := true },
             flags := 0, type := detail.NUL }, 3) := by
  refine ⟨detail.ArgumentParser.Parse_error_any _ 0 3 detail.zeroed u detail.Align.DEFAULT
      result_align _ (by decide),
    detail.ArgumentParser.Parse_error_any _ 0 3 detail.zeroed u detail.Align.DEFAULT
      result_align _ (by decide),
    detail.new_error_mem _ (fun _ => detail.zeroed) mem _ (by decide),
    detail.new_error_mem _ (fun _ => detail.zeroed) mem _ (by decide), ?_, by decide⟩
  intro ps h1 h2
  have hd : ps.Next.IsDigit = false := by
    rw [detail.ArgumentParser.IsDigit_eq, h2]; decide
  have hs : ps.Next.IsIdentifierStart = false := by
    rw [detail.ArgumentParser.IsIdentifierStart_eq, h2]; decide
  unfold detail.ArgumentParser.parseWidth detail.ArgumentParser.ParseArgumentId
  simp [h1, hd, hs]

/-- Claim C19, at its failing input: the escape code of `Style<Reset, Bold>`
is `\033[;1m`, with no text for the code 0, not `\033[0;1m`.  For every pack
of styles the merged code list is the concatenation of the members' code lists
in the order given (so that merging is associative), and with at least one
code the escape code is `\033[`, the codes in that order, each as
`ToCompileTimeString` writes it, separated by `;`, and `m`;
`ToCompileTimeString` writes every code but 0 in decimal and writes 0 as the
empty string.  `Style<Bold, GreenForeground>` gives `\033[1;32m`. -/
theorem style_escape_code :
    Ansi.detail.AnsiCode (Ansi.Style Ansi.Reset [Ansi.Bold])
        = some ['\x1b', '[', ';', '1', 'm'] ∧
      Ansi.detail.AnsiCode (Ansi.Style Ansi.Bold [Ansi.GreenForeground])
        = some ['\x1b', '[', '1', ';', '3', '2', 'm'] ∧
      (∀ (L : Ansi.detail.Codes) (Ls : List Ansi.detail.Codes),
        Ansi.detail.ToCodeList (Ansi.Style L Ls)
          = ((L :: Ls).map Ansi.detail.ToCodeList).flatten) ∧
      (∀ (L : Ansi.detail.Codes) (Ls : List Ansi.detail.Codes) (Code : Nat) (Cs : List Nat),
        ((L :: Ls).map Ansi.detail.ToCodeList).flatten = Code :: Cs →
        Ansi.detail.AnsiCode (Ansi.Style L Ls)
          = some (['\x1b', '['] ++
              List.intercalate [';'] ((Code :: Cs).map Ansi.detail.ToCompileTimeString)
              ++ ['m'])) ∧
      (∀ v, v ≠ 0 → Ansi.detail.ToCompileTimeString v = Nat.toDigits 10 v) ∧
      Ansi.detail.ToCompileTimeString 0 = [] ∧
      (∀ A B C : Ansi.detail.Codes,
        Ansi.detail.MergeCodeLists (Ansi.Style A [B]) [C]
            = Ansi.detail.MergeCodeLists A [Ansi.Style B [C]] ∧
          Ansi.detail.MergeCodeLists (Ansi.Style A [B]) [C]
            = Ansi.detail.MergeCodeLists A [B, C]) := by
  have hstyle : ∀ (L : Ansi.detail.Codes) (Ls : List Ansi.detail.Codes),
      Ansi.detail.ToCodeList (Ansi.Style L Ls)
        = ((L :: Ls).map Ansi.detail.ToCodeList).flatten := by
    intro L Ls
    simp only [Ansi.Style, Ansi.detail.EscapeSequences, Ansi.detail.ToCodeList]
    exact Ansi.detail.MergeCodeLists_eq L Ls
  have hone : ∀ n : Nat, Ansi.detail.ToCompileTimeString (n + 1) = Nat.toDigits 10 (n + 1) :=
    fun n => Ansi.detail.ToCompileTimeString_pos (n + 1) (Nat.succ_ne_zero n)
  refine ⟨?_, ?_, hstyle, ?_, Ansi.detail.ToCompileTimeString_pos,
    Ansi.detail.ToCompileTimeString_zero, ?_⟩
  · rw [Ansi.detail.AnsiCode_eq _ 0 [1] (by rw [hstyle]; rfl)]
    simp only [List.map, Ansi.detail.ToCompileTimeString_zero, hone 0]
    decide
  · rw [Ansi.detail.AnsiCode_eq _ 1 [32] (by rw [hstyle]; rfl)]
    simp only [List.map, hone 0, hone 31]
    decide
  · intro L Ls Code Cs h
    exact Ansi.detail.AnsiCode_eq _ Code Cs (by rw [hstyle, h])
  · intro A B C
    simp only [Ansi.detail.MergeCodeLists_eq, hstyle]
    simp [hstyle]

/-- Claim C20: an `EscapeSequence<L>` constructed on a stream writes its escape
code to that stream; destroyed behind a scope that wrote `body`, it has the
stream hold what it held before, then the code, the body and `\033[0m`, and
leaves every other stream alone; when `CancelReset` was called, the
destructor writes nothing; and `operator<<` with a default-constructed
sequence writes the escape code and nothing else, as does the destruction of
that sequence. -/
theorem scoped_styling (L : Ansi.detail.Codes) (out : Nat) (streams : Ansi.detail.Streams)
    (code body : List Char) (h : Ansi.detail.AnsiCode L = some code) :
    (∃ seq, Ansi.detail.EscapeSequence.new L out streams
          = some (seq, Ansi.detail.put streams out code) ∧
        seq.destroy (Ansi.detail.put (Ansi.detail.put streams out code) out body)
          = some (Ansi.detail.put (Ansi.detail.put (Ansi.detail.put streams out code) out body)
              out ['\x1b', '[', '0', 'm']) ∧
        seq.CancelReset.destroy (Ansi.detail.put (Ansi.detail.put streams out code) out body)
          = some (Ansi.detail.put (Ansi.detail.put streams out code) out body)) ∧
      (Ansi.detail.put (Ansi.detail.put (Ansi.detail.put streams out code) out body)
          out ['\x1b', '[', '0', 'm']) out
        = streams out ++ code ++ body ++ ['\x1b', '[', '0', 'm'] ∧
      (∀ j, j ≠ out →
        (Ansi.detail.put (Ansi.detail.put (Ansi.detail.put streams out code) out body)
          out ['\x1b', '[', '0', 'm']) j = streams j) ∧
      Ansi.detail.shiftLeft out (Ansi.detail.EscapeSequence.unbound L) streams
        = some (Ansi.detail.put streams out code) ∧
      (Ansi.detail.EscapeSequence.unbound L).destroy (Ansi.detail.put streams out code)
        = some (Ansi.detail.put streams out code) := by
  refine ⟨⟨{ L := L, reset := true, out := some out }, ?_, ?_, ?_⟩, ?_, ?_, ?_, ?_⟩
  · simp [Ansi.detail.EscapeSequence.new, h]
  · simp [Ansi.detail.EscapeSequence.destroy]
  · simp [Ansi.detail.EscapeSequence.destroy, Ansi.detail.EscapeSequence.CancelReset]
  · simp [Ansi.detail.put]
  · intro j hj
    simp [Ansi.detail.put, hj]
  · simp [Ansi.detail.shiftLeft, Ansi.detail.EscapeSequence.new,
      Ansi.detail.EscapeSequence.unbound, h, Ansi.detail.EscapeSequence.destroy,
      Ansi.detail.EscapeSequence.CancelReset]
  · simp [Ansi.detail.EscapeSequence.destroy, Ansi.detail.EscapeSequence.unbound]

/-- Witness of C20: a `Faint` sequence on the empty stream 0, around a scope
that writes `[1/4] `, leaves `\033[2m[1/4] \033[0m` on the stream. -/
theorem scoped_styling_witness :
    Ansi.detail.AnsiCode Ansi.Faint = some ['\x1b', '[', '2', 'm'] ∧
      (Ansi.detail.put (Ansi.detail.put (Ansi.detail.put (fun _ => [])
          0 ['\x1b', '[', '2', 'm']) 0 ['[', '1', '/', '4', ']', ' '])
          0 ['\x1b', '[', '0', 'm']) 0
        = ['\x1b', '[', '2', 'm', '[', '1', '/', '4', ']', ' ', '\x1b', '[', '0', 'm'] :=
  have hcode : Ansi.detail.AnsiCode Ansi.Faint = some ['\x1b', '[', '2', 'm'] := by
    rw [Ansi.detail.AnsiCode_eq Ansi.Faint 2 [] rfl]
    simp only [List.map, Ansi.detail.ToCompileTimeString_pos 2 (by decide)]
    decide
  ⟨hcode, (scoped_styling Ansi.Faint 0 (fun _ => []) ['\x1b', '[', '2', 'm']
    ['[', '1', '/', '4', ']', ' '] hcode).2.1⟩

/-- Claim C21, at its failing inputs: `Parse` on `{:99999999999q}` throws
`std::out_of_range` (from `std::stoi` on the width), not
`InvalidFormatStringException`, though the `q` stands between the width and
the `}`; and `Parse` on `{:<q}` does not throw at all: the alignment block
takes `<` as the fill and steps over the `q`, and the call returns with the
cursor on the `}` at offset 4.  What holds is the first part of the claim:
whenever `Parse` returns, the cursor is on a `}` (an argument id ends on `:`
or `}`); and `Parse` throws `InvalidFormatStringException` on `{:5dq}` and on
`{0:d5}`, while on `{0:5d}` it returns with the cursor on the `}`. -/
theorem trailing_character_not_always_rejected :
    detail.ArgumentFormatter.scanClose detail.fmtWideTrailing 0 = 14 ∧
      (∀ (u : detail.Indeterminate) (ra : detail.Align),
        (detail.ArgumentParser.new detail.fmtWideTrailing 0 14 u).Parse ra
          = .error .std_out_of_range) ∧
      detail.ArgumentFormatter.scanClose detail.fmtAlignTrailing 0 = 4 ∧
      (∀ (u : detail.Indeterminate) (ra : detail.Align),
        ∃ r q, (detail.ArgumentParser.new detail.fmtAlignTrailing 0 4 u).Parse ra = .ok (r, q) ∧
          q.from_ = 4) ∧
      detail.parsed detail.fmtAlignTrailing 4 detail.zeroed detail.Align.DEFAULT
        = some ('<', detail.Align.DEFAULT, 0, detail.Align.LEFT, 4) ∧
      detail.charAt detail.fmtAlignTrailing 3 = 'q' ∧
      (∀ (ps : detail.ArgumentParser) (ra : detail.Align) (r : detail.ArgParseResult)
        (q : detail.ArgumentParser), ps.Parse ra = .ok (r, q) → q.Current = '}') ∧
      (∀ (ps q : detail.ArgumentParser) (id : List Char),
        ps.ParseArgumentId = .ok (id, q) → q.Current = ':' ∨ q.Current = '}') ∧
      detail.ArgumentFormatter.scanClose detail.fmtTrailing 0 = 5 ∧
      (∀ (u : detail.Indeterminate) (ra : detail.Align),
        (detail.ArgumentParser.new detail.fmtTrailing 0 5 u).Parse ra
          = .error .InvalidFormatString) ∧
      detail.ArgumentFormatter.scanClose detail.fmtTypeDigit 0 = 5 ∧
      (∀ (u : detail.Indeterminate) (ra : detail.Align),
        (detail.ArgumentParser.new detail.fmtTypeDigit 0 5 u).Parse ra
          = .error .InvalidFormatString) ∧
      detail.parsed detail.fmtWidthType 5 detail.zeroed detail.Align.DEFAULT
        = some (' ', detail.Align.DEFAULT, 5, detail.Align.DEFAULT, 5) ∧
      detail.charAt detail.fmtWidthType 5 = '}' := by
  refine ⟨by decide, ?_, by decide, ?_, by decide, by decide,
    detail.ArgumentParser.Parse_ok_cursor, ?_, by decide, ?_, by decide, ?_,
    by decide, by decide⟩
  · intro u ra
    exact detail.ArgumentParser.Parse_error_any _ 0 14 detail.zeroed u detail.Align.DEFAULT ra _
      (by decide)
  · intro u ra
    have h0 : (detail.ArgumentParser.new detail.fmtAlignTrailing 0 4 detail.zeroed).Parse
        detail.Align.DEFAULT
        = .ok ({ arg_id := [], fill := '<', align := detail.Align.DEFAULT,
                 width := { width := 0, id := [], is_reference := false },
                 precision := { precision := 0, id := [], is_reference := false },
                 flags := 0, type := detail.NUL },
               { str := detail.fmtAlignTrailing, from_ := 4, to_ := 4, arg_id := [],
                 fill := '<', align := detail.Align.LEFT,
                 width := { width := 0, id := [], is_reference := false },
                 precision := { precision := 0, id := [], is_reference := false },
                 flags := 0, type := detail.NUL }) := by decide
    obtain ⟨r2, q2, h2, h3⟩ := detail.ArgumentParser.Parse_ok_any _ 0 4 detail.zeroed u
      detail.Align.DEFAULT ra _ _ h0
    exact ⟨r2, q2, h2, h3⟩
  · intro ps q id h
    have := detail.ArgumentParser.ParseArgumentId_ok_end ps id q h
    simpa [detail.ArgumentParser.IsArgIdEnd] using this
  · intro u ra
    exact detail.ArgumentParser.Parse_error_any _ 0 5 detail.zeroed u detail.Align.DEFAULT ra _
      (by decide)
  · intro u ra
    exact detail.ArgumentParser.Parse_error_any _ 0 5 detail.zeroed u detail.Align.DEFAULT ra _
      (by decide)

/-- Claim C22, at its failing input: compiling `{:99999999999}` throws
`std::out_of_range` (from `std::stoi` on the width, inside the first `Parse`
call), not `InvalidFormatStringException`.  What holds of every format string
with a `{` is that its construction throws one of these two exceptions; a
`Parse` call on a parser that a first call has returned from throws
`InvalidFormatStringException`; a format string that compiles holds no `{` and
stores no spec; and every format string without `{` compiles. -/
theorem open_brace_never_compiles (mem : Nat → detail.Indeterminate) :
    detail.ArgumentFormatter.new detail.fmtWideClosed mem = .error .std_out_of_range ∧
      (∀ (u : detail.Indeterminate) (ra : detail.Align),
        (detail.ArgumentParser.new detail.fmtWideClosed 0 13 u).Parse ra
          = .error .std_out_of_range) ∧
      (∀ format : List Char, '{' ∈ format →
        detail.ArgumentFormatter.new format mem = .error .InvalidFormatString ∨
          detail.ArgumentFormatter.new format mem = .error .std_out_of_range) ∧
      (∀ (ps q : detail.ArgumentParser) (ra rb : detail.Align) (r : detail.ArgParseResult),
        ps.Parse ra = .ok (r, q) → q.Parse rb = .error .InvalidFormatString) ∧
      (∀ (format : List Char) (f : detail.ArgumentFormatter),
        detail.ArgumentFormatter.new format mem = .ok f →
          (∀ c ∈ format, c ≠ '{') ∧ f.args = []) ∧
      (∀ format : List Char, (∀ c ∈ format, c ≠ '{') →
        ∃ f, detail.ArgumentFormatter.new format mem = .ok f) := by
  refine ⟨detail.new_error_mem _ (fun _ => detail.zeroed) mem _ (by decide), ?_, ?_, ?_, ?_, ?_⟩
  · intro u ra
    exact detail.ArgumentParser.Parse_error_any _ 0 13 detail.zeroed u detail.Align.DEFAULT ra _
      (by decide)
  · intro format hmem
    rcases detail.new_total format mem with ⟨x, hx, ht⟩ | ⟨f, hf⟩
    · rcases ht with rfl | rfl
      · exact Or.inl hx
      · exact Or.inr hx
    · exact absurd rfl (detail.new_ok_no_open format mem f hf '{' hmem)
  · intro ps q ra rb r h
    exact detail.ArgumentParser.Parse_at_close _ _ (detail.ArgumentParser.Parse_ok_cursor _ _ _ _ h)
  · intro format f h
    have hno := detail.new_ok_no_open format mem f h
    refine ⟨hno, ?_⟩
    rw [detail.new_literal format mem hno] at h
    cases h
    rfl
  · intro format hno
    exact ⟨_, detail.new_literal format mem hno⟩

/-- Claim C23: a format string that compiles has at least as many literals as
specs and at most one more; every access `consts[0]` and `consts[i+1]` of
`Format` is then inside the vector (the checked `Format` never meets an index
outside of it and gives what `Format` gives), and the trailing loop of
`Format` runs no round. -/
theorem consts_bound_args (format : List Char) (mem : Nat → detail.Indeterminate)
    (f : detail.ArgumentFormatter) (h : detail.ArgumentFormatter.new format mem = .ok f) :
    f.args.length ≤ f.consts.length ∧ f.consts.length ≤ f.args.length + 1 ∧
      (∀ arguments : List detail.Arg, f.FormatChecked arguments = some (f.Format arguments)) ∧
      f.trailingRounds = 0 ∧ f.consts.drop (f.args.length + 1) = [] := by
  have hlen : f.args.length ≤ f.consts.length ∧ f.consts.length ≤ f.args.length + 1 := by
    unfold detail.ArgumentFormatter.new at h
    split at h
    · cases h
    · rename_i b hb
      have hc := detail.loop_counts format mem _ _ _ _ hb rfl
      cases h
      dsimp only
      split
      · rw [List.length_append, hc]; simp
      · rw [hc]; simp
  refine ⟨hlen.1, hlen.2, fun arguments => detail.ArgumentFormatter.FormatChecked_eq f arguments,
    ?_, ?_⟩
  · unfold detail.ArgumentFormatter.trailingRounds
    omega
  · exact List.drop_eq_nil_of_le hlen.2

/-- Witness of C23: `hello` compiles to one literal and no spec, and renders
with every access inside the vector. -/
theorem consts_bound_args_witness :
    detail.ArgumentFormatter.new ['h', 'e', 'l', 'l', 'o'] (fun _ => detail.zeroed)
        = .ok { format := ['h', 'e', 'l', 'l', 'o'], consts := [['h', 'e', 'l', 'l', 'o']],
                args := [] } ∧
      detail.ArgumentFormatter.FormatChecked
          { format := ['h', 'e', 'l', 'l', 'o'], consts := [['h', 'e', 'l', 'l', 'o']],
            args := [] } [detail.Arg.integral 1]
        = some (.ok ['h', 'e', 'l', 'l', 'o']) :=
  ⟨by decide,
   ((consts_bound_args ['h', 'e', 'l', 'l', 'o'] (fun _ => detail.zeroed)
      { format := ['h', 'e', 'l', 'l', 'o'], consts := [['h', 'e', 'l', 'l', 'o']], args := [] }
      (by decide)).2.2.1 [detail.Arg.integral 1]).trans (by decide)⟩

/-- Claim C24: the construction ends for every format string, with a compiled
template or with a thrown `InvalidFormatStringException` or
`std::out_of_range`, never with a loop still running.  The alignment loop ends
within two rounds whatever the parser; the end the constructor hands to a
parser is the first `}` behind the `{` or the end of the string; and for a
parser with such an end, each round of the digit loop and of the identifier
loop moves the cursor by one, and both loops return.  (With an end inside a
run of digits the digit loop does not end: the cursor stops at the end, on a
digit.) -/
theorem construction_terminates (format : List Char) (mem : Nat → detail.Indeterminate) :
    detail.ArgumentFormatter.new format mem ≠ .error .outOfFuel ∧
      ((∃ f, detail.ArgumentFormatter.new format mem = .ok f) ∨
        detail.ArgumentFormatter.new format mem = .error .InvalidFormatString ∨
        detail.ArgumentFormatter.new format mem = .error .std_out_of_range) ∧
      (∀ (n : Nat) (ps : detail.ArgumentParser) (p : Char),
        detail.ArgumentParser.alignLoop (n + 2) ps p ≠ .error .outOfFuel) ∧
      (∀ it, it ≤ format.length →
        it ≤ detail.ArgumentFormatter.scanClose (format.drop it) it ∧
          detail.isEnd format (detail.ArgumentFormatter.scanClose (format.drop it) it)) ∧
      (∀ (e : Nat) (ps : detail.ArgumentParser), detail.isEnd format e →
        detail.within format e ps →
        (ps.IsDigit = true → ps.Next.from_ = ps.from_ + 1) ∧
          ((!ps.IsArgIdEnd && (ps.IsDigit || ps.IsIdentifierStart)) = true →
            ps.Next.from_ = ps.from_ + 1) ∧
          (∀ acc, ∃ x q, detail.ArgumentParser.digitLoop ps.loopFuel ps acc = .ok (x, q)) ∧
          (∀ acc, ∃ x q, detail.ArgumentParser.identLoop ps.loopFuel ps acc = .ok (x, q))) ∧
      detail.ArgumentParser.digitLoop
          (detail.ArgumentParser.new ['1', '2', '3'] 0 1 detail.zeroed).loopFuel
          (detail.ArgumentParser.new ['1', '2', '3'] 0 1 detail.zeroed) []
        = .error .outOfFuel := by
  have htot := detail.new_total format mem
  refine ⟨?_, ?_, detail.ArgumentParser.alignLoop_fuel, ?_, ?_, by decide⟩
  · rcases htot with ⟨x, hx, ht⟩ | ⟨f, hf⟩
    · rw [hx]
      rcases ht with rfl | rfl <;> (intro h; cases h)
    · rw [hf]; intro h; cases h
  · rcases htot with ⟨x, hx, ht⟩ | ⟨f, hf⟩
    · rcases ht with rfl | rfl
      · exact Or.inr (Or.inl hx)
      · exact Or.inr (Or.inr hx)
    · exact Or.inl ⟨f, hf⟩
  · intro it hit
    exact detail.scanClose_isEnd format it hit
  · intro e ps hend hw
    refine ⟨?_, ?_, ?_, ?_⟩
    · intro hd
      apply detail.ArgumentParser.Next_advances format e hend ps hw
      unfold detail.isIdentChar
      rw [← detail.ArgumentParser.IsDigit_eq, hd]
      rfl
    · intro hd
      apply detail.ArgumentParser.Next_advances format e hend ps hw
      unfold detail.isIdentChar
      rw [← detail.ArgumentParser.IsDigit_eq, ← detail.ArgumentParser.IsIdentifierStart_eq]
      simp only [Bool.and_eq_true] at hd
      exact hd.2
    · intro acc
      obtain ⟨run, q, h1, _⟩ := detail.ArgumentParser.digitLoop_total format e hend ps.loopFuel
        ps acc hw (detail.ArgumentParser.loopFuel_within format e hend ps hw)
      exact ⟨_, _, h1⟩
    · intro acc
      obtain ⟨x, q, h1, _⟩ := detail.ArgumentParser.identLoop_total format e hend ps.loopFuel
        ps acc hw (detail.ArgumentParser.loopFuel_within format e hend ps hw)
      exact ⟨_, _, h1⟩

/-- Claim C25, at its failing input: `ToCompileTimeString<0>` is the empty
string, not `0` (`Explode<0>` is the specialisation that ends the recursion,
with no digit), so that the escape code of `Reset` is `\033[m`, while the
destructor of the sequence writes `\033[0m` as reset.  Every other number is
written in decimal: its digits, the most significant first, with no leading
zero, as `std::to_string` writes it; 107 gives `107` and 32 gives `32`. -/
theorem zero_code_has_no_digit :
    Ansi.detail.ToCompileTimeString 0 = [] ∧
      Ansi.detail.AnsiCode Ansi.Reset = some ['\x1b', '[', 'm'] ∧
      (∀ (out : Nat) (streams : Ansi.detail.Streams),
        ∃ seq after, Ansi.detail.EscapeSequence.new Ansi.Reset out streams
              = some (seq, Ansi.detail.put streams out ['\x1b', '[', 'm']) ∧
          seq.destroy (Ansi.detail.put streams out ['\x1b', '[', 'm']) = some after ∧
          after out = streams out ++ ['\x1b', '[', 'm'] ++ ['\x1b', '[', '0', 'm']) ∧
      Ansi.detail.ToCompileTimeString 107 = ['1', '0', '7'] ∧
      Ansi.detail.ToCompileTimeString 32 = ['3', '2'] ∧
      (∀ v, v ≠ 0 →
        Ansi.detail.ToCompileTimeString v = detail.ArgumentFormatter.to_string v ∧
          detail.digitsValue (Ansi.detail.ToCompileTimeString v) = v ∧
          (∀ c ∈ Ansi.detail.ToCompileTimeString v, detail.isDigitChar c = true) ∧
          ∃ c r, Ansi.detail.ToCompileTimeString v = c :: r ∧ c ≠ '0') ∧
      detail.ArgumentFormatter.to_string 0 = ['0'] := by
  have hreset : Ansi.detail.AnsiCode Ansi.Reset = some ['\x1b', '[', 'm'] := by
    rw [Ansi.detail.AnsiCode_eq Ansi.Reset 0 [] rfl]
    simp only [List.map, Ansi.detail.ToCompileTimeString_zero]
    decide
  refine ⟨Ansi.detail.ToCompileTimeString_zero, hreset, ?_, ?_, ?_, ?_, by decide⟩
  · intro out streams
    refine ⟨{ L := Ansi.Reset, reset := true, out := some out }, _, ?_, rfl, ?_⟩
    · simp [Ansi.detail.EscapeSequence.new, hreset]
    · simp [Ansi.detail.put]
  · rw [Ansi.detail.ToCompileTimeString_pos 107 (by decide)]; decide
  · rw [Ansi.detail.ToCompileTimeString_pos 32 (by decide)]; decide
  · intro v hv
    obtain ⟨h1, h2, h3⟩ := Ansi.detail.ToCompileTimeString_decimal (v + 1) v (Nat.lt_succ_self v)
    exact ⟨Ansi.detail.ToCompileTimeString_pos v hv, h1, h2, h3 hv⟩

end Canary
